import Mathlib

/-!
# hello-web: the HTTP service of `cmd/hello-web/main.go`

A shallow embedding of the program and of the parts of the Go standard library
its behaviour rests on, followed by the theorems that settle what the
specification says of it.

* A Go string is a list of bytes. The handlers are functions from the response
  writer, the request and the world (clocks, hostname, environment, standard
  output) to the writer and the world they leave behind.
* The response writer records what a handler does through the
  `http.ResponseWriter` interface: headers, status, body bytes. The response
  that is sent is derived from it as the server derives it: a HEAD request gets
  the status and the headers and no body.
* A clock reading has a wall clock part and a monotonic part; `time.Now` keeps
  the monotonic part only while the wall clock is between 1885 and 2157, and
  `time.Since` measures by the monotonic clock when it can and by the wall
  clock otherwise.
* `encoding/json`, `time`, `path`, `net/url` and `net/http` are embedded as far
  as the program uses them; each definition names the library function it
  follows.
-/

namespace HelloWeb


/-! # Strings, requests and the response writer -/

/-- A Go `string`: an immutable sequence of bytes. -/
abbrev GoString := List UInt8

/-- The bytes of an ASCII string literal of the source. -/
def lit (s : String) : GoString := s.data.map (fun c => c.toNat.toUInt8)

/-- The `http.Header` map: canonical key to its list of values. -/
abbrev Header := List (GoString × List GoString)

/-- Go's `Header.Set`: replaces whatever the key held by the single value. -/
def Header.Set (h : Header) (key value : GoString) : Header :=
  (key, [value]) :: h.filter (fun e => e.1 ≠ key)

/-- Go's `Header.Get`: the first value of the key, the empty string when absent. -/
def Header.Get (h : Header) (key : GoString) : GoString :=
  match h.find? (fun e => e.1 = key) with
  | some (_, v :: _) => v
  | _ => []

/-- The part of `*http.Request` a handler or the mux can look at. -/
structure Request where
  Method : GoString
  RequestURI : GoString
  Path : GoString
  RawQuery : GoString
  ProtoMajor : Nat
  ProtoMinor : Nat
  Host : GoString
  Header : Header
  Body : GoString

/-- What a handler has done to its `http.ResponseWriter`: the live header map,
whether the status line went out, the status and the headers that went out with
it, and the body bytes written so far. -/
structure ResponseWriter where
  header : Header
  wroteHeader : Bool
  status : Nat
  sent : Header
  body : GoString
deriving DecidableEq

/-- The writer the server hands to the handler of a new request. -/
def ResponseWriter.fresh : ResponseWriter :=
  { header := [], wroteHeader := false, status := 0, sent := [], body := [] }

/-- Go's `w.Header().Set(key, value)`. -/
def ResponseWriter.SetHeader (w : ResponseWriter) (key value : GoString) : ResponseWriter :=
  { w with header := w.header.Set key value }

/-- Go's `w.WriteHeader(code)`: the first call fixes the status and the headers,
later calls are ignored. -/
def ResponseWriter.WriteHeader (w : ResponseWriter) (code : Nat) : ResponseWriter :=
  if w.wroteHeader then w
  else { w with wroteHeader := true, status := code, sent := w.header }

/-- Go's `bodyAllowedForStatus` of net/http. -/
def bodyAllowedForStatus (status : Nat) : Bool :=
  if 100 ≤ status ∧ status ≤ 199 then false
  else if status = 204 then false
  else if status = 304 then false
  else true

/-- Go's `w.Write(data)`: sends the status line with 200 when it has not gone out
yet, then appends the data unless the status forbids a body. -/
def ResponseWriter.Write (w : ResponseWriter) (data : GoString) : ResponseWriter :=
  let w1 := if w.wroteHeader then w else w.WriteHeader 200
  if bodyAllowedForStatus w1.status then { w1 with body := w1.body ++ data } else w1

/-- What the server does when the handler returns: a handler that never wrote
gets the status line with 200. -/
def ResponseWriter.finish (w : ResponseWriter) : ResponseWriter :=
  if w.wroteHeader then w else w.WriteHeader 200

/-- What goes out on the connection in answer to a request: the status, the
headers the handler had set when the status line went out, and the body. The
headers the server adds of its own (Date, Content-Length, Connection) are left
out. -/
structure SentResponse where
  status : Nat
  header : Header
  body : GoString
deriving DecidableEq

/-- What the connection has sent once the server has finished the request
(`finishRequest`): the writes of the handler went through `chunkWriter.Write`,
which sends the status line and the headers and keeps the body bytes back when
the request method is HEAD. -/
def ResponseWriter.response (w : ResponseWriter) (r : Request) : SentResponse :=
  { status := w.finish.status,
    header := w.finish.sent,
    body := if r.Method = lit "HEAD" then [] else w.finish.body }

/-! # The world outside the process -/

/-- One reading of the system clocks: the wall clock in seconds since the Unix
epoch and nanoseconds within the second, the monotonic clock in nanoseconds
since the process started, and the offset in seconds east of UTC that the local
zone has at that instant. -/
structure Reading where
  sec : Int
  nsec : Nat
  mono : Int
  offset : Int
deriving DecidableEq

/-- The state outside the handlers: the successive clock readings and how many
were taken, the outcome of the hostname system call and how often it was made,
the process environment and what was printed to standard output. -/
structure World where
  clock : Nat → Reading
  tick : Nat
  hostname : Except GoString GoString
  lookups : Nat
  env : GoString → Option GoString
  stdout : GoString

/-- Go's `os.Hostname()`: the name and no error, or the empty name and the error. -/
def World.Hostname (w : World) : (GoString × Option GoString) × World :=
  (match w.hostname with
   | .ok name => (name, none)
   | .error e => ([], some e),
   { w with lookups := w.lookups + 1 })

/-- Go's `os.Getenv(key)`: the value, the empty string when the variable is unset. -/
def World.Getenv (w : World) (key : GoString) : GoString :=
  match w.env key with
  | some v => v
  | none => []

/-- Go's `fmt.Printf` once its arguments are formatted: the bytes go to standard output. -/
def World.Print (w : World) (s : GoString) : World :=
  { w with stdout := w.stdout ++ s }

/-- An `http.Handler`: it acts on the writer and on the world. -/
abbrev Handler := ResponseWriter → Request → World → ResponseWriter × World

/-! # getenv -/

/-- The function `getenv` of main.go. -/
def getenv (w : World) (key def_ : GoString) : GoString :=
  let v := w.Getenv key
  if v = [] then def_ else v

/-! # The /healthz handler -/

/-- The handler main registers for "/healthz". -/
def healthzHandler : Handler := fun w _ world =>
  let w := w.SetHeader (lit "Content-Type") (lit "text/plain; charset=utf-8")
  let w := w.WriteHeader 200
  (w.Write (lit "ok\n"), world)

/-! # Durations, the clock and the logging middleware -/

/-- A `time.Duration`: a count of nanoseconds held in an int64. -/
abbrev Duration := Int

/-- Conversion of an integer to int64 by wraparound. -/
def wrap64 (x : Int) : Int := (x + 2 ^ 63) % 2 ^ 64 - 2 ^ 63

def minDuration : Duration := -(2 ^ 63)

def maxDuration : Duration := 2 ^ 63 - 1

/-- Go's `subMono` of package time: the difference of two monotonic readings,
saturated at the ends of the int64 range. -/
def subMono (t u : Int) : Duration :=
  let d := wrap64 (t - u)
  if d < 0 ∧ t > u then maxDuration
  else if d > 0 ∧ t < u then minDuration
  else d

/-- Go's `time.Second`. -/
def Second : Duration := 1000000000

/-- Seconds from 1 January of year 1 to the Unix epoch, `unixToInternal`. -/
def unixToInternal : Int := (1969 * 365 + 1969 / 4 - 1969 / 100 + 1969 / 400) * 86400

/-- Seconds from 1 January of year 1 to 1 January 1885, `wallToInternal`. -/
def wallToInternal : Int := (1884 * 365 + 1884 / 4 - 1884 / 100 + 1884 / 400) * 86400

def minWall : Int := wallToInternal

/-- A `time.Time`: the wall clock as seconds since the Unix epoch (`t.unixSec()`)
and nanoseconds within the second (`t.nsec()`), the monotonic reading when the
value carries one (`hasMonotonic`), and the offset in seconds east of UTC of
its location. -/
structure Time where
  sec : Int
  nsec : Nat
  mono : Option Int
  offset : Int
deriving DecidableEq

/-- The runtime's `now()`: the next reading of the clocks, the wall seconds and
the monotonic nanoseconds as the int64 values they are, the nanoseconds of the
second below 10^9. -/
def World.now (w : World) : Reading × World :=
  let c := w.clock w.tick
  ({ sec := wrap64 c.sec, nsec := c.nsec % 1000000000, mono := wrap64 c.mono,
     offset := c.offset },
   { w with tick := w.tick + 1 })

/-- Go's `time.Now()`: the reading keeps its monotonic part when the wall seconds,
counted from 1885, fit in 33 bits (until the year 2157), and is wall clock only
otherwise. -/
def World.Now (w : World) : Time × World :=
  let (c, w) := w.now
  let sec := wrap64 (c.sec + (unixToInternal - minWall))
  (if sec % 2 ^ 64 / 2 ^ 33 ≠ 0 then
     { sec := c.sec, nsec := c.nsec, mono := none, offset := c.offset }
   else
     { sec := c.sec, nsec := c.nsec, mono := some c.mono, offset := c.offset },
   w)

/-- Go's `t.sec()`: seconds since 1 January of year 1, an int64. -/
def Time.internalSec (t : Time) : Int := wrap64 (t.sec + unixToInternal)

/-- Go's `t.addSec(d)` as far as the seconds go: within the 33 bits of a value with a
monotonic reading the sum is kept; otherwise it is an int64 sum that stops at
the ends of the range. The result is in seconds since 1 January of year 1. -/
def Time.addSec (t : Time) (d : Int) : Int :=
  let wallSec := t.internalSec - wallToInternal
  if t.mono.isSome ∧ 0 ≤ wallSec + d ∧ wallSec + d ≤ 2 ^ 33 - 1 then t.internalSec + d
  else
    let ext := t.internalSec
    let sum := wrap64 (ext + d)
    if decide (sum > ext) = decide (d > 0) then sum
    else if d > 0 then 2 ^ 63 - 1
    else -(2 ^ 63 - 1)

/-- Go's `t.Add(d)`: the wall clock moved by `d`; the monotonic reading moves with it
unless it leaves the int64 range or the seconds leave the 33 bits. -/
def Time.Add (t : Time) (d : Duration) : Time :=
  let dsec := Int.tdiv d 1000000000
  let nsec : Int := t.nsec + Int.tmod d 1000000000
  let dsec := if nsec ≥ 1000000000 then dsec + 1 else if nsec < 0 then dsec - 1 else dsec
  let nsec := if nsec ≥ 1000000000 then nsec - 1000000000
    else if nsec < 0 then nsec + 1000000000 else nsec
  let wallSec := t.internalSec - wallToInternal
  let mono :=
    match t.mono with
    | none => none
    | some ext =>
      if 0 ≤ wallSec + dsec ∧ wallSec + dsec ≤ 2 ^ 33 - 1 then
        let te := wrap64 (ext + d)
        if (d < 0 ∧ te > ext) ∨ (d > 0 ∧ te < ext) then none else some te
      else none
  { sec := t.addSec dsec - unixToInternal, nsec := nsec.toNat, mono := mono, offset := t.offset }

/-- Go's `t.Equal(u)`: by the monotonic readings when both values carry one, by the
wall clock otherwise. -/
def Time.Equal (t u : Time) : Bool :=
  match t.mono, u.mono with
  | some a, some b => a = b
  | _, _ => t.internalSec = u.internalSec ∧ t.nsec = u.nsec

/-- Go's `t.Before(u)`. -/
def Time.Before (t u : Time) : Bool :=
  match t.mono, u.mono with
  | some a, some b => a < b
  | _, _ => t.internalSec < u.internalSec ∨ (t.internalSec = u.internalSec ∧ t.nsec < u.nsec)

/-- Go's `t.Sub(u)`: the difference of the monotonic readings when both values carry
one; otherwise the difference of the wall clocks, replaced by the smallest or
largest duration when it does not fit in an int64. -/
def Time.Sub (t u : Time) : Duration :=
  match t.mono, u.mono with
  | some a, some b => subMono a b
  | _, _ =>
    let d := wrap64 (wrap64 (wrap64 (t.internalSec - u.internalSec) * Second)
      + ((t.nsec : Int) - (u.nsec : Int)))
    if (u.Add d).Equal t then d
    else if t.Before u then minDuration
    else maxDuration

/-- Go's `time.Since(start)`: when `start` carries a monotonic reading, the
monotonic clock is read and the readings are subtracted; otherwise the clocks
are read with `Now` and the wall clocks are subtracted. -/
def World.Since (w : World) (start : Time) : Duration × World :=
  match start.mono with
  | some m =>
    let (c, w) := w.now
    (subMono c.mono m, w)
  | none =>
    let (now, w) := w.Now
    (now.Sub start, w)

/-- The byte of a decimal digit, `byte(digit) + '0'`. -/
def digitByte (d : Nat) : UInt8 := UInt8.ofNat (48 + d)

/-- The loop of `fmtFrac`: `prec` digits are taken off the low end of `v`, and
written in front of `buf` once a non-zero one was seen. -/
def fmtFracLoop : Nat → Bool → GoString → Nat → Bool × GoString × Nat
  | 0, print, buf, v => (print, buf, v)
  | i + 1, print, buf, v =>
    let digit := v % 10
    let print := print || digit != 0
    let buf := if print then digitByte digit :: buf else buf
    fmtFracLoop i print buf (v / 10)

/-- Go's `fmtFrac` of package time: the fraction of `v / 10^prec` without trailing
zeros is put in front of `buf`, with the decimal point unless it is zero. -/
def fmtFrac (buf : GoString) (v : Nat) (prec : Nat) : GoString × Nat :=
  match fmtFracLoop prec false buf v with
  | (print, buf, v) => (if print then 46 :: buf else buf, v)

/-- The loop of `fmtInt`; a uint64 has at most 20 decimal digits. -/
def fmtIntLoop : Nat → GoString → Nat → GoString
  | 0, buf, _ => buf
  | fuel + 1, buf, v =>
    if v > 0 then fmtIntLoop fuel (digitByte (v % 10) :: buf) (v / 10) else buf

/-- Go's `fmtInt` of package time: the decimal digits of `v` are put in front of `buf`. -/
def fmtInt (buf : GoString) (v : Nat) : GoString :=
  if v = 0 then 48 :: buf else fmtIntLoop 20 buf v

/-- Go's `Duration.String`: "0s", "1.5µs", "20ms", "1m30s", "72h3m0.5s". The buffer
is filled from the right, as in `Duration.format`. -/
def Duration.String (d : Duration) : GoString :=
  let u := d.natAbs % 2 ^ 64
  if u < 1000000000 then
    if u = 0 then lit "0s"
    else
      let unit : GoString :=
        if u < 1000 then lit "ns"
        else if u < 1000000 then [0xC2, 0xB5, 115]
        else lit "ms"
      let prec := if u < 1000 then 0 else if u < 1000000 then 3 else 6
      match fmtFrac unit u prec with
      | (buf, u) =>
        let buf := fmtInt buf u
        if d < 0 then 45 :: buf else buf
  else
    match fmtFrac (lit "s") u 9 with
    | (buf, u) =>
      let buf := fmtInt buf (u % 60)
      let u := u / 60
      let buf :=
        if u > 0 then
          let buf := fmtInt (109 :: buf) (u % 60)
          let u := u / 60
          if u > 0 then fmtInt (104 :: buf) u else buf
        else buf
      if d < 0 then 45 :: buf else buf

/-- The function `loggingMiddleware` of main.go: the clock is read, `next` serves the
request on the same writer, and one line with the method, the path and the
time since the first reading is printed. -/
def loggingMiddleware (next : Handler) : Handler := fun w r world =>
  let (start, world) := world.Now
  let (w, world) := next w r world
  let (elapsed, world) := world.Since start
  (w, world.Print (r.Method ++ lit " " ++ r.Path ++ lit " " ++ Duration.String elapsed ++ lit "\n"))

/-! # Formatting a time as RFC 3339

The date of an absolute time is computed the way `absDate` of package time does
it up to Go 1.22, by peeling off 400-, 100-, 4- and 1-year cycles. Later
releases compute the same date by another route. -/

/-- Seconds from the zero of the absolute time scale of package time (1 January
of year -292277022399) to the Unix epoch: `unixToInternal + internalToAbsolute`. -/
def unixToAbsolute : Int := 62135596800 + 9223371966579724800

def absoluteZeroYear : Int := -292277022399

/-- Go's `Time.UTC`: the same instant with the location set to UTC; the monotonic
reading is dropped. -/
def Time.UTC (t : Time) : Time := { t with mono := none, offset := 0 }

/-- Go's `Time.abs`: seconds since the absolute zero, in the time's location, as a uint64. -/
def Time.abs (t : Time) : Nat := ((t.sec + t.offset + unixToAbsolute) % 2 ^ 64).toNat

/-- Go's `isLeap` of package time. -/
def isLeap (year : Int) : Bool :=
  year % 4 = 0 ∧ (year % 100 ≠ 0 ∨ year % 400 = 0)

/-- Go's `daysBefore` of package time: days of a non-leap year before each month. -/
def daysBefore : List Nat :=
  [0, 31, 31 + 28, 31 + 28 + 31, 31 + 28 + 31 + 30, 31 + 28 + 31 + 30 + 31,
   31 + 28 + 31 + 30 + 31 + 30, 31 + 28 + 31 + 30 + 31 + 30 + 31,
   31 + 28 + 31 + 30 + 31 + 30 + 31 + 31, 31 + 28 + 31 + 30 + 31 + 30 + 31 + 31 + 30,
   31 + 28 + 31 + 30 + 31 + 30 + 31 + 31 + 30 + 31,
   31 + 28 + 31 + 30 + 31 + 30 + 31 + 31 + 30 + 31 + 30,
   31 + 28 + 31 + 30 + 31 + 30 + 31 + 31 + 30 + 31 + 30 + 31]

/-- The first half of `absDate`: the year and the day within the year (from 0)
of an absolute time. -/
def absYearDay (abs : Nat) : Int × Nat :=
  let d := abs / 86400
  -- 400-year cycles
  let n := d / 146097
  let y := 400 * n
  let d := d - 146097 * n
  -- 100-year cycles; the last one is a day longer, 4 is cut to 3
  let n := d / 36524
  let n := n - n / 4
  let y := y + 100 * n
  let d := d - 36524 * n
  -- 4-year cycles
  let n := d / 1461
  let y := y + 4 * n
  let d := d - 1461 * n
  -- years of a 4-year cycle; the last one is a day longer, 4 is cut to 3
  let n := d / 365
  let n := n - n / 4
  let y := y + n
  let d := d - 365 * n
  ((y : Int) + absoluteZeroYear, d)

/-- The second half of `absDate`: month (1 to 12) and day of the month of a day
of the year. -/
def monthDay (leap : Bool) (yday : Nat) : Nat × Nat :=
  if leap ∧ yday = 31 + 29 - 1 then (2, 29)
  else
    let day := if leap ∧ yday > 31 + 29 - 1 then yday - 1 else yday
    let month := day / 31
    let end_ := daysBefore.getD (month + 1) 0
    if day ≥ end_ then (month + 1 + 1, day - end_ + 1)
    else (month + 1, day - daysBefore.getD month 0 + 1)

/-- Go's `absClock`: hour, minute and second of an absolute time. -/
def absClock (abs : Nat) : Nat × Nat × Nat :=
  let sec := abs % 86400
  let hour := sec / 3600
  let sec := sec - hour * 3600
  let min := sec / 60
  let sec := sec - min * 60
  (hour, min, sec)

/-- Go's `appendInt` of package time: the decimal form of `x`, zero-padded to `width`
digits, after a minus sign when `x` is negative. -/
def appendInt (x : Int) (width : Nat) : GoString :=
  let digits := fmtInt [] x.natAbs
  (if x < 0 then [45] else []) ++ List.replicate (width - digits.length) 48 ++ digits

/-- Go's `t.Format(time.RFC3339)`, that is `appendFormatRFC3339` without the fraction. -/
def Time.FormatRFC3339 (t : Time) : GoString :=
  let abs := t.abs
  let (year, yday) := absYearDay abs
  let (month, day) := monthDay (isLeap year) yday
  let (hour, min, sec) := absClock abs
  let b := appendInt year 4 ++ [45] ++ appendInt month 2 ++ [45] ++ appendInt day 2
    ++ [84] ++ appendInt hour 2 ++ [58] ++ appendInt min 2 ++ [58] ++ appendInt sec 2
  if t.offset = 0 then b ++ [90]
  else
    let zone := Int.tdiv t.offset 60
    let sign : GoString := if zone < 0 then [45] else [43]
    let zone := if zone < 0 then -zone else zone
    b ++ sign ++ appendInt (Int.tdiv zone 60) 2 ++ [58] ++ appendInt (Int.tmod zone 60) 2

/-! # encoding/json: string literals

The encoder escapes as `appendString` of Go 1.22 and later does, with the short
forms for backspace and form feed; earlier releases write the same two
characters as a \u00XX escape, which reads back as the same character. -/

/-- Go's `utf8.RuneError`. -/
def RuneError : Nat := 0xFFFD

/-- The tables `first` and `acceptRanges` of unicode/utf8 for a leading byte
from 0x80 on: the length of the sequence and the range the second byte must lie
in, `none` for a byte that begins no sequence. -/
def utf8First (b0 : Nat) : Option (Nat × Nat × Nat) :=
  if b0 < 0xC2 ∨ 0xF4 < b0 then none
  else if b0 < 0xE0 then some (2, 0x80, 0xBF)
  else if b0 = 0xE0 then some (3, 0xA0, 0xBF)
  else if b0 = 0xED then some (3, 0x80, 0x9F)
  else if b0 < 0xF0 then some (3, 0x80, 0xBF)
  else if b0 = 0xF0 then some (4, 0x90, 0xBF)
  else if b0 = 0xF4 then some (4, 0x80, 0x8F)
  else some (4, 0x80, 0xBF)

/-- Go's `utf8.DecodeRuneInString`: the first rune of `s` and its width in bytes;
`(RuneError, 1)` for a byte sequence that is not valid UTF-8 and `(RuneError, 0)`
for the empty string. The masks `s0&mask2`, `&mask3`, `&mask4` and `&maskx` are
the remainders by 32, 16, 8 and 64, the shifts are products. -/
def DecodeRuneInString (s : GoString) : Nat × Nat :=
  match s with
  | [] => (RuneError, 0)
  | s0 :: rest =>
    let b0 := s0.toNat
    if b0 < 0x80 then (b0, 1)
    else
      match utf8First b0 with
      | none => (RuneError, 1)
      | some (sz, lo, hi) =>
        if s.length < sz then (RuneError, 1)
        else
          match rest with
          | [] => (RuneError, 1)
          | s1 :: rest =>
            let b1 := s1.toNat
            if b1 < lo ∨ hi < b1 then (RuneError, 1)
            else if sz ≤ 2 then (b0 % 32 * 64 + b1 % 64, 2)
            else
              match rest with
              | [] => (RuneError, 1)
              | s2 :: rest =>
                let b2 := s2.toNat
                if b2 < 0x80 ∨ 0xBF < b2 then (RuneError, 1)
                else if sz ≤ 3 then (b0 % 16 * 4096 + b1 % 64 * 64 + b2 % 64, 3)
                else
                  match rest with
                  | [] => (RuneError, 1)
                  | s3 :: _ =>
                    let b3 := s3.toNat
                    if b3 < 0x80 ∨ 0xBF < b3 then (RuneError, 1)
                    else (b0 % 8 * 262144 + b1 % 64 * 4096 + b2 % 64 * 64 + b3 % 64, 4)

/-- The walk of `utf8.ValidString`: no position decodes to an encoding error. -/
def validLoop : Nat → GoString → Bool
  | 0, _ => true
  | _ + 1, [] => true
  | fuel + 1, b :: rest =>
    match DecodeRuneInString (b :: rest) with
    | (c, size) =>
      if c = RuneError ∧ size = 1 then false
      else validLoop fuel ((b :: rest).drop size)

/-- Go's `utf8.ValidString`. -/
def ValidString (s : GoString) : Bool := validLoop s.length s

/-- The lower-case hexadecimal digit of a value below 16, `hex[x]`. -/
def hexDigit (x : Nat) : UInt8 :=
  if x < 10 then UInt8.ofNat (48 + x) else UInt8.ofNat (97 + (x - 10))

/-- Go's `htmlSafeSet` of encoding/json: the ASCII bytes from the space on that are
written into a string literal as they are when HTML escaping is on. -/
def htmlSafeSet (b : UInt8) : Bool :=
  0x20 ≤ b ∧ b < 0x80 ∧ b ≠ 0x22 ∧ b ≠ 0x26 ∧ b ≠ 0x3C ∧ b ≠ 0x3E ∧ b ≠ 0x5C

/-- What `appendString` writes for an ASCII byte outside `htmlSafeSet`. -/
def escapeByte (b : UInt8) : GoString :=
  if b = 0x5C ∨ b = 0x22 then [0x5C, b]
  else if b = 0x08 then [0x5C, 98]
  else if b = 0x0C then [0x5C, 102]
  else if b = 0x0A then [0x5C, 110]
  else if b = 0x0D then [0x5C, 114]
  else if b = 0x09 then [0x5C, 116]
  else [0x5C, 117, 48, 48, hexDigit (b.toNat / 16), hexDigit (b.toNat % 16)]

/-- The loop of `appendString` with HTML escaping on, as the encoder of main.go
has it: what is written between the quotes for the rest `s` of the string. -/
def appendStringLoop : Nat → GoString → GoString
  | 0, _ => []
  | _ + 1, [] => []
  | fuel + 1, b :: rest =>
    if b < 0x80 then
      if htmlSafeSet b then b :: appendStringLoop fuel rest
      else escapeByte b ++ appendStringLoop fuel rest
    else
      match DecodeRuneInString ((b :: rest).take 4) with
      | (c, size) =>
        if c = RuneError ∧ size = 1 then
          lit "\\ufffd" ++ appendStringLoop fuel rest
        else if c = 0x2028 ∨ c = 0x2029 then
          lit "\\u202" ++ [hexDigit (c % 16)] ++ appendStringLoop fuel ((b :: rest).drop size)
        else
          (b :: rest).take size ++ appendStringLoop fuel ((b :: rest).drop size)

/-- Go's `appendString` of encoding/json: the string as a JSON string literal. -/
def appendString (s : GoString) : GoString :=
  [0x22] ++ appendStringLoop s.length s ++ [0x22]

/-- Go's `structEncoder.encode` for a struct whose fields are strings without
`omitempty`: the fields in declaration order, each under its JSON name. -/
def structEncodeLoop : UInt8 → List (GoString × GoString) → GoString
  | next, [] => if next = 0x7B then [0x7B, 0x7D] else [0x7D]
  | next, (name, value) :: fields =>
    [next] ++ ([0x22] ++ name ++ [0x22, 0x3A]) ++ appendString value
      ++ structEncodeLoop 0x2C fields

def structEncode (fields : List (GoString × GoString)) : GoString :=
  structEncodeLoop 0x7B fields

/-! # encoding/json: the scanner and Indent -/

/-- The step functions of the scanner of encoding/json (`stateBeginValue`,
`stateInString`, ...). -/
inductive ScanStep
  | BeginValueOrEmpty | BeginValue | BeginStringOrEmpty | BeginString
  | EndValue | EndTop
  | InString | InStringEsc | InStringEscU | InStringEscU1 | InStringEscU12 | InStringEscU123
  | Neg | One | Zero | Dot | Dot0 | E | ESign | E0
  | T | Tr | Tru | F | Fa | Fal | Fals | N | Nu | Nul
  | Error
deriving DecidableEq

/-- The entries of the scanner's parse stack. -/
inductive ParseState
  | ObjectKey | ObjectValue | ArrayValue
deriving DecidableEq

/-- The op codes a step returns (`scanContinue`, `scanBeginLiteral`, ...). -/
inductive ScanOp
  | Continue | BeginLiteral | BeginObject | ObjectKey | ObjectValue | EndObject
  | BeginArray | ArrayValue | EndArray | SkipSpace | End | Error
deriving DecidableEq

/-- The scanner: the current step function, whether the top-level value has
ended, the parse stack (innermost first) and whether an error was recorded. -/
structure Scanner where
  step : ScanStep
  endTop : Bool
  parseState : List ParseState
  err : Bool
deriving DecidableEq

/-- The scanner after `reset`. -/
def Scanner.init : Scanner :=
  { step := .BeginValue, endTop := false, parseState := [], err := false }

def maxNestingDepth : Nat := 10000

def isSpace (c : UInt8) : Bool :=
  c ≤ 0x20 ∧ (c = 0x20 ∨ c = 0x09 ∨ c = 0x0D ∨ c = 0x0A)

def isDigit (c : UInt8) : Bool := 0x30 ≤ c ∧ c ≤ 0x39

def isHex (c : UInt8) : Bool :=
  (0x30 ≤ c ∧ c ≤ 0x39) ∨ (0x61 ≤ c ∧ c ≤ 0x66) ∨ (0x41 ≤ c ∧ c ≤ 0x46)

/-- Go's `s.error`: the error is recorded and every later step fails. -/
def Scanner.error (s : Scanner) : ScanOp × Scanner :=
  (.Error, { s with step := .Error, err := true })

/-- A step that accepts the byte and moves to `next`. -/
def Scanner.continue_ (s : Scanner) (next : ScanStep) : ScanOp × Scanner :=
  (.Continue, { s with step := next })

def Scanner.pushParseState (s : Scanner) (newParseState : ParseState) (successState : ScanOp) :
    ScanOp × Scanner :=
  let s := { s with parseState := newParseState :: s.parseState }
  if s.parseState.length ≤ maxNestingDepth then (successState, s) else s.error

def Scanner.popParseState (s : Scanner) : Scanner :=
  let rest := s.parseState.tail
  if rest.length = 0 then { s with parseState := rest, step := .EndTop, endTop := true }
  else { s with parseState := rest, step := .EndValue }

def stateEndTop (s : Scanner) (c : UInt8) : ScanOp × Scanner :=
  if ¬ isSpace c then (.End, (s.error).2) else (.End, s)

def stateEndValue (s : Scanner) (c : UInt8) : ScanOp × Scanner :=
  match s.parseState with
  | [] => stateEndTop { s with step := .EndTop, endTop := true } c
  | ps :: rest =>
    if isSpace c then (.SkipSpace, { s with step := .EndValue })
    else
      match ps with
      | .ObjectKey =>
        if c = 0x3A then
          (.ObjectKey, { s with parseState := .ObjectValue :: rest, step := .BeginValue })
        else s.error
      | .ObjectValue =>
        if c = 0x2C then
          (.ObjectValue, { s with parseState := .ObjectKey :: rest, step := .BeginString })
        else if c = 0x7D then (.EndObject, s.popParseState)
        else s.error
      | .ArrayValue =>
        if c = 0x2C then (.ArrayValue, { s with step := .BeginValue })
        else if c = 0x5D then (.EndArray, s.popParseState)
        else s.error

def stateBeginValue (s : Scanner) (c : UInt8) : ScanOp × Scanner :=
  if isSpace c then (.SkipSpace, s)
  else if c = 0x7B then
    { s with step := .BeginStringOrEmpty }.pushParseState .ObjectKey .BeginObject
  else if c = 0x5B then
    { s with step := .BeginValueOrEmpty }.pushParseState .ArrayValue .BeginArray
  else if c = 0x22 then (.BeginLiteral, { s with step := .InString })
  else if c = 0x2D then (.BeginLiteral, { s with step := .Neg })
  else if c = 0x30 then (.BeginLiteral, { s with step := .Zero })
  else if c = 0x74 then (.BeginLiteral, { s with step := .T })
  else if c = 0x66 then (.BeginLiteral, { s with step := .F })
  else if c = 0x6E then (.BeginLiteral, { s with step := .N })
  else if 0x31 ≤ c ∧ c ≤ 0x39 then (.BeginLiteral, { s with step := .One })
  else s.error

def stateBeginValueOrEmpty (s : Scanner) (c : UInt8) : ScanOp × Scanner :=
  if isSpace c then (.SkipSpace, s)
  else if c = 0x5D then stateEndValue s c
  else stateBeginValue s c

def stateBeginString (s : Scanner) (c : UInt8) : ScanOp × Scanner :=
  if isSpace c then (.SkipSpace, s)
  else if c = 0x22 then (.BeginLiteral, { s with step := .InString })
  else s.error

def stateBeginStringOrEmpty (s : Scanner) (c : UInt8) : ScanOp × Scanner :=
  if isSpace c then (.SkipSpace, s)
  else if c = 0x7D then
    stateEndValue { s with parseState := .ObjectValue :: s.parseState.tail } c
  else stateBeginString s c

def stateInString (s : Scanner) (c : UInt8) : ScanOp × Scanner :=
  if c = 0x22 then s.continue_ .EndValue
  else if c = 0x5C then s.continue_ .InStringEsc
  else if c < 0x20 then s.error
  else (.Continue, s)

def stateInStringEsc (s : Scanner) (c : UInt8) : ScanOp × Scanner :=
  if c = 0x62 ∨ c = 0x66 ∨ c = 0x6E ∨ c = 0x72 ∨ c = 0x74 ∨ c = 0x5C ∨ c = 0x2F ∨ c = 0x22 then
    s.continue_ .InString
  else if c = 0x75 then s.continue_ .InStringEscU
  else s.error

/-- The four states of a `\u` escape: a hexadecimal digit moves to `next`. -/
def stateHex (s : Scanner) (c : UInt8) (next : ScanStep) : ScanOp × Scanner :=
  if isHex c then s.continue_ next else s.error

def stateZero (s : Scanner) (c : UInt8) : ScanOp × Scanner :=
  if c = 0x2E then s.continue_ .Dot
  else if c = 0x65 ∨ c = 0x45 then s.continue_ .E
  else stateEndValue s c

def stateOne (s : Scanner) (c : UInt8) : ScanOp × Scanner :=
  if isDigit c then s.continue_ .One else stateZero s c

def stateNeg (s : Scanner) (c : UInt8) : ScanOp × Scanner :=
  if c = 0x30 then s.continue_ .Zero
  else if 0x31 ≤ c ∧ c ≤ 0x39 then s.continue_ .One
  else s.error

def stateDot (s : Scanner) (c : UInt8) : ScanOp × Scanner :=
  if isDigit c then s.continue_ .Dot0 else s.error

def stateDot0 (s : Scanner) (c : UInt8) : ScanOp × Scanner :=
  if isDigit c then (.Continue, s)
  else if c = 0x65 ∨ c = 0x45 then s.continue_ .E
  else stateEndValue s c

def stateESign (s : Scanner) (c : UInt8) : ScanOp × Scanner :=
  if isDigit c then s.continue_ .E0 else s.error

def stateE (s : Scanner) (c : UInt8) : ScanOp × Scanner :=
  if c = 0x2B ∨ c = 0x2D then s.continue_ .ESign else stateESign s c

def stateE0 (s : Scanner) (c : UInt8) : ScanOp × Scanner :=
  if isDigit c then (.Continue, s) else stateEndValue s c

/-- The states inside `true`, `false` and `null`: the expected letter moves to `next`. -/
def stateLetter (s : Scanner) (c : UInt8) (want : UInt8) (next : ScanStep) : ScanOp × Scanner :=
  if c = want then s.continue_ next else s.error

/-- Go's `s.step(s, c)`: the current step function applied to the byte. -/
def Scanner.run (s : Scanner) (c : UInt8) : ScanOp × Scanner :=
  match s.step with
  | .BeginValueOrEmpty => stateBeginValueOrEmpty s c
  | .BeginValue => stateBeginValue s c
  | .BeginStringOrEmpty => stateBeginStringOrEmpty s c
  | .BeginString => stateBeginString s c
  | .EndValue => stateEndValue s c
  | .EndTop => stateEndTop s c
  | .InString => stateInString s c
  | .InStringEsc => stateInStringEsc s c
  | .InStringEscU => stateHex s c .InStringEscU1
  | .InStringEscU1 => stateHex s c .InStringEscU12
  | .InStringEscU12 => stateHex s c .InStringEscU123
  | .InStringEscU123 => stateHex s c .InString
  | .Neg => stateNeg s c
  | .One => stateOne s c
  | .Zero => stateZero s c
  | .Dot => stateDot s c
  | .Dot0 => stateDot0 s c
  | .E => stateE s c
  | .ESign => stateESign s c
  | .E0 => stateE0 s c
  | .T => stateLetter s c 0x72 .Tr
  | .Tr => stateLetter s c 0x75 .Tru
  | .Tru => stateLetter s c 0x65 .EndValue
  | .F => stateLetter s c 0x61 .Fa
  | .Fa => stateLetter s c 0x6C .Fal
  | .Fal => stateLetter s c 0x73 .Fals
  | .Fals => stateLetter s c 0x65 .EndValue
  | .N => stateLetter s c 0x75 .Nu
  | .Nu => stateLetter s c 0x6C .Nul
  | .Nul => stateLetter s c 0x6C .EndValue
  | .Error => (.Error, s)

/-- Go's `s.eof()`: whether the input may end here. -/
def Scanner.eof (s : Scanner) : ScanOp :=
  if s.err then .Error
  else if s.endTop then .End
  else
    let s := (s.run 0x20).2
    if s.endTop then .End else .Error

/-- The `newline` of Indent: a line feed, the prefix and `depth` copies of the indent. -/
def appendNewline (pre indent : GoString) (depth : Int) : GoString :=
  [0x0A] ++ pre ++ (List.replicate depth.toNat indent).flatten

/-- The loop of `json.Indent` (`appendIndent`): what is written for the rest of
the source, `none` when the scanner rejects it (the destination is then cut
back and the error returned). -/
def indentLoop (pre indent : GoString) : Scanner → Bool → Int → GoString → Option GoString
  | scan, _, _, [] => if scan.eof = .Error then none else some []
  | scan, needIndent, depth, c :: src =>
    match scan.run c with
    | (v, scan) =>
      if v = .SkipSpace then indentLoop pre indent scan needIndent depth src
      else if v = .Error then none
      else
        let indentNow := needIndent ∧ v ≠ .EndObject ∧ v ≠ .EndArray
        let out1 := if indentNow then appendNewline pre indent (depth + 1) else []
        let depth := if indentNow then depth + 1 else depth
        let needIndent := if indentNow then false else needIndent
        if v = .Continue then
          (fun out => out1 ++ [c] ++ out) <$> indentLoop pre indent scan needIndent depth src
        else if c = 0x7B ∨ c = 0x5B then
          (fun out => out1 ++ [c] ++ out) <$> indentLoop pre indent scan true depth src
        else if c = 0x2C then
          (fun out => out1 ++ [c] ++ appendNewline pre indent depth ++ out)
            <$> indentLoop pre indent scan needIndent depth src
        else if c = 0x3A then
          (fun out => out1 ++ [c, 0x20] ++ out) <$> indentLoop pre indent scan needIndent depth src
        else if c = 0x7D ∨ c = 0x5D then
          if needIndent then
            (fun out => out1 ++ [c] ++ out) <$> indentLoop pre indent scan false depth src
          else
            (fun out => out1 ++ appendNewline pre indent (depth - 1) ++ [c] ++ out)
              <$> indentLoop pre indent scan needIndent (depth - 1) src
        else
          (fun out => out1 ++ [c] ++ out) <$> indentLoop pre indent scan needIndent depth src

/-- Go's `json.Indent` into an empty buffer. -/
def Indent (src pre indent : GoString) : Option GoString :=
  indentLoop pre indent Scanner.init false 0 src

/-! # The greeting handler -/

/-- The package-level variables `Version`, `GitSHA` and `BuildTime`, which the
linker may overwrite (`-ldflags -X`); they are never assigned afterwards. -/
structure BuildVars where
  Version : GoString
  GitSHA : GoString
  BuildTime : GoString

/-- The values of the source, used when the linker overrides nothing. -/
def BuildVars.default : BuildVars :=
  { Version := lit "0.0.0-dev", GitSHA := lit "dev", BuildTime := lit "unknown" }

/-- The type `Response` of main.go. -/
structure Response where
  Message : GoString
  Version : GoString
  GitSHA : GoString
  BuildTime : GoString
  TimeUTC : GoString
  Hostname : GoString
deriving DecidableEq

/-- The fields of `Response` in declaration order under the names of their
`json` tags, as the encoder sees the struct. -/
def Response.fields (r : Response) : List (GoString × GoString) :=
  [(lit "message", r.Message), (lit "version", r.Version), (lit "git_sha", r.GitSHA),
   (lit "build_time", r.BuildTime), (lit "time_utc", r.TimeUTC), (lit "hostname", r.Hostname)]

/-- Go's `Encoder.Encode` after `SetIndent(pre, indent)` with a non-empty indent, on
a writer `w`: the value is marshalled, a line feed is added, the whole is
indented and written in one `Write`; an error leaves the writer untouched. -/
def Encode (w : ResponseWriter) (pre indent : GoString) (v : Response) : ResponseWriter :=
  let b := structEncode v.fields ++ [0x0A]
  match Indent b pre indent with
  | none => w
  | some b => w.Write b

/-- The `resp` value the "/" handler builds from the host name and the clock reading. -/
def newResponse (b : BuildVars) (host : GoString) (now : Time) : Response :=
  { Message := lit "Hello from GitOps!",
    Version := b.Version,
    GitSHA := b.GitSHA,
    BuildTime := b.BuildTime,
    TimeUTC := now.UTC.FormatRFC3339,
    Hostname := host }

/-- The handler main registers for "/". -/
def rootHandler (b : BuildVars) : Handler := fun w _ world =>
  match world.Hostname with
  | ((host, _), world) =>
    match world.Now with
    | (now, world) =>
      let resp := newResponse b host now
      let w := w.SetHeader (lit "Content-Type") (lit "application/json; charset=utf-8")
      (Encode w [] (lit "  ") resp, world)

/-! # path.Clean, the ServeMux and http.Redirect

The mux is the one of net/http up to Go 1.21: patterns are plain paths, matched
against `r.URL.Path`. The mux of Go 1.22 and later matches against the escaped
path instead; on the two patterns of this program, for a request other than
CONNECT whose escaped path is the path itself, it selects the same handlers and
sends the same redirects. Registering a pattern twice or an empty pattern
panics in Go; the program does neither, and `HandleFunc` below covers
registration of a fresh, non-empty pattern only. -/

/-- The backtracking of `path.Clean` at a ".." element: from index `w` the
write index moves left while it is above `dotdot` and not on a slash. -/
def backtrackLoop (out : GoString) (dotdot : Nat) : Nat → Nat
  | 0 => 0
  | w + 1 => if w + 1 > dotdot ∧ out.getD (w + 1) 0 ≠ 0x2F then backtrackLoop out dotdot w else w + 1

/-- The loop of `path.Clean` over the unread rest of the path; `out` is the
buffer written so far. -/
def cleanLoop (rooted : Bool) : Nat → GoString → GoString → Nat → GoString
  | 0, _, out, _ => out
  | _ + 1, [], out, _ => out
  | fuel + 1, c :: rest, out, dotdot =>
    if c = 0x2F then cleanLoop rooted fuel rest out dotdot
    else if c = 0x2E ∧ (rest = [] ∨ rest.head? = some 0x2F) then
      cleanLoop rooted fuel rest out dotdot
    else if c = 0x2E ∧ rest.head? = some 0x2E
        ∧ (rest.tail = [] ∨ rest.tail.head? = some 0x2F) then
      if out.length > dotdot then
        cleanLoop rooted fuel rest.tail
          (out.take (backtrackLoop out dotdot (out.length - 1))) dotdot
      else if ¬ rooted then
        let out := (if out.length > 0 then out ++ [0x2F] else out) ++ [0x2E, 0x2E]
        cleanLoop rooted fuel rest.tail out out.length
      else cleanLoop rooted fuel rest.tail out dotdot
    else
      let out := if (rooted ∧ out.length ≠ 1) ∨ (¬ rooted ∧ out.length ≠ 0) then out ++ [0x2F] else out
      cleanLoop rooted fuel ((c :: rest).dropWhile (fun x => x ≠ 0x2F))
        (out ++ (c :: rest).takeWhile (fun x => x ≠ 0x2F)) dotdot

/-- Go's `path.Clean`. -/
def Clean (path : GoString) : GoString :=
  match path with
  | [] => [0x2E]
  | c :: rest =>
    let out :=
      if c = 0x2F then cleanLoop true (path.length + 1) rest [0x2F] 1
      else cleanLoop false (path.length + 1) path [] 0
    if out.length = 0 then [0x2E] else out

/-- Go's `cleanPath` of net/http: the canonical form of a request path. -/
def cleanPath (p : GoString) : GoString :=
  if p = [] then [0x2F]
  else
    let p := if p.head? ≠ some 0x2F then 0x2F :: p else p
    let np := Clean p
    if p.getLast? = some 0x2F ∧ np ≠ [0x2F] then
      if p.length = np.length + 1 ∧ np.isPrefixOf p then p else np ++ [0x2F]
    else np

/-- An entry of the mux: a pattern and its handler. -/
structure muxEntry where
  pattern : GoString
  h : Handler

/-- Go's `http.ServeMux` for patterns that are rooted paths: the registered entries
(`m`) and those whose pattern ends in a slash, longest first (`es`). -/
structure ServeMux where
  m : List muxEntry
  es : List muxEntry

/-- Go's `http.NewServeMux()`. -/
def NewServeMux : ServeMux := { m := [], es := [] }

/-- Go's `appendSorted` of net/http: the entry goes before the first shorter one. -/
def appendSorted : List muxEntry → muxEntry → List muxEntry
  | [], e => [e]
  | x :: es, e =>
    if x.pattern.length < e.pattern.length then e :: x :: es else x :: appendSorted es e

/-- Go's `mux.HandleFunc(pattern, handler)` for a pattern not yet registered. -/
def ServeMux.HandleFunc (mux : ServeMux) (pattern : GoString) (handler : HelloWeb.Handler) :
    ServeMux :=
  let e : muxEntry := { pattern := pattern, h := handler }
  { m := mux.m ++ [e],
    es := if pattern.getLast? = some 0x2F then appendSorted mux.es e else mux.es }

/-- Go's `mux.match`: the entry of the exact pattern, else of the longest pattern
ending in a slash that is a prefix of the path. -/
def ServeMux.match_ (mux : ServeMux) (path : GoString) : Option muxEntry :=
  match mux.m.find? (fun e => e.pattern = path) with
  | some e => some e
  | none => mux.es.find? (fun e => e.pattern.isPrefixOf path)

/-- Go's `http.Error(w, text, code)` on a writer that holds no Content-Length. -/
def Error (text : GoString) (code : Nat) : Handler := fun w _ world =>
  let w := w.SetHeader (lit "Content-Type") (lit "text/plain; charset=utf-8")
  let w := w.SetHeader (lit "X-Content-Type-Options") (lit "nosniff")
  let w := w.WriteHeader code
  (w.Write (text ++ lit "\n"), world)

/-- Go's `http.NotFoundHandler()`. -/
def NotFoundHandler : Handler := Error (lit "404 page not found") 404

/-- Go's `http.StatusText(code)`. -/
def StatusText (code : Nat) : GoString :=
  if code = 100 then lit "Continue"
  else if code = 101 then lit "Switching Protocols"
  else if code = 102 then lit "Processing"
  else if code = 103 then lit "Early Hints"
  else if code = 200 then lit "OK"
  else if code = 201 then lit "Created"
  else if code = 202 then lit "Accepted"
  else if code = 203 then lit "Non-Authoritative Information"
  else if code = 204 then lit "No Content"
  else if code = 205 then lit "Reset Content"
  else if code = 206 then lit "Partial Content"
  else if code = 207 then lit "Multi-Status"
  else if code = 208 then lit "Already Reported"
  else if code = 226 then lit "IM Used"
  else if code = 300 then lit "Multiple Choices"
  else if code = 301 then lit "Moved Permanently"
  else if code = 302 then lit "Found"
  else if code = 303 then lit "See Other"
  else if code = 304 then lit "Not Modified"
  else if code = 305 then lit "Use Proxy"
  else if code = 307 then lit "Temporary Redirect"
  else if code = 308 then lit "Permanent Redirect"
  else if code = 400 then lit "Bad Request"
  else if code = 401 then lit "Unauthorized"
  else if code = 402 then lit "Payment Required"
  else if code = 403 then lit "Forbidden"
  else if code = 404 then lit "Not Found"
  else if code = 405 then lit "Method Not Allowed"
  else if code = 406 then lit "Not Acceptable"
  else if code = 407 then lit "Proxy Authentication Required"
  else if code = 408 then lit "Request Timeout"
  else if code = 409 then lit "Conflict"
  else if code = 410 then lit "Gone"
  else if code = 411 then lit "Length Required"
  else if code = 412 then lit "Precondition Failed"
  else if code = 413 then lit "Request Entity Too Large"
  else if code = 414 then lit "Request URI Too Long"
  else if code = 415 then lit "Unsupported Media Type"
  else if code = 416 then lit "Requested Range Not Satisfiable"
  else if code = 417 then lit "Expectation Failed"
  else if code = 418 then lit "I'm a teapot"
  else if code = 421 then lit "Misdirected Request"
  else if code = 422 then lit "Unprocessable Entity"
  else if code = 423 then lit "Locked"
  else if code = 424 then lit "Failed Dependency"
  else if code = 425 then lit "Too Early"
  else if code = 426 then lit "Upgrade Required"
  else if code = 428 then lit "Precondition Required"
  else if code = 429 then lit "Too Many Requests"
  else if code = 431 then lit "Request Header Fields Too Large"
  else if code = 451 then lit "Unavailable For Legal Reasons"
  else if code = 500 then lit "Internal Server Error"
  else if code = 501 then lit "Not Implemented"
  else if code = 502 then lit "Bad Gateway"
  else if code = 503 then lit "Service Unavailable"
  else if code = 504 then lit "Gateway Timeout"
  else if code = 505 then lit "HTTP Version Not Supported"
  else if code = 506 then lit "Variant Also Negotiates"
  else if code = 507 then lit "Insufficient Storage"
  else if code = 508 then lit "Loop Detected"
  else if code = 510 then lit "Not Extended"
  else if code = 511 then lit "Network Authentication Required"
  else []

/-- Go's `shouldEscape(c, encodePath)` of net/url: letters, digits, the marks
"-_.~" and the reserved characters other than the question mark stay as they
are in a path. -/
def shouldEscapePath (c : UInt8) : Bool :=
  if (0x61 ≤ c ∧ c ≤ 0x7A) ∨ (0x41 ≤ c ∧ c ≤ 0x5A) ∨ (0x30 ≤ c ∧ c ≤ 0x39) then false
  else if c = 0x2D ∨ c = 0x5F ∨ c = 0x2E ∨ c = 0x7E then false
  else if c = 0x24 ∨ c = 0x26 ∨ c = 0x2B ∨ c = 0x2C ∨ c = 0x2F ∨ c = 0x3A ∨ c = 0x3B
      ∨ c = 0x3D ∨ c = 0x3F ∨ c = 0x40 then c = 0x3F
  else true

/-- The upper-case hexadecimal digit of a value below 16, `upperhex[x]`. -/
def upperhex (x : Nat) : UInt8 :=
  if x < 10 then UInt8.ofNat (48 + x) else UInt8.ofNat (65 + (x - 10))

/-- Go's `escape(s, encodePath)` of net/url: every byte that has to be escaped
becomes a percent sign and two upper-case hexadecimal digits. -/
def escapePath (s : GoString) : GoString :=
  s.flatMap (fun c =>
    if shouldEscapePath c then [0x25, upperhex (c.toNat / 16), upperhex (c.toNat % 16)] else [c])

/-- The `url.URL` values the mux builds: a path and a raw query, every other
field empty. -/
structure URL where
  Path : GoString
  RawQuery : GoString

/-- Go's `u.EscapedPath()` for a URL without `RawPath`. -/
def URL.EscapedPath (u : URL) : GoString :=
  if u.Path = lit "*" then lit "*" else escapePath u.Path

/-- Go's `u.String()` for a URL with a path and a raw query only: the escaped
path, after "./" when its first segment holds a colon, and the query after a
question mark when there is one. -/
def URL.String (u : URL) : GoString :=
  let path := u.EscapedPath
  let buf : GoString := if (path.takeWhile (fun c => c ≠ 0x2F)).contains 0x3A then lit "./" else []
  let buf := buf ++ path
  if u.RawQuery ≠ [] then buf ++ [0x3F] ++ u.RawQuery else buf

/-- Go's `stringContainsCTLByte` of net/url. -/
def stringContainsCTLByte (s : GoString) : Bool :=
  s.any (fun b => b < 0x20 ∨ b = 0x7F)

/-- The loop of `getScheme` from index `i` on, over the unread rest. -/
def getSchemeLoop (rawURL : GoString) : Nat → GoString → Option (GoString × GoString)
  | _, [] => some ([], rawURL)
  | i, c :: rest =>
    if (0x61 ≤ c ∧ c ≤ 0x7A) ∨ (0x41 ≤ c ∧ c ≤ 0x5A) then getSchemeLoop rawURL (i + 1) rest
    else if (0x30 ≤ c ∧ c ≤ 0x39) ∨ c = 0x2B ∨ c = 0x2D ∨ c = 0x2E then
      if i = 0 then some ([], rawURL) else getSchemeLoop rawURL (i + 1) rest
    else if c = 0x3A then
      if i = 0 then none else some (rawURL.take i, rest)
    else some ([], rawURL)

/-- Go's `getScheme` of net/url: the scheme and what follows its colon, an empty
scheme and the whole string when there is none, `none` for the error of a
string that begins with a colon. -/
def getScheme (rawURL : GoString) : Option (GoString × GoString) :=
  getSchemeLoop rawURL 0 rawURL

/-- Whether `unescape` of net/url, in the mode of a path, a fragment or a user
name, returns no error: every percent sign is followed by two hexadecimal
digits. The fuel is the length of the string. -/
def validEscapes : Nat → GoString → Bool
  | 0, _ => true
  | _ + 1, [] => true
  | fuel + 1, c :: rest =>
    if c = 0x25 then
      match rest with
      | a :: b :: rest => isHex a && isHex b && validEscapes fuel rest
      | _ => false
    else validEscapes fuel rest

/-- Go's `validUserinfo` of net/url. -/
def validUserinfo (s : GoString) : Bool :=
  s.all (fun r =>
    (0x41 ≤ r ∧ r ≤ 0x5A) ∨ (0x61 ≤ r ∧ r ≤ 0x7A) ∨ (0x30 ≤ r ∧ r ≤ 0x39)
    ∨ r = 0x2D ∨ r = 0x2E ∨ r = 0x5F ∨ r = 0x3A ∨ r = 0x7E ∨ r = 0x21 ∨ r = 0x24
    ∨ r = 0x26 ∨ r = 0x27 ∨ r = 0x28 ∨ r = 0x29 ∨ r = 0x2A ∨ r = 0x2B ∨ r = 0x2C
    ∨ r = 0x3B ∨ r = 0x3D ∨ r = 0x25 ∨ r = 0x40)

/-- The index of the last byte `c` of `s`, as `strings.LastIndex` finds it. -/
def lastIndexByte (s : GoString) (c : UInt8) : Option Nat :=
  match (s.reverse.indexOf? c : Option Nat) with
  | some k => some (s.length - 1 - k)
  | none => none

/-- Whether `parseAuthority` of net/url returns no error and an empty host. The
host is what follows the last "@"; a host that is not empty gives either an
error or a host, so only the user information before an empty host is
examined. -/
def authorityWithoutHost (authority : GoString) : Bool :=
  match lastIndexByte authority 0x40 with
  | none => authority = []
  | some i =>
    let host := authority.drop (i + 1)
    let userinfo := authority.take i
    if host ≠ [] then false
    else if ¬ validUserinfo userinfo then false
    else if ¬ userinfo.contains 0x3A then validEscapes userinfo.length userinfo
    else
      let username := userinfo.takeWhile (fun c => c ≠ 0x3A)
      let password := (userinfo.dropWhile (fun c => c ≠ 0x3A)).drop 1
      validEscapes username.length username && validEscapes password.length password

/-- Whether `url.Parse(rawURL)` returns no error and a URL with an empty scheme
and an empty host, the test `http.Redirect` makes before it touches the path. -/
def parsesWithoutHost (rawURL : GoString) : Bool :=
  let u := rawURL.takeWhile (fun c => c ≠ 0x23)
  let frag := (rawURL.dropWhile (fun c => c ≠ 0x23)).drop 1
  let fragOK := frag = [] ∨ validEscapes frag.length frag
  if stringContainsCTLByte u then false
  else if u = lit "*" then fragOK
  else
    match getScheme u with
    | none => false
    | some (scheme, rest) =>
      if scheme ≠ [] then false
      else
        let rest :=
          if rest.getLast? = some 0x3F ∧ rest.count 0x3F = 1 then rest.dropLast
          else rest.takeWhile (fun c => c ≠ 0x3F)
        if rest.head? ≠ some 0x2F ∧ (rest.takeWhile (fun c => c ≠ 0x2F)).contains 0x3A then false
        else if ¬ (lit "///").isPrefixOf rest ∧ (lit "//").isPrefixOf rest then
          let authority := (rest.drop 2).takeWhile (fun c => c ≠ 0x2F)
          let rest := (rest.drop 2).dropWhile (fun c => c ≠ 0x2F)
          authorityWithoutHost authority && validEscapes rest.length rest && fragOK
        else validEscapes rest.length rest && fragOK

/-- Go's `path.Split`: the path up to and with its last slash, and what follows. -/
def pathSplit (path : GoString) : GoString × GoString :=
  match lastIndexByte path 0x2F with
  | some i => (path.take (i + 1), path.drop (i + 1))
  | none => ([], path)

/-- Go's `hexEscapeNonASCII` of net/http: every byte from 0x80 on becomes a percent
sign and its two lower-case hexadecimal digits. -/
def hexEscapeNonASCII (s : GoString) : GoString :=
  s.flatMap (fun c =>
    if c ≥ 0x80 then [0x25, hexDigit (c.toNat / 16), hexDigit (c.toNat % 16)] else [c])

/-- Go's `htmlEscape` of net/http: the replacer for the five characters that are
special in HTML. -/
def htmlEscape (s : GoString) : GoString :=
  s.flatMap (fun c =>
    if c = 0x26 then lit "&amp;"
    else if c = 0x3C then lit "&lt;"
    else if c = 0x3E then lit "&gt;"
    else if c = 0x22 then lit "&#34;"
    else if c = 0x27 then lit "&#39;"
    else [c])

/-- Go's `http.Redirect(w, r, url, code)`: a URL without scheme and host is made
absolute against the request path and cleaned, keeping a trailing slash and the
query; the Location header gets the URL; unless the handler had set a
Content-Type, a GET or HEAD request gets "text/html; charset=utf-8" and a GET
request a short HTML body, written with `fmt.Fprintln`. -/
def Redirect (url : GoString) (code : Nat) : Handler := fun w r world =>
  let url :=
    if parsesWithoutHost url then
      let oldpath := if r.Path = [] then lit "/" else r.Path
      let url := if url = [] ∨ url.head? ≠ some 0x2F then (pathSplit oldpath).1 ++ url else url
      let query := url.dropWhile (fun c => c ≠ 0x3F)
      let url := url.takeWhile (fun c => c ≠ 0x3F)
      let trailing := url.getLast? = some 0x2F
      let url := Clean url
      let url := if trailing ∧ url.getLast? ≠ some 0x2F then url ++ [0x2F] else url
      url ++ query
    else url
  let hadCT := w.header.any (fun e => e.1 = lit "Content-Type")
  let w := w.SetHeader (lit "Location") (hexEscapeNonASCII url)
  let w :=
    if ¬ hadCT ∧ (r.Method = lit "GET" ∨ r.Method = lit "HEAD") then
      w.SetHeader (lit "Content-Type") (lit "text/html; charset=utf-8")
    else w
  let w := w.WriteHeader code
  if ¬ hadCT ∧ r.Method = lit "GET" then
    let body := lit "<a href=\"" ++ htmlEscape url ++ lit "\">" ++ StatusText code ++ lit "</a>.\n"
    (w.Write (body ++ lit "\n"), world)
  else (w, world)

/-- Go's `http.RedirectHandler(url, code)`. -/
def RedirectHandler (url : GoString) (code : Nat) : Handler := Redirect url code

/-- Go's `mux.handler`: the matching entry, else the not-found handler under the
empty pattern. No pattern names a host, so none is looked up. -/
def ServeMux.handler (mux : ServeMux) (path : GoString) : HelloWeb.Handler × GoString :=
  match mux.match_ path with
  | some e => (e.h, e.pattern)
  | none => (NotFoundHandler, [])

/-- Go's `mux.shouldRedirectRLocked`: whether the path misses a registered subtree
only by its trailing slash. -/
def ServeMux.shouldRedirect (mux : ServeMux) (path : GoString) : Bool :=
  if mux.m.any (fun e => e.pattern = path) then false
  else if path.length = 0 then false
  else if mux.m.any (fun e => e.pattern = path ++ [0x2F]) then path.getLast? ≠ some 0x2F
  else false

/-- Go's `mux.Handler(r)`: the handler for the request and the pattern it was
registered under. A CONNECT request is matched as it is; any other request has
its path cleaned and is redirected when the path was not clean. -/
def ServeMux.Handler (mux : ServeMux) (r : Request) : HelloWeb.Handler × GoString :=
  if r.Method = lit "CONNECT" then
    if mux.shouldRedirect r.Path then
      let u : URL := { Path := r.Path ++ [0x2F], RawQuery := r.RawQuery }
      (RedirectHandler u.String 301, u.Path)
    else mux.handler r.Path
  else
    let path := cleanPath r.Path
    if mux.shouldRedirect path then
      let u : URL := { Path := path ++ [0x2F], RawQuery := r.RawQuery }
      (RedirectHandler u.String 301, u.Path)
    else if path ≠ r.Path then
      let u : URL := { Path := path, RawQuery := r.RawQuery }
      (RedirectHandler u.String 301, (mux.handler path).2)
    else mux.handler r.Path

/-- Go's `mux.ServeHTTP`: a request for "*" is refused with 400, any other one is
served by the handler `mux.Handler` selects. -/
def ServeMux.ServeHTTP (mux : ServeMux) : HelloWeb.Handler := fun w r world =>
  if r.RequestURI = lit "*" then
    let w := if r.ProtoMajor > 1 ∨ (r.ProtoMajor = 1 ∧ r.ProtoMinor ≥ 1)
      then w.SetHeader (lit "Connection") (lit "close") else w
    (w.WriteHeader 400, world)
  else (mux.Handler r).1 w r world

/-! # main and the server

Of `main`, the routing table and the server value are embedded, and of the
server what it does with a request it has read from a connection: the choice of
the handler, the run of the handler on a fresh writer, and what has gone out
when the request is finished. The start-up line `main` logs, the accept loop
and the reading of requests are not embedded: a `Request` is a request that
was read without error, and the requests of one process are served one after
the other. -/

/-- The routing table main builds. -/
def newMux (b : BuildVars) : ServeMux :=
  (NewServeMux.HandleFunc (lit "/healthz") healthzHandler).HandleFunc (lit "/") (rootHandler b)

/-- The fields of `http.Server` that hold an address, a handler, a timeout or
the switch for the server's own answer to "OPTIONS *". -/
structure Server where
  Addr : GoString
  Handler : Handler
  DisableGeneralOptionsHandler : Bool := false
  ReadTimeout : Duration := 0
  ReadHeaderTimeout : Duration := 0
  WriteTimeout : Duration := 0
  IdleTimeout : Duration := 0

/-- Go's `globalOptionsHandler` of net/http: an empty answer; what it reads of the
request body is discarded. -/
def globalOptionsHandler : Handler := fun w _ world =>
  (w.SetHeader (lit "Content-Length") (lit "0"), world)

/-- Go's `serverHandler.ServeHTTP`: the server's handler gets the request, unless it
is "OPTIONS *", which the server answers itself. -/
def Server.ServeHTTP (srv : Server) : HelloWeb.Handler := fun w r world =>
  if ¬ srv.DisableGeneralOptionsHandler ∧ r.RequestURI = lit "*" ∧ r.Method = lit "OPTIONS" then
    globalOptionsHandler w r world
  else srv.Handler w r world

/-- What the server does with one request it has read from a connection: the
handler runs on a fresh writer, and the request is finished. -/
def Server.serve (srv : Server) (r : Request) (world : World) : SentResponse × World :=
  match srv.ServeHTTP ResponseWriter.fresh r world with
  | (w, world) => (w.response r, world)

/-- The requests of a list served one after the other by the same process. -/
def Server.serveAll (srv : Server) : List Request → World → List SentResponse × World
  | [], world => ([], world)
  | r :: rest, world =>
    match srv.serve r world with
    | (resp, world) =>
      match Server.serveAll srv rest world with
      | (resps, world) => (resp :: resps, world)

/-- The `srv` value main builds and serves: the port comes from the environment. -/
def mainServer (b : BuildVars) (world : World) : Server :=
  let port := getenv world (lit "PORT") (lit "8080")
  let mux := newMux b
  { Addr := lit ":" ++ port,
    Handler := loggingMiddleware mux.ServeHTTP,
    ReadHeaderTimeout := 5 * Second }

/-! # Reading the output back: JSON text, RFC 3339 timestamps, durations

The program only writes; what follows is the reader's side, needed to state
that what was written decodes to what was meant. -/

/-- A JSON value as RFC 8259 defines it; a number keeps its text. -/
inductive JSON
  | null
  | bool (b : Bool)
  | number (text : GoString)
  | string (s : GoString)
  | array (elems : List JSON)
  | object (members : List (GoString × JSON))

/-- Go's `utf8.EncodeRune`: the UTF-8 bytes of a code point, those of U+FFFD for a
surrogate or a value beyond U+10FFFF. -/
def encodeRune (r : Nat) : GoString :=
  if r < 0x80 then [UInt8.ofNat r]
  else if r < 0x800 then [UInt8.ofNat (0xC0 + r / 64), UInt8.ofNat (0x80 + r % 64)]
  else if (0xD800 ≤ r ∧ r ≤ 0xDFFF) ∨ 0x10FFFF < r then [0xEF, 0xBF, 0xBD]
  else if r < 0x10000 then
    [UInt8.ofNat (0xE0 + r / 4096), UInt8.ofNat (0x80 + r / 64 % 64), UInt8.ofNat (0x80 + r % 64)]
  else
    [UInt8.ofNat (0xF0 + r / 262144), UInt8.ofNat (0x80 + r / 4096 % 64),
     UInt8.ofNat (0x80 + r / 64 % 64), UInt8.ofNat (0x80 + r % 64)]

/-- The value of a hexadecimal digit. -/
def hexVal (c : UInt8) : Nat :=
  if 0x30 ≤ c ∧ c ≤ 0x39 then c.toNat - 0x30
  else if 0x61 ≤ c ∧ c ≤ 0x66 then c.toNat - 0x61 + 10
  else c.toNat - 0x41 + 10

/-- The value of the four hexadecimal digits of a `\u` escape. -/
def hexVal4 (a b c d : UInt8) : Nat :=
  hexVal a * 4096 + hexVal b * 256 + hexVal c * 16 + hexVal d

/-- The character a two-byte escape of a JSON string stands for. -/
def unescapeChar (c : UInt8) : Option UInt8 :=
  if c = 0x22 then some 0x22
  else if c = 0x5C then some 0x5C
  else if c = 0x2F then some 0x2F
  else if c = 0x62 then some 0x08
  else if c = 0x66 then some 0x0C
  else if c = 0x6E then some 0x0A
  else if c = 0x72 then some 0x0D
  else if c = 0x74 then some 0x09
  else none

/-- One step through the inside of a JSON string literal. -/
inductive StringStep
  | fail
  | done (rest : GoString)
  | emit (bytes rest : GoString)

/-- What stands at the head of the inside of a JSON string literal: the closing
quote, or an item with the bytes it denotes. A `\u` escape gives the UTF-8
bytes of its code point, two of them that form a surrogate pair give those of
the pair's code point. -/
def JSON.stringStep : GoString → StringStep
  | [] => .fail
  | c :: rest =>
    if c = 0x22 then .done rest
    else if c = 0x5C then
      match rest with
      | [] => .fail
      | e :: rest =>
        if e = 0x75 then
          match rest with
          | h1 :: h2 :: h3 :: h4 :: rest =>
            if isHex h1 ∧ isHex h2 ∧ isHex h3 ∧ isHex h4 then
              let r := hexVal4 h1 h2 h3 h4
              if 0xD800 ≤ r ∧ r ≤ 0xDBFF then
                match rest with
                | b1 :: u1 :: l1 :: l2 :: l3 :: l4 :: rest2 =>
                  if b1 = 0x5C ∧ u1 = 0x75 ∧ isHex l1 ∧ isHex l2 ∧ isHex l3 ∧ isHex l4
                      ∧ 0xDC00 ≤ hexVal4 l1 l2 l3 l4 ∧ hexVal4 l1 l2 l3 l4 ≤ 0xDFFF then
                    .emit (encodeRune (0x10000 + (r - 0xD800) * 1024
                      + (hexVal4 l1 l2 l3 l4 - 0xDC00))) rest2
                  else .emit (encodeRune r) rest
                | _ => .emit (encodeRune r) rest
              else .emit (encodeRune r) rest
            else .fail
          | _ => .fail
        else
          match unescapeChar e with
          | none => .fail
          | some x => .emit [x] rest
    else if c < 0x20 then .fail
    else .emit [c] rest

/-- The rest of a JSON string literal after its opening quote: the string it
denotes and what follows the closing quote. -/
def JSON.parseStringBody : Nat → GoString → Option (GoString × GoString)
  | 0, _ => none
  | fuel + 1, input =>
    match JSON.stringStep input with
    | .fail => none
    | .done rest => some ([], rest)
    | .emit bytes rest => (JSON.parseStringBody fuel rest).map (fun p => (bytes ++ p.1, p.2))

/-- A JSON string literal at the head of the input. -/
def JSON.parseString : GoString → Option (GoString × GoString)
  | [] => none
  | c :: rest => if c = 0x22 then JSON.parseStringBody rest.length rest else none

/-- The input without its leading JSON white space. -/
def JSON.skipWs : GoString → GoString
  | [] => []
  | c :: rest => if isSpace c then JSON.skipWs rest else c :: rest

/-- The digits at the head of the input, and the rest. -/
def JSON.spanDigits : GoString → GoString × GoString
  | [] => ([], [])
  | c :: rest =>
    if isDigit c then ((JSON.spanDigits rest).1.cons c, (JSON.spanDigits rest).2) else ([], c :: rest)

/-- A JSON number at the head of the input: its text and the rest. -/
def JSON.parseNumber (input : GoString) : Option (GoString × GoString) :=
  let (sign, rest) : GoString × GoString :=
    match input with
    | c :: rest => if c = 0x2D then ([c], rest) else ([], input)
    | [] => ([], [])
  match JSON.spanDigits rest with
  | (int, rest) =>
    if int = [] ∨ (int.head? = some 0x30 ∧ int.length > 1) then none
    else
      let fracPart : Option (GoString × GoString) :=
        match rest with
        | c :: rest1 =>
          if c = 0x2E then
            match JSON.spanDigits rest1 with
            | (ds, rest2) => if ds = [] then none else some (c :: ds, rest2)
          else some ([], rest)
        | [] => some ([], [])
      match fracPart with
      | none => none
      | some (frac, rest) =>
        match rest with
        | c :: rest1 =>
          if c = 0x65 ∨ c = 0x45 then
            let (esign, rest2) : GoString × GoString :=
              match rest1 with
              | s :: rest2 => if s = 0x2B ∨ s = 0x2D then ([s], rest2) else ([], rest1)
              | [] => ([], [])
            match JSON.spanDigits rest2 with
            | (ds, rest3) =>
              if ds = [] then none else some (sign ++ int ++ frac ++ [c] ++ esign ++ ds, rest3)
          else some (sign ++ int ++ frac, rest)
        | [] => some (sign ++ int ++ frac, [])

/-- The members of an object after its opening brace, up to and including the
closing brace. `pv` reads one value. -/
def JSON.parseMembers (pv : GoString → Option (JSON × GoString)) :
    Nat → GoString → Option (List (GoString × JSON) × GoString)
  | 0, _ => none
  | fuel + 1, input =>
    match JSON.parseString (JSON.skipWs input) with
    | none => none
    | some (key, rest) =>
      match JSON.skipWs rest with
      | [] => none
      | c :: rest =>
        if c = 0x3A then
          match pv (JSON.skipWs rest) with
          | none => none
          | some (v, rest) =>
            match JSON.skipWs rest with
            | [] => none
            | d :: rest =>
              if d = 0x2C then
                (JSON.parseMembers pv fuel rest).map (fun p => ((key, v) :: p.1, p.2))
              else if d = 0x7D then some ([(key, v)], rest)
              else none
        else none

/-- The elements of an array after its opening bracket, up to and including the
closing bracket. -/
def JSON.parseElements (pv : GoString → Option (JSON × GoString)) :
    Nat → GoString → Option (List JSON × GoString)
  | 0, _ => none
  | fuel + 1, input =>
    match pv (JSON.skipWs input) with
    | none => none
    | some (v, rest) =>
      match JSON.skipWs rest with
      | [] => none
      | d :: rest =>
        if d = 0x2C then (JSON.parseElements pv fuel rest).map (fun p => (v :: p.1, p.2))
        else if d = 0x5D then some ([v], rest)
        else none

/-- A JSON value at the head of the input (no leading white space), and the
rest; the fuel bounds the nesting and the number of members. -/
def JSON.parseValue : Nat → GoString → Option (JSON × GoString)
  | 0, _ => none
  | fuel + 1, input =>
    match input with
    | [] => none
    | c :: rest =>
      if c = 0x7B then
        match JSON.skipWs rest with
        | [] => none
        | d :: rest1 =>
          if d = 0x7D then some (.object [], rest1)
          else (JSON.parseMembers (JSON.parseValue fuel) fuel rest).map (fun p => (.object p.1, p.2))
      else if c = 0x5B then
        match JSON.skipWs rest with
        | [] => none
        | d :: rest1 =>
          if d = 0x5D then some (.array [], rest1)
          else (JSON.parseElements (JSON.parseValue fuel) fuel rest).map (fun p => (.array p.1, p.2))
      else if c = 0x22 then (JSON.parseString input).map (fun p => (.string p.1, p.2))
      else if (lit "true").isPrefixOf input then some (.bool true, input.drop 4)
      else if (lit "false").isPrefixOf input then some (.bool false, input.drop 5)
      else if (lit "null").isPrefixOf input then some (.null, input.drop 4)
      else (JSON.parseNumber input).map (fun p => (.number p.1, p.2))

/-- The JSON value a text denotes: one value with white space around it. -/
def JSON.parse (input : GoString) : Option JSON :=
  match JSON.parseValue input.length (JSON.skipWs input) with
  | none => none
  | some (v, rest) => if JSON.skipWs rest = [] then some v else none

/-- The string with every byte that does not begin a valid UTF-8 sequence
replaced by U+FFFD: what a JSON string literal written by `appendString` denotes. -/
def coerceLoop : Nat → GoString → GoString
  | 0, _ => []
  | _ + 1, [] => []
  | fuel + 1, b :: rest =>
    match DecodeRuneInString ((b :: rest).take 4) with
    | (c, size) =>
      if c = RuneError ∧ size = 1 then [0xEF, 0xBF, 0xBD] ++ coerceLoop fuel rest
      else (b :: rest).take size ++ coerceLoop fuel ((b :: rest).drop size)

def coerceUTF8 (s : GoString) : GoString := coerceLoop s.length s

/-- The length of a month. -/
def daysIn (year month : Nat) : Nat :=
  if month = 2 then (if isLeap year then 29 else 28)
  else if month = 4 ∨ month = 6 ∨ month = 9 ∨ month = 11 then 30
  else 31

/-- The number of days from 1 January 1970 to the given day of the proleptic
Gregorian calendar, for a year from 0 on. -/
def daysFromCivil (year month day : Nat) : Int :=
  let beforeYear : Int := 365 * year + (year + 3) / 4 - (year + 99) / 100 + (year + 399) / 400
  let beforeMonth : Nat := daysBefore.getD (month - 1) 0 + (if isLeap year ∧ month ≥ 3 then 1 else 0)
  beforeYear + beforeMonth + (day - 1 : Nat) - 719528

/-- The value of two decimal digits. -/
def twoDigits (a b : UInt8) : Nat := (a.toNat - 48) * 10 + (b.toNat - 48)

/-- The instant, in seconds since the Unix epoch, an RFC 3339 timestamp in UTC
of the form YYYY-MM-DDTHH:MM:SSZ denotes; `none` for any other text and for a
month, day, hour, minute or second out of range. -/
def parseRFC3339UTC (s : GoString) : Option Int :=
  match s with
  | [y1, y2, y3, y4, a, m1, m2, b, d1, d2, t, h1, h2, c, n1, n2, e, s1, s2, z] =>
    if a = 0x2D ∧ b = 0x2D ∧ t = 0x54 ∧ c = 0x3A ∧ e = 0x3A ∧ z = 0x5A
        ∧ [y1, y2, y3, y4, m1, m2, d1, d2, h1, h2, n1, n2, s1, s2].all isDigit then
      let year := twoDigits y1 y2 * 100 + twoDigits y3 y4
      let month := twoDigits m1 m2
      let day := twoDigits d1 d2
      let hour := twoDigits h1 h2
      let min := twoDigits n1 n2
      let sec := twoDigits s1 s2
      if 1 ≤ month ∧ month ≤ 12 ∧ 1 ≤ day ∧ day ≤ daysIn year month
          ∧ hour ≤ 23 ∧ min ≤ 59 ∧ sec ≤ 59 then
        some (daysFromCivil year month day * 86400 + hour * 3600 + min * 60 + sec)
      else none
    else none
  | _ => none

/-- The order `<=` of Go on strings: byte by byte, a prefix first. -/
def strLe : GoString → GoString → Bool
  | [], _ => true
  | _ :: _, [] => false
  | a :: x, b :: y => a < b || (a == b && strLe x y)

/-- The decimal digits at the head of the input: their value on top of `acc`,
their number on top of `n`, and the rest of the input. -/
def readDigits : GoString → Nat → Nat → Nat × Nat × GoString
  | [], acc, n => (acc, n, [])
  | c :: rest, acc, n =>
    if isDigit c then readDigits rest (10 * acc + (c.toNat - 48)) (n + 1) else (acc, n, c :: rest)

/-- The unit of time at the head of the input, in nanoseconds, and the rest:
h, m, s, ms, µs (the micro sign in UTF-8) or ns. -/
def durationUnit (s : GoString) : Option (Nat × GoString) :=
  match s with
  | [] => none
  | c :: rest =>
    if c = 0x68 then some (3600000000000, rest)
    else if c = 0x73 then some (1000000000, rest)
    else if c = 0x6D then
      if rest.head? = some 0x73 then some (1000000, rest.drop 1) else some (60000000000, rest)
    else if c = 0x6E ∧ rest.head? = some 0x73 then some (1, rest.drop 1)
    else if c = 0xC2 ∧ rest.take 2 = [0xB5, 0x73] then some (1000, rest.drop 2)
    else none

/-- One term of a duration at the head of the input, a decimal number with an
optional fraction and a unit: its length in nanoseconds and the rest. -/
def parseDurationTerm (s : GoString) : Option (Nat × GoString) :=
  match readDigits s 0 0 with
  | (whole, n, rest) =>
    if n = 0 then none
    else
      match (if rest.head? = some 0x2E then readDigits (rest.drop 1) 0 0 else (0, 0, rest)) with
      | (frac, k, rest) =>
        match durationUnit rest with
        | none => none
        | some (scale, rest) => some (whole * scale + frac * scale / 10 ^ k, rest)

/-- The sum of the terms the input consists of; the fuel bounds their number. -/
def parseDurationTerms : Nat → GoString → Option Nat
  | 0, _ => none
  | fuel + 1, s =>
    match parseDurationTerm s with
    | none => none
    | some (v, rest) =>
      if rest = [] then some v
      else
        match parseDurationTerms fuel rest with
        | none => none
        | some v' => some (v + v')

/-- The duration, in nanoseconds, that a text such as "1.5µs", "20ms" or
"-1h2m3.5s" denotes: an optional minus sign and one or more terms. -/
def parseDuration (s : GoString) : Option Int :=
  if s.head? = some 0x2D then
    match parseDurationTerms s.length (s.drop 1) with
    | none => none
    | some v => some (-(v : Int))
  else
    match parseDurationTerms s.length s with
    | none => none
    | some v => some (v : Int)

/-! # What the encoder writes, spelled out -/

/-- The text between the quotes of a JSON string literal, and the string it
denotes: bytes that stand for themselves, two-byte escapes, and `\u` escapes
of a code point that is no surrogate. -/
inductive Escaped : GoString → GoString → Prop
  | nil : Escaped [] []
  | plain (b : UInt8) (e v : GoString) :
      ¬ b < 0x20 → b ≠ 0x22 → b ≠ 0x5C → Escaped e v → Escaped (b :: e) (b :: v)
  | esc (c x : UInt8) (e v : GoString) :
      unescapeChar c = some x → Escaped e v → Escaped (0x5C :: c :: e) (x :: v)
  | uni (h1 h2 h3 h4 : UInt8) (e v : GoString) :
      isHex h1 = true → isHex h2 = true → isHex h3 = true → isHex h4 = true →
      ¬ (0xD800 ≤ hexVal4 h1 h2 h3 h4 ∧ hexVal4 h1 h2 h3 h4 ≤ 0xDFFF) →
      Escaped e v →
      Escaped (0x5C :: 0x75 :: h1 :: h2 :: h3 :: h4 :: e) (encodeRune (hexVal4 h1 h2 h3 h4) ++ v)

/-- One member of an indented object: the quoted name, a colon, a space and the
value as a string literal. -/
def layoutMember (field : GoString × GoString) : GoString :=
  [0x22] ++ field.1 ++ [0x22, 0x3A, 0x20] ++ appendString field.2

/-- The members after the first of an object indented by two spaces: each
follows a comma and a line break. -/
def layoutRest : List (GoString × GoString) → GoString
  | [] => []
  | field :: fields => [0x2C, 0x0A, 0x20, 0x20] ++ layoutMember field ++ layoutRest fields

/-- An object of string members indented by two spaces, one member a line,
with the line feed `Encode` ends every value with. -/
def layout (first : GoString × GoString) (fields : List (GoString × GoString)) : GoString :=
  [0x7B, 0x0A, 0x20, 0x20] ++ layoutMember first ++ layoutRest fields ++ [0x0A, 0x7D, 0x0A]

/-! # Definitions that serve the statements and the proofs -/

/-- What a successful decoding of a multi-byte sequence says of its bytes. -/
def MultiOK (s : GoString) (p : Nat × Nat) : Prop :=
  2 ≤ p.2 ∧ p.2 ≤ s.length
    ∧ (∀ x ∈ s.take p.2, 128 ≤ x.toNat)
    ∧ (p.1 = 0x2028 → s.take p.2 = [0xE2, 0x80, 0xA8])
    ∧ (p.1 = 0x2029 → s.take p.2 = [0xE2, 0x80, 0xA9])

/-- A name that needs no escaping inside a JSON string literal. -/
def PlainName (name : GoString) : Prop :=
  ∀ x ∈ name, ¬ x < 0x20 ∧ x ≠ 0x22 ∧ x ≠ 0x5C

/-- The members of the object the encoder's text denotes. -/
def decodedMembers (fields : List (GoString × GoString)) : List (GoString × JSON) :=
  fields.map (fun f => (f.1, JSON.string (coerceUTF8 f.2)))

/-- What `monthDay` must satisfy at one day of the year: the month and the day
are in range and lead back to the day of the year. -/
def monthDayOK (leap : Bool) (yd : Nat) : Bool :=
  let m := (monthDay leap yd).1
  let d := (monthDay leap yd).2
  decide (1 ≤ m ∧ m ≤ 12 ∧ 1 ≤ d
    ∧ d ≤ (if m = 2 then (if leap then 29 else 28)
           else if m = 4 ∨ m = 6 ∨ m = 9 ∨ m = 11 then 30 else 31)
    ∧ daysBefore.getD (m - 1) 0 + (if leap ∧ m ≥ 3 then 1 else 0) + (d - 1) = yd)

/-- The key that orders the days of a year as month and day do. -/
def monthDayKey (leap : Bool) (yd : Nat) : Nat :=
  (monthDay leap yd).1 * 32 + (monthDay leap yd).2

/-- Days from 1 January of year 0 to 1 January of year `Y`. -/
def daysBeforeYear (Y : Nat) : Int :=
  365 * (Y : Int) + ((Y : Int) + 3) / 4 - ((Y : Int) + 99) / 100 + ((Y : Int) + 399) / 400

/-- The text of a timestamp of the form YYYY-MM-DDTHH:MM:SSZ. -/
def stamp (Y M D hh mm ss : Nat) : GoString :=
  [digitByte (Y / 1000), digitByte (Y / 100 % 10), digitByte (Y / 10 % 10), digitByte (Y % 10),
   0x2D, digitByte (M / 10), digitByte (M % 10),
   0x2D, digitByte (D / 10), digitByte (D % 10),
   0x54, digitByte (hh / 10), digitByte (hh % 10),
   0x3A, digitByte (mm / 10), digitByte (mm % 10),
   0x3A, digitByte (ss / 10), digitByte (ss % 10), 0x5A]

/-- The civil date and time of an instant in UTC, as `FormatRFC3339` computes
and prints them. -/
structure Civil (t : Time) (Y yd M D hh mm ss : Nat) : Prop where
  fmt : t.FormatRFC3339 = stamp Y M D hh mm ss
  year_le : Y ≤ 9999
  yday_lt : yd < (if isLeap (Y : Int) then 366 else 365)
  days : t.sec / 86400 + 719528 = daysBeforeYear Y + (yd : Int)
  md : monthDay (isLeap (Y : Int)) yd = (M, D)
  hour_le : hh ≤ 23
  min_le : mm ≤ 59
  sec_le : ss ≤ 59
  clock : ((hh * 3600 + mm * 60 + ss : Nat) : Int) = t.sec % 86400

/-- The text of a duration without its sign, for the absolute value `u`. -/
def Duration.magnitude (u : Nat) : GoString :=
  if u < 1000000000 then
    if u = 0 then lit "0s"
    else
      let unit : GoString :=
        if u < 1000 then lit "ns"
        else if u < 1000000 then [0xC2, 0xB5, 115]
        else lit "ms"
      let prec := if u < 1000 then 0 else if u < 1000000 then 3 else 6
      fmtInt (fmtFrac unit u prec).1 (fmtFrac unit u prec).2
  else
    let buf := fmtInt (fmtFrac (lit "s") u 9).1 ((fmtFrac (lit "s") u 9).2 % 60)
    let u := (fmtFrac (lit "s") u 9).2 / 60
    if u > 0 then
      let buf := fmtInt (109 :: buf) (u % 60)
      let u := u / 60
      if u > 0 then fmtInt (104 :: buf) u else buf
    else buf

/-- An integer brought into the int64 range by stopping at its ends. -/
def clamp64 (x : Int) : Int :=
  if x < -9223372036854775808 then -9223372036854775808
  else if x > 9223372036854775807 then 9223372036854775807
  else x

/-- Whether a text has the shape YYYY-MM-DDTHH:MM:SSZ: twenty bytes, digits
where the letters stand and the punctuation as written. -/
def hasStampShape (s : GoString) : Bool :=
  match s with
  | [y1, y2, y3, y4, a, m1, m2, b, d1, d2, t, h1, h2, c, n1, n2, e, s1, s2, z] =>
    a = 0x2D ∧ b = 0x2D ∧ t = 0x54 ∧ c = 0x3A ∧ e = 0x3A ∧ z = 0x5A
      ∧ [y1, y2, y3, y4, m1, m2, d1, d2, h1, h2, n1, n2, s1, s2].all isDigit
  | _ => false

/-- The string a member of a JSON object holds, when the value is an object
with that member and the member is a string. -/
def JSON.stringField (key : GoString) : JSON → Option GoString
  | .object members =>
    match members.find? (fun m => m.1 = key) with
    | some (_, .string s) => some s
    | _ => none
  | _ => none

/-- The string member `key` of the JSON text `body`. -/
def bodyField (body : GoString) (key : GoString) : Option GoString :=
  (JSON.parse body).bind (JSON.stringField key)

/-- A request to stand for any: GET / over HTTP/1.1. -/
def sampleRequest : Request :=
  { Method := lit "GET", RequestURI := lit "/", Path := lit "/", RawQuery := [],
    ProtoMajor := 1, ProtoMinor := 1, Host := lit "localhost:8080", Header := [], Body := [] }

/-- A world to stand for any: the clock stands at 10:30:00.25 UTC on 15 January
2024 for the first three readings and five seconds later from then on, in a
zone one hour east, and the monotonic clock advances 1.5 ms a reading; the host
is "pod-1"; no variable is set. -/
def sampleWorld : World :=
  { clock := fun n =>
      { sec := if n < 3 then 1705314600 else 1705314605, nsec := 250000000,
        mono := 1000 + 1500000 * n, offset := 3600 },
    tick := 0, hostname := .ok (lit "pod-1"), lookups := 0, env := fun _ => none, stdout := [] }

/-- A request with the method and the path given, over HTTP/1.1, without query,
headers or body. -/
def requestFor (method path : GoString) : Request :=
  { Method := method, RequestURI := path, Path := path, RawQuery := [],
    ProtoMajor := 1, ProtoMinor := 1, Host := lit "localhost:8080", Header := [], Body := [] }

/-- A request that the routing table hands to the greeting handler: not for
"*", with a path other than /healthz that is in canonical form. -/
def Request.greeted (r : Request) : Prop :=
  r.RequestURI ≠ lit "*" ∧ r.Path ≠ lit "/healthz" ∧ cleanPath r.Path = r.Path

instance (r : Request) : Decidable r.greeted := by
  unfold Request.greeted
  exact inferInstance

/-- The response with the status and the Content-Type given and a body that is
left out when the method is HEAD. -/
def sentWith (method : GoString) (status : Nat) (contentType body : GoString) : SentResponse :=
  { status := status, header := [(lit "Content-Type", [contentType])],
    body := if method = lit "HEAD" then [] else body }

/-- The name `os.Hostname` hands to the handler. -/
def World.host (w : World) : GoString := w.Hostname.1.1

/-- The text `Encode` writes for a `Response`. -/
def Response.text (v : Response) : GoString :=
  layout (lit "message", v.Message)
    [(lit "version", v.Version), (lit "git_sha", v.GitSHA), (lit "build_time", v.BuildTime),
     (lit "time_utc", v.TimeUTC), (lit "hostname", v.Hostname)]

/-- The world `w'` is the world `w` some clock readings later. -/
def World.later (w w' : World) : Prop := w'.clock = w.clock ∧ w.tick ≤ w'.tick

/-- The build of the counterexample to C4: `Version` is the single byte 0xFF. -/
def badBuild : BuildVars :=
  { Version := [0xFF], GitSHA := lit "dev", BuildTime := lit "unknown" }

/-- The time `time.Now()` returns when it takes the clock reading number `i`. -/
def World.timeAt (w : World) (i : Nat) : Time := ({ w with tick := i } : World).Now.1

/-- The sample world with a wall clock that reads the last second of the year
9999 for the first three readings and the second after it from then on. -/
def worldAtYear10000 : World :=
  { sampleWorld with
    clock := fun n =>
      { sec := if n < 3 then 253402300799 else 253402300800, nsec := 0,
        mono := 1500000 * n, offset := 0 } }

/-- The sample world with a wall clock that is set back by one second after
the first three readings. -/
def worldSetBack : World :=
  { sampleWorld with
    clock := fun n =>
      { sec := if n < 3 then 1705314600 else 1705314599, nsec := 0,
        mono := 1500000 * n, offset := 0 } }

/-- A CONNECT request as a client sends it, for a host and a port: its path is
empty. -/
def connectRequest : Request :=
  { Method := lit "CONNECT", RequestURI := lit "example.com:443", Path := [], RawQuery := [],
    ProtoMajor := 1, ProtoMinor := 1, Host := lit "example.com:443", Header := [], Body := [] }

/-- A DELETE request for /healthz with a query, a header and a body. -/
def deleteRequest : Request :=
  { Method := lit "DELETE", RequestURI := lit "/healthz?x=1", Path := lit "/healthz",
    RawQuery := lit "x=1", ProtoMajor := 1, ProtoMinor := 1, Host := lit "localhost:8080",
    Header := [(lit "X-Test", [lit "1"])], Body := lit "body" }

/-! # Theorems -/

/-! # Bytes -/

theorem byte_lt (a b : UInt8) : a < b ↔ a.toNat < b.toNat := Iff.rfl

theorem byte_le (a b : UInt8) : a ≤ b ↔ a.toNat ≤ b.toNat := Iff.rfl

theorem byte_eq (a b : UInt8) : a = b ↔ a.toNat = b.toNat :=
  ⟨fun h => congrArg _ h, UInt8.toNat.inj⟩

theorem byte_toNat_lt (b : UInt8) : b.toNat < 256 := UInt8.toNat_lt b

theorem toNat_ofNat_lt (n : Nat) (h : n < 256) : (UInt8.ofNat n).toNat = n :=
  UInt8.toNat_ofNat_of_lt h

theorem ofNat_toNat (b : UInt8) : UInt8.ofNat b.toNat = b :=
  UInt8.toNat.inj (toNat_ofNat_lt _ (byte_toNat_lt b))

/-! # Hexadecimal digits -/

theorem hexDigit_toNat (x : Nat) (h : x < 16) :
    (hexDigit x).toNat = if x < 10 then 48 + x else 87 + x := by
  unfold hexDigit
  split
  · rw [toNat_ofNat_lt _ (by omega)]
  · rw [toNat_ofNat_lt _ (by omega)]; omega

theorem isHex_hexDigit (x : Nat) (h : x < 16) : isHex (hexDigit x) = true := by
  have := hexDigit_toNat x h
  simp only [isHex, byte_le, decide_eq_true_eq, Bool.decide_or, Bool.decide_and, Bool.or_eq_true,
    Bool.and_eq_true]
  norm_num
  split at this <;> omega

theorem hexVal_hexDigit (x : Nat) (h : x < 16) : hexVal (hexDigit x) = x := by
  have := hexDigit_toNat x h
  unfold hexVal
  simp only [byte_le]
  norm_num
  split at this
  · rw [if_pos (by omega)]; omega
  · rw [if_neg (by omega), if_pos (by omega)]; omega

/-! # UTF-8 decoding -/

theorem utf8First_spec (b0 sz lo hi : Nat) (h : utf8First b0 = some (sz, lo, hi)) :
    0xC2 ≤ b0 ∧ b0 ≤ 0xF4 ∧ 128 ≤ lo ∧ hi ≤ 191
    ∧ ((sz = 2 ∧ b0 < 0xE0) ∨ (sz = 3 ∧ 0xE0 ≤ b0 ∧ b0 < 0xF0) ∨ (sz = 4 ∧ 0xF0 ≤ b0))
    ∧ (b0 = 0xE2 → lo = 128) ∧ (b0 = 0xF0 → lo = 0x90) ∧ (b0 = 0xE0 → lo = 0xA0) := by
  unfold utf8First at h
  split_ifs at h <;> simp only [Option.some.injEq, Prod.mk.injEq, reduceCtorEq] at h <;> omega

theorem decode_take4 (s : GoString) : DecodeRuneInString (s.take 4) = DecodeRuneInString s := by
  rcases s with _ | ⟨a, _ | ⟨b, _ | ⟨c, _ | ⟨d, rest⟩⟩⟩⟩
  · rfl
  · rfl
  · rfl
  · rfl
  · simp only [List.take_succ_cons, List.take_zero, DecodeRuneInString, List.length_cons,
      List.length_nil]
    split
    · rfl
    · split
      · rfl
      · rename_i sz lo hi hf
        have := utf8First_spec _ _ _ _ hf
        have h1 : ¬ (0 + 1 + 1 + 1 + 1 < sz) := by omega
        have h2 : ¬ (rest.length + 1 + 1 + 1 + 1 < sz) := by omega
        simp only [h1, h2, if_false]

theorem decode_ascii (b : UInt8) (rest : GoString) (hb : b < 0x80) :
    DecodeRuneInString (b :: rest) = (b.toNat, 1) := by
  have : b.toNat < 128 := hb
  simp [DecodeRuneInString, this]

theorem plain_of_ge (x : UInt8) (h : 128 ≤ x.toNat) : ¬ x < 0x20 ∧ x ≠ 0x22 ∧ x ≠ 0x5C := by
  simp only [byte_lt, byte_eq, ne_eq]
  norm_num
  omega

theorem decode_multibyte (b : UInt8) (rest : GoString) (hb : ¬ b < 0x80) :
    DecodeRuneInString (b :: rest) = (RuneError, 1) ∨
      MultiOK (b :: rest) (DecodeRuneInString (b :: rest)) := by
  have hb' : ¬ b.toNat < 128 := hb
  have hbl := byte_toNat_lt b
  unfold DecodeRuneInString
  simp only [hb', if_false]
  split
  · left; rfl
  · rename_i sz lo hi hf
    obtain ⟨f1, f2, f3, f4, f5, f6, f7, f8⟩ := utf8First_spec _ _ _ _ hf
    clear hf hb hb'
    rcases rest with _ | ⟨s1, rest⟩
    · left; simp only; split_ifs <;> rfl
    have hl1 := byte_toNat_lt s1
    by_cases hr1 : s1.toNat < lo ∨ hi < s1.toNat
    · left; simp only [hr1, if_true]; split_ifs <;> rfl
    have g1 : 128 ≤ s1.toNat ∧ s1.toNat ≤ 191 := by omega
    have k1 : lo ≤ s1.toNat := by omega
    rcases f5 with ⟨rfl, h2⟩ | ⟨rfl, h3, h3'⟩ | ⟨rfl, h4⟩
    · right
      simp only [List.length_cons]
      have e : ¬ (rest.length + 1 + 1 < 2) := by omega
      simp only [e, hr1, if_false, le_refl, if_true]
      clear f6 f7 f8 hr1 k1
      refine ⟨le_refl _, by simp, ?_, ?_, ?_⟩
      · simp only [List.take_succ_cons, List.take_zero, List.forall_mem_cons, List.not_mem_nil,
          false_implies, implies_true, and_true]
        omega
      · intro hc; exfalso; simp only at hc; omega
      · intro hc; exfalso; simp only at hc; omega
    · rcases rest with _ | ⟨s2, rest⟩
      · left; rfl
      have hl2 := byte_toNat_lt s2
      simp only [List.length_cons]
      have e : ¬ (rest.length + 1 + 1 + 1 < 3) := by omega
      have e2 : ¬ (3 ≤ 2) := by omega
      simp only [e, hr1, if_false, e2]
      by_cases hr2 : s2.toNat < 128 ∨ 191 < s2.toNat
      · left; simp only [hr2, if_true]
      right
      simp only [hr2, if_false, le_refl, if_true]
      clear hr1 f7 f8
      refine ⟨by simp, by simp, ?_, ?_, ?_⟩
      · simp only [List.take_succ_cons, List.take_zero, List.forall_mem_cons, List.not_mem_nil,
          false_implies, implies_true, and_true]
        omega
      · intro hc
        simp only at hc
        simp only [List.take_succ_cons, List.take_zero, List.cons.injEq, byte_eq, and_true]
        norm_num
        omega
      · intro hc
        simp only at hc
        simp only [List.take_succ_cons, List.take_zero, List.cons.injEq, byte_eq, and_true]
        norm_num
        omega
    · rcases rest with _ | ⟨s2, _ | ⟨s3, rest⟩⟩
      · left; rfl
      · left
        simp only [List.length_cons, List.length_nil]
        have e : (0 + 1 + 1 + 1 < 4) := by omega
        simp only [e, if_true]
      have hl2 := byte_toNat_lt s2
      have hl3 := byte_toNat_lt s3
      simp only [List.length_cons]
      have e : ¬ (rest.length + 1 + 1 + 1 + 1 < 4) := by omega
      have e2 : ¬ (4 ≤ 2) := by omega
      have e3 : ¬ (4 ≤ 3) := by omega
      simp only [e, hr1, if_false, e2, e3]
      by_cases hr2 : s2.toNat < 128 ∨ 191 < s2.toNat
      · left; simp only [hr2, if_true]
      by_cases hr3 : s3.toNat < 128 ∨ 191 < s3.toNat
      · left; simp only [hr2, hr3, if_true, if_false]
      right
      simp only [hr2, hr3, if_false]
      clear hr1 f6 f8
      refine ⟨by simp, by simp, ?_, ?_, ?_⟩
      · simp only [List.take_succ_cons, List.take_zero, List.forall_mem_cons, List.not_mem_nil,
          false_implies, implies_true, and_true]
        omega
      · intro hc; exfalso; simp only at hc; omega
      · intro hc; exfalso; simp only at hc; omega

theorem decode_size_pos (b : UInt8) (rest : GoString) :
    1 ≤ (DecodeRuneInString (b :: rest)).2 := by
  by_cases hb : b < 0x80
  · rw [decode_ascii b rest hb]
  · rcases decode_multibyte b rest hb with h | h
    · rw [h]
    · exact le_trans (by norm_num) h.1

/-! # The string literal the encoder writes -/

theorem Escaped.append_plain (p : GoString) (hp : ∀ x ∈ p, 128 ≤ x.toNat) (e v : GoString)
    (h : Escaped e v) : Escaped (p ++ e) (p ++ v) := by
  induction p with
  | nil => exact h
  | cons x p ih =>
    have hx := plain_of_ge x (hp x (List.mem_cons_self _ _))
    exact Escaped.plain x _ _ hx.1 hx.2.1 hx.2.2
      (ih (fun y hy => hp y (List.mem_cons_of_mem _ hy)))

theorem encodeRune_ascii (b : UInt8) (hb : b < 0x80) : encodeRune b.toNat = [b] := by
  have : b.toNat < 128 := hb
  simp [encodeRune, this, ofNat_toNat]

theorem escaped_escapeByte (b : UInt8) (hb : b < 0x80) (hs : htmlSafeSet b = false)
    (e v : GoString) (h : Escaped e v) : Escaped (escapeByte b ++ e) (b :: v) := by
  have hb' : b.toNat < 128 := hb
  unfold escapeByte
  split_ifs with h1 h2 h3 h4 h5 h6
  · rcases h1 with rfl | rfl
    · exact Escaped.esc _ _ _ _ (by decide) h
    · exact Escaped.esc _ _ _ _ (by decide) h
  · subst h2; exact Escaped.esc _ _ _ _ (by decide) h
  · subst h3; exact Escaped.esc _ _ _ _ (by decide) h
  · subst h4; exact Escaped.esc _ _ _ _ (by decide) h
  · subst h5; exact Escaped.esc _ _ _ _ (by decide) h
  · subst h6; exact Escaped.esc _ _ _ _ (by decide) h
  · have hv : hexVal4 48 48 (hexDigit (b.toNat / 16)) (hexDigit (b.toNat % 16)) = b.toNat := by
      have z : hexVal 48 = 0 := by decide
      rw [hexVal4, z, hexVal_hexDigit _ (by omega), hexVal_hexDigit _ (by omega)]
      omega
    have := Escaped.uni 48 48 (hexDigit (b.toNat / 16)) (hexDigit (b.toNat % 16)) e v
      (by decide) (by decide) (isHex_hexDigit _ (by omega)) (isHex_hexDigit _ (by omega))
      (by rw [hv]; omega) h
    rw [hv, encodeRune_ascii b hb] at this
    exact this

theorem escaped_appendStringLoop (n : Nat) (s : GoString) :
    Escaped (appendStringLoop n s) (coerceLoop n s) := by
  induction n generalizing s with
  | zero => exact Escaped.nil
  | succ n ih =>
    rcases s with _ | ⟨b, rest⟩
    · exact Escaped.nil
    · unfold appendStringLoop coerceLoop
      rw [decode_take4]
      by_cases hb : b < 0x80
      · have hd : DecodeRuneInString (b :: rest) = (b.toNat, 1) := decode_ascii b rest hb
        have hne : ¬ (b.toNat = RuneError ∧ True) := by
          have : b.toNat < 128 := hb
          simp only [RuneError]; omega
        simp only [hb, if_true, hd, hne, if_false, List.take_succ_cons, List.take_zero,
          List.drop_succ_cons, List.drop_zero, List.cons_append, List.nil_append]
        by_cases hs : htmlSafeSet b = true
        · simp only [hs, if_true]
          have hs' := hs
          simp only [htmlSafeSet, decide_eq_true_eq] at hs'
          exact Escaped.plain b _ _ (by simp only [UInt8.not_lt]; exact hs'.1) hs'.2.2.1
            hs'.2.2.2.2.2.2 (ih rest)
        · simp only [hs, Bool.false_eq_true, if_false]
          exact escaped_escapeByte b hb (by simpa using hs) _ _ (ih rest)
      · simp only [hb, if_false]
        rcases decode_multibyte b rest hb with h | h
        · rw [h]
          simp only [and_self, if_true]
          exact Escaped.uni 0x66 0x66 0x66 0x64 _ _ (by decide) (by decide) (by decide) (by decide)
            (by decide) (ih rest)
        · obtain ⟨h1, h2, h3, h4, h5⟩ := h
          generalize DecodeRuneInString (b :: rest) = p at *
          obtain ⟨c, size⟩ := p
          simp only at h1 h2 h3 h4 h5
          have hne : ¬ (c = RuneError ∧ size = 1) := by omega
          simp only [hne, if_false]
          by_cases h28 : c = 0x2028
          · subst h28
            simp only [true_or, if_true]
            rw [h4 rfl]
            exact Escaped.uni 0x32 0x30 0x32 0x38 _ _ (by decide) (by decide) (by decide)
              (by decide) (by decide) (ih _)
          · by_cases h29 : c = 0x2029
            · subst h29
              simp only [or_true, if_true]
              rw [h5 rfl]
              exact Escaped.uni 0x32 0x30 0x32 0x39 _ _ (by decide) (by decide) (by decide)
                (by decide) (by decide) (ih _)
            · simp only [h28, h29, or_self, if_false]
              exact Escaped.append_plain _ h3 _ _ (ih _)

theorem coerceLoop_valid (n : Nat) (s : GoString) (hn : s.length ≤ n)
    (hv : validLoop n s = true) : coerceLoop n s = s := by
  induction n generalizing s with
  | zero =>
    have : s = [] := List.eq_nil_of_length_eq_zero (by omega)
    subst this; rfl
  | succ n ih =>
    rcases s with _ | ⟨b, rest⟩
    · rfl
    · unfold validLoop at hv
      unfold coerceLoop
      rw [decode_take4]
      have hp := decode_size_pos b rest
      generalize DecodeRuneInString (b :: rest) = p at *
      obtain ⟨c, size⟩ := p
      simp only at hv hp ⊢
      by_cases he : c = RuneError ∧ size = 1
      · simp [he] at hv
      · simp only [he, if_false] at hv ⊢
        rw [ih _ (by simp only [List.length_drop, List.length_cons] at hn ⊢; omega) hv]
        exact List.take_append_drop _ _

theorem coerceUTF8_valid (s : GoString) (hv : ValidString s = true) : coerceUTF8 s = s :=
  coerceLoop_valid _ _ (le_refl _) hv

/-! # Reading a string literal back -/

theorem parseStringBody_escaped (e v rest : GoString) (h : Escaped e v) (fuel : Nat)
    (hf : e.length + 1 ≤ fuel) :
    JSON.parseStringBody fuel (e ++ 0x22 :: rest) = some (v, rest) := by
  induction h generalizing fuel with
  | nil =>
    obtain ⟨k, rfl⟩ : ∃ k, fuel = k + 1 := ⟨fuel - 1, by simp only [List.length_nil] at hf; omega⟩
    simp [JSON.parseStringBody, JSON.stringStep]
  | plain b e v h1 h2 h3 _ ih =>
    obtain ⟨k, rfl⟩ : ∃ k, fuel = k + 1 := ⟨fuel - 1, by omega⟩
    rw [List.cons_append, JSON.parseStringBody]
    simp only [List.length_cons] at hf
    simp only [JSON.stringStep, h2, h3, h1, if_false, ih k (by omega), Option.map_some',
      List.singleton_append]
  | esc c x e v hc _ ih =>
    have hu : c ≠ 0x75 := by
      intro hcu
      subst hcu
      have : unescapeChar 0x75 = none := by decide
      rw [this] at hc
      exact Option.noConfusion hc
    obtain ⟨k, rfl⟩ : ∃ k, fuel = k + 1 := ⟨fuel - 1, by omega⟩
    rw [List.cons_append, List.cons_append, JSON.parseStringBody]
    simp only [List.length_cons] at hf
    simp only [JSON.stringStep, show ¬ ((0x5C : UInt8) = 0x22) by decide, if_false, if_true, hu,
      hc, ih k (by omega), Option.map_some', List.singleton_append]
  | uni h1 h2 h3 h4 e v i1 i2 i3 i4 hs _ ih =>
    have hs' : ¬ (0xD800 ≤ hexVal4 h1 h2 h3 h4 ∧ hexVal4 h1 h2 h3 h4 ≤ 0xDBFF) := by omega
    obtain ⟨k, rfl⟩ : ∃ k, fuel = k + 1 := ⟨fuel - 1, by omega⟩
    simp only [List.cons_append]
    rw [JSON.parseStringBody]
    simp only [List.length_cons] at hf
    simp only [JSON.stringStep, show ¬ ((0x5C : UInt8) = 0x22) by decide, if_false, if_true, i1,
      i2, i3, i4, and_self, hs', ih k (by omega), Option.map_some']

theorem escaped_length (e v : GoString) (h : Escaped e v) : v.length ≤ e.length := by
  induction h with
  | nil => exact le_refl _
  | plain b e v _ _ _ _ ih => simp only [List.length_cons]; omega
  | esc c x e v _ _ ih => simp only [List.length_cons]; omega
  | uni h1 h2 h3 h4 e v _ _ _ _ _ _ ih =>
    have : (encodeRune (hexVal4 h1 h2 h3 h4)).length ≤ 4 := by
      unfold encodeRune; split_ifs <;> simp
    simp only [List.length_cons, List.length_append]; omega

theorem parseString_appendString (s rest : GoString) :
    JSON.parseString (appendString s ++ rest) = some (coerceUTF8 s, rest) := by
  simp only [appendString, List.cons_append, List.nil_append, List.append_assoc,
    JSON.parseString, if_true]
  exact parseStringBody_escaped _ _ _ (escaped_appendStringLoop _ _) _
    (by simp only [List.length_append, List.length_cons]; omega)

/-! # Indent leaves the inside of a string literal as it is -/

theorem indentLoop_continue (pre indent : GoString) (scan scan1 : Scanner) (depth : Int)
    (c : UInt8) (src : GoString) (h : scan.run c = (.Continue, scan1)) :
    indentLoop pre indent scan false depth (c :: src)
      = (fun out => c :: out) <$> indentLoop pre indent scan1 false depth src := by
  rw [indentLoop, h]
  simp

theorem isHex_run (c : UInt8) (hc : isHex c = true) (s : Scanner) (next : ScanStep) :
    stateHex s c next = (.Continue, { s with step := next }) := by
  simp [stateHex, hc, Scanner.continue_]

theorem indent_escaped (e v : GoString) (h : Escaped e v) (pre indent : GoString)
    (et er : Bool) (ps : List ParseState) (depth : Int) (src : GoString) :
    indentLoop pre indent ⟨.InString, et, ps, er⟩ false depth (e ++ src)
      = (fun out => e ++ out) <$> indentLoop pre indent ⟨.InString, et, ps, er⟩ false depth src := by
  induction h with
  | nil => simp
  | plain b e v h1 h2 h3 _ ih =>
    rw [List.cons_append, indentLoop_continue _ _ _ ⟨.InString, et, ps, er⟩, ih]
    · simp only [Option.map_eq_map, Option.map_map]; rfl
    · simp [Scanner.run, stateInString, h1, h2, h3]
  | esc c x e v hc _ ih =>
    have hc' : c = 0x62 ∨ c = 0x66 ∨ c = 0x6E ∨ c = 0x72 ∨ c = 0x74 ∨ c = 0x5C ∨ c = 0x2F
        ∨ c = 0x22 := by
      unfold unescapeChar at hc
      split_ifs at hc <;> simp_all
    rw [List.cons_append, List.cons_append,
      indentLoop_continue _ _ _ ⟨.InStringEsc, et, ps, er⟩,
      indentLoop_continue _ _ _ ⟨.InString, et, ps, er⟩, ih]
    · simp only [Option.map_eq_map, Option.map_map]; rfl
    · simp only [Scanner.run, stateInStringEsc, hc', if_true, Scanner.continue_]
    · simp [Scanner.run, stateInString, Scanner.continue_]
  | uni h1 h2 h3 h4 e v i1 i2 i3 i4 hs _ ih =>
    simp only [List.cons_append]
    rw [indentLoop_continue _ _ _ ⟨.InStringEsc, et, ps, er⟩,
      indentLoop_continue _ _ _ ⟨.InStringEscU, et, ps, er⟩,
      indentLoop_continue _ _ _ ⟨.InStringEscU1, et, ps, er⟩,
      indentLoop_continue _ _ _ ⟨.InStringEscU12, et, ps, er⟩,
      indentLoop_continue _ _ _ ⟨.InStringEscU123, et, ps, er⟩,
      indentLoop_continue _ _ _ ⟨.InString, et, ps, er⟩, ih]
    · simp only [Option.map_eq_map, Option.map_map]; rfl
    · simp only [Scanner.run, isHex_run _ i4]
    · simp only [Scanner.run, isHex_run _ i3]
    · simp only [Scanner.run, isHex_run _ i2]
    · simp only [Scanner.run, isHex_run _ i1]
    · simp [Scanner.run, stateInStringEsc, Scanner.continue_]
    · simp [Scanner.run, stateInString, Scanner.continue_]

/-! # Indent on an object of string members -/

theorem escaped_plainName (name : GoString) (h : PlainName name) : Escaped name name := by
  induction name with
  | nil => exact Escaped.nil
  | cons x name ih =>
    have hx := h x (List.mem_cons_self _ _)
    exact Escaped.plain x _ _ hx.1 hx.2.1 hx.2.2 (ih (fun y hy => h y (List.mem_cons_of_mem _ hy)))

theorem escaped_appendString (s : GoString) :
    ∃ e, appendString s = 0x22 :: (e ++ [0x22]) ∧ Escaped e (coerceUTF8 s) :=
  ⟨appendStringLoop s.length s, rfl, escaped_appendStringLoop _ _⟩

theorem appendNewline_one : appendNewline [] (lit "  ") 1 = [0x0A, 0x20, 0x20] := by decide

theorem appendNewline_zero : appendNewline [] (lit "  ") 0 = [0x0A] := by decide

theorem indent_colon (pre indent : GoString) (et er : Bool) (ps : List ParseState)
    (depth : Int) (src : GoString) :
    indentLoop pre indent ⟨.EndValue, et, .ObjectKey :: ps, er⟩ false depth (0x3A :: src)
      = (fun out => 0x3A :: 0x20 :: out)
          <$> indentLoop pre indent ⟨.BeginValue, et, .ObjectValue :: ps, er⟩ false depth src := by
  rw [indentLoop]
  simp [Scanner.run, stateEndValue, isSpace]

theorem indent_quoteValue (pre indent : GoString) (et er : Bool) (ps : List ParseState)
    (depth : Int) (src : GoString) :
    indentLoop pre indent ⟨.BeginValue, et, ps, er⟩ false depth (0x22 :: src)
      = (fun out => 0x22 :: out)
          <$> indentLoop pre indent ⟨.InString, et, ps, er⟩ false depth src := by
  rw [indentLoop]
  simp [Scanner.run, stateBeginValue, isSpace]

theorem indent_quoteKey (pre indent : GoString) (et er : Bool) (ps : List ParseState)
    (depth : Int) (src : GoString) :
    indentLoop pre indent ⟨.BeginString, et, ps, er⟩ false depth (0x22 :: src)
      = (fun out => 0x22 :: out)
          <$> indentLoop pre indent ⟨.InString, et, ps, er⟩ false depth src := by
  rw [indentLoop]
  simp [Scanner.run, stateBeginString, isSpace]

theorem indent_quoteEnd (pre indent : GoString) (et er : Bool) (ps : List ParseState)
    (depth : Int) (src : GoString) :
    indentLoop pre indent ⟨.InString, et, ps, er⟩ false depth (0x22 :: src)
      = (fun out => 0x22 :: out)
          <$> indentLoop pre indent ⟨.EndValue, et, ps, er⟩ false depth src :=
  indentLoop_continue _ _ _ _ _ _ _ (by simp [Scanner.run, stateInString, Scanner.continue_])

theorem indent_comma (pre indent : GoString) (et er : Bool) (ps : List ParseState)
    (depth : Int) (src : GoString) :
    indentLoop pre indent ⟨.EndValue, et, .ObjectValue :: ps, er⟩ false depth (0x2C :: src)
      = (fun out => 0x2C :: (appendNewline pre indent depth ++ out))
          <$> indentLoop pre indent ⟨.BeginString, et, .ObjectKey :: ps, er⟩ false depth src := by
  rw [indentLoop]
  simp [Scanner.run, stateEndValue, isSpace]

theorem indent_open (pre indent : GoString) (src : GoString) :
    indentLoop pre indent Scanner.init false 0 (0x7B :: 0x22 :: src)
      = (fun out => 0x7B :: (appendNewline pre indent 1 ++ 0x22 :: out))
          <$> indentLoop pre indent ⟨.InString, false, [.ObjectKey], false⟩ false 1 src := by
  rw [indentLoop]
  simp [Scanner.run, Scanner.init, stateBeginValue, isSpace, Scanner.pushParseState,
    maxNestingDepth]
  rw [indentLoop]
  simp [Scanner.run, stateBeginStringOrEmpty, stateBeginString, isSpace]
  rfl

theorem indent_close (pre indent : GoString) (depth : Int) :
    indentLoop pre indent ⟨.EndValue, false, [.ObjectValue], false⟩ false depth [0x7D, 0x0A]
      = some (appendNewline pre indent (depth - 1) ++ [0x7D, 0x0A]) := by
  rw [indentLoop]
  simp [Scanner.run, stateEndValue, isSpace, Scanner.popParseState]
  rw [indentLoop]
  simp [Scanner.run, stateEndTop, isSpace]
  rw [indentLoop]
  simp [Scanner.eof]

/-- From inside the key to the end of the value of one member. -/
theorem indent_member (pre indent : GoString) (et er : Bool) (ps : List ParseState) (depth : Int)
    (name value src : GoString) (hn : PlainName name) :
    indentLoop pre indent ⟨.InString, et, .ObjectKey :: ps, er⟩ false depth
        (name ++ [0x22, 0x3A] ++ appendString value ++ src)
      = (fun out => name ++ [0x22, 0x3A, 0x20] ++ appendString value ++ out)
          <$> indentLoop pre indent ⟨.EndValue, et, .ObjectValue :: ps, er⟩ false depth src := by
  obtain ⟨e, he, hesc⟩ := escaped_appendString value
  rw [he]
  simp only [List.append_assoc, List.cons_append, List.nil_append]
  rw [indent_escaped _ _ (escaped_plainName name hn), indent_quoteEnd, indent_colon,
    indent_quoteValue, indent_escaped _ _ hesc, indent_quoteEnd]
  simp only [Option.map_eq_map, Option.map_map]
  rfl

theorem indent_rest (fields : List (GoString × GoString)) (hn : ∀ f ∈ fields, PlainName f.1) :
    indentLoop [] (lit "  ") ⟨.EndValue, false, [.ObjectValue], false⟩ false 1
        (structEncodeLoop 0x2C fields ++ [0x0A])
      = some (layoutRest fields ++ [0x0A, 0x7D, 0x0A]) := by
  induction fields with
  | nil =>
    simp only [structEncodeLoop, show ¬ ((0x2C : UInt8) = 0x7B) by decide, if_false,
      List.cons_append, List.nil_append, layoutRest]
    rw [indent_close]
    rfl
  | cons f fields ih =>
    obtain ⟨name, value⟩ := f
    simp only [structEncodeLoop, List.append_assoc, List.cons_append, List.nil_append]
    rw [indent_comma, indent_quoteKey]
    have := indent_member [] (lit "  ") false false [] 1 name value
      (structEncodeLoop 0x2C fields ++ [0x0A]) (hn _ (List.mem_cons_self _ _))
    simp only [List.append_assoc, List.cons_append, List.nil_append] at this
    rw [this, ih (fun f hf => hn f (List.mem_cons_of_mem _ hf))]
    simp only [Option.map_eq_map, Option.map_some', appendNewline_one, layoutRest, layoutMember,
      List.append_assoc, List.cons_append, List.nil_append]

theorem indent_struct (first : GoString × GoString) (fields : List (GoString × GoString))
    (hn : ∀ f ∈ first :: fields, PlainName f.1) :
    Indent (structEncode (first :: fields) ++ [0x0A]) [] (lit "  ")
      = some (layout first fields) := by
  obtain ⟨name, value⟩ := first
  simp only [Indent, structEncode, structEncodeLoop, List.append_assoc, List.cons_append,
    List.nil_append]
  rw [indent_open]
  have := indent_member [] (lit "  ") false false [] 1 name value
    (structEncodeLoop 0x2C fields ++ [0x0A]) (hn _ (List.mem_cons_self _ _))
  simp only [List.append_assoc, List.cons_append, List.nil_append] at this
  rw [this, indent_rest fields (fun f hf => hn f (List.mem_cons_of_mem _ hf))]
  simp only [Option.map_eq_map, Option.map_some', appendNewline_one, layout, layoutMember,
    List.append_assoc, List.cons_append, List.nil_append]

/-! # Reading the indented object back -/

theorem parseValue_appendString (k : Nat) (value rest : GoString) :
    JSON.parseValue (k + 1) (appendString value ++ rest)
      = some (.string (coerceUTF8 value), rest) := by
  have h := parseString_appendString value rest
  obtain ⟨e, he, _⟩ := escaped_appendString value
  rw [he] at h ⊢
  rw [List.cons_append] at h ⊢
  rw [JSON.parseValue]
  simp only [show ¬ ((0x22 : UInt8) = 0x7B) by decide, show ¬ ((0x22 : UInt8) = 0x5B) by decide,
    if_false, if_true, h, Option.map_some']

theorem parseString_name (name rest : GoString) (hn : PlainName name) :
    JSON.parseString (0x22 :: (name ++ 0x22 :: rest)) = some (name, rest) := by
  simp only [JSON.parseString, if_true]
  exact parseStringBody_escaped _ _ _ (escaped_plainName name hn) _
    (by simp only [List.length_append, List.length_cons]; omega)

theorem skipWs_indent (rest : GoString) :
    JSON.skipWs (0x0A :: 0x20 :: 0x20 :: 0x22 :: rest) = 0x22 :: rest := by
  simp [JSON.skipWs, isSpace]

theorem parseMembers_layout (k : Nat) (fields : List (GoString × GoString))
    (first : GoString × GoString) (tail : GoString) (n : Nat)
    (hn : ∀ f ∈ first :: fields, PlainName f.1) (hfuel : fields.length + 1 ≤ n) :
    JSON.parseMembers (JSON.parseValue (k + 1)) n
        (0x0A :: 0x20 :: 0x20 :: (layoutMember first ++ (layoutRest fields ++ 0x0A :: 0x7D :: tail)))
      = some (decodedMembers (first :: fields), tail) := by
  induction fields generalizing first n with
  | nil =>
    obtain ⟨m, rfl⟩ : ∃ m, n = m + 1 := ⟨n - 1, by simp only [List.length_nil] at hfuel; omega⟩
    obtain ⟨name, value⟩ := first
    have hname := hn _ (List.mem_cons_self _ _)
    have hv := parseValue_appendString k value (0x0A :: 0x7D :: tail)
    obtain ⟨e, he, _⟩ := escaped_appendString value
    simp only [layoutMember, layoutRest, List.append_assoc, List.cons_append, List.nil_append]
    rw [he] at hv ⊢
    simp only [List.cons_append, List.append_assoc, List.nil_append] at hv ⊢
    rw [JSON.parseMembers, skipWs_indent, parseString_name _ _ hname]
    simp only [JSON.skipWs, show isSpace 0x3A = false by decide, show isSpace 0x20 = true by decide,
      Bool.false_eq_true, if_false, if_true]
    simp only [JSON.skipWs, show isSpace 0x22 = false by decide, Bool.false_eq_true, if_false, hv,
      show isSpace 0x0A = true by decide, if_true, show isSpace 0x7D = false by decide,
      show ¬ ((0x7D : UInt8) = 0x2C) by decide, decodedMembers, List.map_cons, List.map_nil]
  | cons g gs ih =>
    obtain ⟨m, rfl⟩ : ∃ m, n = m + 1 := ⟨n - 1, by omega⟩
    obtain ⟨name, value⟩ := first
    have hname := hn _ (List.mem_cons_self _ _)
    have ih' := ih g m (fun f hf => hn f (List.mem_cons_of_mem _ hf))
      (by simp only [List.length_cons] at hfuel; omega)
    simp only [layoutMember, layoutRest, List.append_assoc, List.cons_append,
      List.nil_append] at ih' ⊢
    generalize hR : (0x0A :: 0x20 :: 0x20 :: 0x22 :: (g.1 ++ 0x22 :: 0x3A :: 0x20 ::
        (appendString g.2 ++ (layoutRest gs ++ 0x0A :: 0x7D :: tail))) : GoString) = R at ih' ⊢
    have hv := parseValue_appendString k value (0x2C :: R)
    obtain ⟨e, he, _⟩ := escaped_appendString value
    rw [he] at hv ⊢
    simp only [List.cons_append, List.append_assoc, List.nil_append] at hv ⊢
    rw [JSON.parseMembers, skipWs_indent, parseString_name _ _ hname]
    simp only [JSON.skipWs, show isSpace 0x3A = false by decide, show isSpace 0x20 = true by decide,
      Bool.false_eq_true, if_false, if_true]
    simp only [JSON.skipWs, show isSpace 0x22 = false by decide, Bool.false_eq_true, if_false, hv,
      show isSpace 0x2C = false by decide, if_true, ih', Option.map_some', decodedMembers,
      List.map_cons]

theorem layoutRest_length (fields : List (GoString × GoString)) :
    fields.length ≤ (layoutRest fields).length := by
  induction fields with
  | nil => exact le_refl _
  | cons f fields ih =>
    simp only [layoutRest, List.length_append, List.length_cons, List.length_nil]
    omega

theorem parse_layout (first : GoString × GoString) (fields : List (GoString × GoString))
    (hn : ∀ f ∈ first :: fields, PlainName f.1) :
    JSON.parse (layout first fields) = some (.object (decodedMembers (first :: fields))) := by
  have hlen := layoutRest_length fields
  obtain ⟨j, hj⟩ : ∃ j, (layout first fields).length = j + 1 + 1 ∧ fields.length + 1 ≤ j + 1 := by
    refine ⟨(layout first fields).length - 2, ?_⟩
    simp only [layout, List.length_append, List.length_cons, List.length_nil]
    omega
  have hm := parseMembers_layout j fields first [0x0A] (j + 1) hn hj.2
  unfold JSON.parse
  rw [hj.1]
  simp only [layout, layoutMember, List.append_assoc, List.cons_append, List.nil_append] at hm ⊢
  generalize first.1 ++ 0x22 :: 0x3A :: 0x20 :: (appendString first.2
    ++ (layoutRest fields ++ [0x0A, 0x7D, 0x0A])) = body at hm ⊢
  simp only [JSON.skipWs, show isSpace 0x7B = false by decide, Bool.false_eq_true, if_false]
  rw [JSON.parseValue]
  simp only [if_true, JSON.skipWs, show isSpace 0x0A = true by decide,
    show isSpace 0x20 = true by decide, show isSpace 0x22 = false by decide,
    Bool.false_eq_true, if_false, show ¬ ((0x22 : UInt8) = 0x7D) by decide, hm, Option.map_some']

/-! # The routing table -/

theorem backtrackLoop_ge (out : GoString) (dotdot w : Nat) (h : dotdot ≤ w) :
    dotdot ≤ backtrackLoop out dotdot w := by
  induction w with
  | zero => simpa [backtrackLoop] using h
  | succ w ih =>
    unfold backtrackLoop
    split_ifs with hc
    · exact ih (by omega)
    · exact h

theorem head_take (out : GoString) (k : Nat) (hk : 1 ≤ k) (c : UInt8)
    (h : out.head? = some c) : (out.take k).head? = some c := by
  rcases out with _ | ⟨x, out⟩
  · simp at h
  · obtain ⟨j, rfl⟩ : ∃ j, k = j + 1 := ⟨k - 1, by omega⟩
    simpa using h

theorem head_append (out more : GoString) (c : UInt8) (h : out.head? = some c) :
    (out ++ more).head? = some c := by
  rcases out with _ | ⟨x, out⟩
  · simp at h
  · simpa using h

theorem cleanLoop_rooted_head (fuel : Nat) (path out : GoString) (dotdot : Nat)
    (hd : 1 ≤ dotdot) (h : out.head? = some 0x2F) :
    (cleanLoop true fuel path out dotdot).head? = some 0x2F := by
  induction fuel generalizing path out dotdot with
  | zero => simpa [cleanLoop] using h
  | succ fuel ih =>
    rcases path with _ | ⟨c, rest⟩
    · simpa [cleanLoop] using h
    · unfold cleanLoop
      by_cases h1 : c = 0x2F
      · simp only [h1, if_true]
        exact ih _ _ _ hd h
      · simp only [h1, if_false]
        by_cases h2 : c = 0x2E ∧ (rest = [] ∨ rest.head? = some 0x2F)
        · simp only [h2, if_true]
          exact ih _ _ _ hd h
        · simp only [h2, if_false]
          by_cases h3 : c = 0x2E ∧ rest.head? = some 0x2E
              ∧ (rest.tail = [] ∨ rest.tail.head? = some 0x2F)
          · simp only [h3, if_true]
            by_cases h4 : out.length > dotdot
            · simp only [h4, if_true]
              exact ih _ _ _ hd
                (head_take _ _ (le_trans hd (backtrackLoop_ge _ _ _ (by omega))) _ h)
            · simp only [h4, if_false, not_true_eq_false]
              exact ih _ _ _ hd h
          · simp only [h3, if_false]
            exact ih _ _ _ hd (head_append _ _ _ (by
              split_ifs
              · exact head_append _ _ _ h
              · exact h))

theorem Clean_rooted_head (rest : GoString) : (Clean (0x2F :: rest)).head? = some 0x2F := by
  have h := cleanLoop_rooted_head ((0x2F :: rest).length + 1) rest [0x2F] 1 (le_refl _) rfl
  unfold Clean
  simp only [if_true]
  split_ifs with h0
  · rw [List.length_eq_zero] at h0
    rw [h0] at h
    simp at h
  · exact h

theorem cleanPath_head (p : GoString) : (cleanPath p).head? = some 0x2F := by
  unfold cleanPath
  by_cases h1 : p = []
  · simp only [h1, if_true]; rfl
  · simp only [h1, if_false]
    obtain ⟨rest, hp⟩ : ∃ rest, (if p.head? ≠ some 0x2F then 0x2F :: p else p) = 0x2F :: rest := by
      split_ifs with h2
      · exact ⟨p, rfl⟩
      · rcases p with _ | ⟨c, rest⟩
        · exact absurd rfl h1
        · simp only [List.head?_cons, ne_eq, Option.some.injEq, not_not] at h2
          exact ⟨rest, by rw [h2]⟩
    rw [hp]
    split_ifs
    · rfl
    · exact head_append _ _ _ (Clean_rooted_head _)
    · exact Clean_rooted_head _

theorem newMux_eq (b : BuildVars) :
    newMux b = { m := [⟨lit "/healthz", healthzHandler⟩, ⟨lit "/", rootHandler b⟩],
                 es := [⟨lit "/", rootHandler b⟩] } := by
  have h1 : (lit "/healthz").getLast? ≠ some 0x2F := by decide
  have h2 : (lit "/").getLast? = some 0x2F := by decide
  simp only [newMux, NewServeMux, ServeMux.HandleFunc, h1, h2, if_false, if_true, appendSorted,
    List.nil_append, List.cons_append]

theorem newMux_shouldRedirect (b : BuildVars) (path : GoString) :
    (newMux b).shouldRedirect path = false := by
  rw [newMux_eq]
  unfold ServeMux.shouldRedirect
  split_ifs with h1 h2 h3
  · rfl
  · rfl
  · exfalso
    simp only [List.any_cons, List.any_nil, Bool.or_false, Bool.or_eq_true,
      decide_eq_true_eq] at h3
    rcases h3 with h3 | h3
    · have := congrArg List.getLast? h3
      rw [List.getLast?_concat] at this
      have hz : (lit "/healthz").getLast? = some 0x7A := by decide
      rw [hz] at this
      exact absurd this (by decide)
    · have := congrArg List.length h3
      simp only [List.length_append, List.length_cons, List.length_nil] at this
      have hl : (lit "/").length = 1 := by decide
      omega
  · rfl

theorem lit_slash : lit "/" = [0x2F] := by decide

theorem newMux_handler (b : BuildVars) (path : GoString) :
    (newMux b).handler path =
      if path = lit "/healthz" then (healthzHandler, lit "/healthz")
      else if path.head? = some 0x2F then (rootHandler b, lit "/")
      else (NotFoundHandler, []) := by
  rw [newMux_eq]
  unfold ServeMux.handler ServeMux.match_
  by_cases h1 : path = lit "/healthz"
  · subst h1
    simp [List.find?]
  · have h1' : ¬ (lit "/healthz" = path) := fun h => h1 h.symm
    simp only [h1, if_false]
    by_cases h2 : path = lit "/"
    · subst h2
      have : (lit "/").head? = some 0x2F := by decide
      simp only [this, if_true]
      simp [List.find?, h1']
    · have h2' : ¬ (lit "/" = path) := fun h => h2 h.symm
      simp only [List.find?, h1', h2', decide_False]
      rw [lit_slash]
      rcases path with _ | ⟨c, rest⟩
      · simp [List.isPrefixOf]
      · by_cases hc : c = 0x2F
        · subst hc
          simp [List.isPrefixOf]
        · have hb : ((0x2F : UInt8) == c) = false := by
            rw [beq_eq_false_iff_ne]; exact fun h => hc h.symm
          simp [List.isPrefixOf, hc, hb]

/-! # The calendar arithmetic of absDate -/

/-- The cycles `absYearDay` cuts the day count into. -/
theorem absYearDay_decomp (abs : Nat) :
    ∃ n1 n2 n3 n4 yd : Nat, n2 ≤ 3 ∧ n3 ≤ 24 ∧ n4 ≤ 3 ∧
      absYearDay abs = (((400 * n1 + 100 * n2 + 4 * n3 + n4 : Nat) : Int) + absoluteZeroYear, yd) ∧
      abs / 86400 = 146097 * n1 + 36524 * n2 + 1461 * n3 + 365 * n4 + yd ∧
      (yd < 365 ∨ (yd = 365 ∧ n4 = 3 ∧ (n3 < 24 ∨ n2 = 3))) := by
  simp only [absYearDay]
  generalize abs / 86400 = d
  refine ⟨d / 146097, ?_⟩
  have h1 : d - 146097 * (d / 146097) = d % 146097 := by omega
  rw [h1]
  have hd1 : d % 146097 < 146097 := Nat.mod_lt _ (by norm_num)
  have hd0 : d = 146097 * (d / 146097) + d % 146097 := by omega
  generalize d % 146097 = d1 at *
  generalize d / 146097 = n1 at *
  refine ⟨d1 / 36524 - d1 / 36524 / 4, ?_⟩
  have hn2 : d1 / 36524 - d1 / 36524 / 4 ≤ 3 := by omega
  have hd2 : d1 - 36524 * (d1 / 36524 - d1 / 36524 / 4) ≤ 36524 := by omega
  have hd2' : d1 = 36524 * (d1 / 36524 - d1 / 36524 / 4)
      + (d1 - 36524 * (d1 / 36524 - d1 / 36524 / 4)) := by omega
  have hd2'' : d1 / 36524 - d1 / 36524 / 4 < 3 →
      d1 - 36524 * (d1 / 36524 - d1 / 36524 / 4) < 36524 := by omega
  generalize d1 / 36524 - d1 / 36524 / 4 = n2 at *
  generalize d1 - 36524 * n2 = d2 at *
  refine ⟨d2 / 1461, ?_⟩
  have h3 : d2 - 1461 * (d2 / 1461) = d2 % 1461 := by omega
  rw [h3]
  have hn3 : d2 / 1461 ≤ 24 := by omega
  have hd3 : d2 % 1461 < 1461 := Nat.mod_lt _ (by norm_num)
  have hd3' : d2 = 1461 * (d2 / 1461) + d2 % 1461 := by omega
  have hd3'' : d2 < 36524 → d2 / 1461 = 24 → d2 % 1461 < 1460 := by omega
  generalize d2 / 1461 = n3 at *
  generalize d2 % 1461 = d3 at *
  refine ⟨d3 / 365 - d3 / 365 / 4, d3 - 365 * (d3 / 365 - d3 / 365 / 4), ?_⟩
  refine ⟨hn2, hn3, by omega, rfl, by omega, by omega⟩

/-- The year and the day of the year `absYearDay` gives, for a year from 0 to
9999: the days before the year and the day of the year add up to the day
count, the day of the year lies within the year, and the instant is in range. -/
theorem absYearDay_spec (s : Int) (hlo : -62167219200 ≤ s) (hhi : s ≤ 253402300799) :
    ∃ (Y yd : Nat), absYearDay ((s + unixToAbsolute) % 2 ^ 64).toNat = ((Y : Int), yd)
      ∧ Y ≤ 9999
      ∧ yd < (if isLeap (Y : Int) then 366 else 365)
      ∧ s / 86400 + 719528
          = 365 * (Y : Int) + ((Y : Int) + 3) / 4 - ((Y : Int) + 99) / 100 + ((Y : Int) + 399) / 400
            + (yd : Int) := by
  have habs : ((s + unixToAbsolute) % 2 ^ 64).toNat = (s + 9223372028715321600).toNat := by
    simp only [unixToAbsolute]
    norm_num
    omega
  rw [habs]
  obtain ⟨n1, n2, n3, n4, yd, h2, h3, h4, he, hd, hy⟩ :=
    absYearDay_decomp (s + 9223372028715321600).toNat
  -- the day count, from the first day of year 0
  obtain ⟨t, ht, ht0, ht1⟩ : ∃ t : Nat, (t : Int) = s / 86400 + 719528 ∧ t ≤ 3652424
      ∧ (s + 9223372028715321600).toNat / 86400 = 106751990353566 + t := by
    refine ⟨(s / 86400 + 719528).toNat, ?_, ?_, ?_⟩ <;> omega
  rw [ht1] at hd
  rw [← ht]
  clear ht ht1 habs hlo hhi
  have hr : 36524 * n2 + 1461 * n3 + 365 * n4 + yd ≤ 146096 := by omega
  have hn1 : 730692555 ≤ n1 ∧ n1 ≤ 730692580 := by omega
  obtain ⟨m, rfl⟩ : ∃ m, n1 = 730692555 + m := ⟨n1 - 730692555, by omega⟩
  have hm : m ≤ 25 := by omega
  have hlow : m = 0 → n2 = 3 ∧ n3 = 24 ∧ n4 = 3 := by
    intro hm0
    subst hm0
    omega
  have hhigh : m = 25 → 100 * n2 + 4 * n3 + n4 ≤ 398 := by
    intro hm25
    subst hm25
    omega
  have hyA : 292277022399 ≤ 400 * (730692555 + m) + 100 * n2 + 4 * n3 + n4
      ∧ 400 * (730692555 + m) + 100 * n2 + 4 * n3 + n4 ≤ 292277022399 + 9999 := by
    rcases Nat.eq_zero_or_pos m with h0 | h0
    · have := hlow h0; omega
    · rcases Nat.lt_or_ge m 25 with h25 | h25
      · omega
      · have := hhigh (by omega); omega
  refine ⟨400 * (730692555 + m) + 100 * n2 + 4 * n3 + n4 - 292277022399, yd, ?_, by omega, ?_, ?_⟩
  · rw [he]
    simp only [absoluteZeroYear, Prod.mk.injEq, and_true]
    omega
  · simp only [isLeap, decide_eq_true_eq]
    split_ifs with hl
    · omega
    · rcases hy with hy | ⟨hy1, hy2, hy3⟩
      · exact hy
      · exfalso
        apply hl
        omega
  · obtain ⟨Y, hY⟩ : ∃ Y : Nat, 400 * (730692555 + m) + 100 * n2 + 4 * n3 + n4
        = 292277022399 + Y := ⟨_, (Nat.add_sub_cancel' hyA.1).symm⟩
    rw [hY]
    simp only [Nat.add_sub_cancel_left]
    have q4 : ((Y : Int) + 3) / 4 = 100 * m + 25 * n2 + n3 - 99 := by omega
    have q100 : ((Y : Int) + 99) / 100 = 4 * m + n2 - 3 := by omega
    have q400 : ((Y : Int) + 399) / 400 = m := by omega
    rw [q4, q100, q400]
    omega

/-! # Month and day -/

set_option maxRecDepth 100000 in
theorem monthDayOK_common : ∀ yd, yd < 365 → monthDayOK false yd = true := by decide

set_option maxRecDepth 100000 in
theorem monthDayOK_leap : ∀ yd, yd < 366 → monthDayOK true yd = true := by decide

set_option maxRecDepth 100000 in
theorem monthDayKey_step_common :
    ∀ yd, yd < 364 → monthDayKey false yd < monthDayKey false (yd + 1) := by decide

set_option maxRecDepth 100000 in
theorem monthDayKey_step_leap :
    ∀ yd, yd < 365 → monthDayKey true yd < monthDayKey true (yd + 1) := by decide

/-! # Decimal digits -/

theorem digitByte_toNat (d : Nat) (h : d < 10) : (digitByte d).toNat = 48 + d :=
  toNat_ofNat_lt _ (by omega)

theorem isDigit_digitByte (d : Nat) (h : d < 10) : isDigit (digitByte d) = true := by
  have := digitByte_toNat d h
  simp only [isDigit, byte_le, decide_eq_true_eq, Bool.decide_and, Bool.and_eq_true]
  norm_num
  omega

theorem digitByte_zero : digitByte 0 = 48 := rfl

theorem fmtIntLoop_zero (fuel : Nat) (buf : GoString) : fmtIntLoop fuel buf 0 = buf := by
  cases fuel <;> simp [fmtIntLoop]

theorem fmtIntLoop_pos (fuel : Nat) (buf : GoString) (v : Nat) (h : 0 < v) :
    fmtIntLoop (fuel + 1) buf v = fmtIntLoop fuel (digitByte (v % 10) :: buf) (v / 10) := by
  simp [fmtIntLoop, h]

theorem fmtInt_lt_10000 (n : Nat) (h : n < 10000) :
    fmtInt [] n =
      if n < 10 then [digitByte n]
      else if n < 100 then [digitByte (n / 10), digitByte (n % 10)]
      else if n < 1000 then [digitByte (n / 100), digitByte (n / 10 % 10), digitByte (n % 10)]
      else [digitByte (n / 1000), digitByte (n / 100 % 10), digitByte (n / 10 % 10),
            digitByte (n % 10)] := by
  unfold fmtInt
  by_cases h0 : n = 0
  · subst h0; rfl
  · simp only [h0, if_false]
    rw [fmtIntLoop_pos _ _ _ (by omega)]
    by_cases h1 : n < 10
    · have e : n / 10 = 0 := by omega
      have e' : n % 10 = n := by omega
      simp only [h1, if_true, e, e', fmtIntLoop_zero]
    · simp only [h1, if_false]
      rw [fmtIntLoop_pos _ _ _ (by omega)]
      by_cases h2 : n < 100
      · have e : n / 10 / 10 = 0 := by omega
        have e' : n / 10 % 10 = n / 10 := by omega
        simp only [h2, if_true, e, e', fmtIntLoop_zero]
      · simp only [h2, if_false]
        rw [fmtIntLoop_pos _ _ _ (by omega)]
        by_cases h3 : n < 1000
        · have e : n / 10 / 10 / 10 = 0 := by omega
          have e' : n / 10 / 10 % 10 = n / 100 := by omega
          simp only [h3, if_true, e, e', fmtIntLoop_zero]
        · simp only [h3, if_false]
          rw [fmtIntLoop_pos _ _ _ (by omega)]
          have e : n / 10 / 10 / 10 / 10 = 0 := by omega
          have e' : n / 10 / 10 / 10 % 10 = n / 1000 := by omega
          have e'' : n / 10 / 10 % 10 = n / 100 % 10 := by omega
          simp only [e, e', e'', fmtIntLoop_zero]

theorem appendInt_two (n : Nat) (h : n < 100) :
    appendInt (n : Int) 2 = [digitByte (n / 10), digitByte (n % 10)] := by
  unfold appendInt
  have hneg : ¬ ((n : Int) < 0) := by omega
  simp only [hneg, if_false, Int.natAbs_ofNat, List.nil_append]
  rw [fmtInt_lt_10000 n (by omega)]
  by_cases h1 : n < 10
  · have e : n / 10 = 0 := by omega
    have e' : n % 10 = n := by omega
    simp only [h1, if_true, e, e', List.length_singleton]
    rfl
  · simp only [h1, h, if_false, if_true, List.length_cons, List.length_nil]
    rfl

theorem appendInt_four (n : Nat) (h : n < 10000) :
    appendInt (n : Int) 4 = [digitByte (n / 1000), digitByte (n / 100 % 10),
      digitByte (n / 10 % 10), digitByte (n % 10)] := by
  unfold appendInt
  have hneg : ¬ ((n : Int) < 0) := by omega
  simp only [hneg, if_false, Int.natAbs_ofNat, List.nil_append]
  rw [fmtInt_lt_10000 n h]
  by_cases h1 : n < 10
  · have e : n / 1000 = 0 := by omega
    have e1 : n / 100 % 10 = 0 := by omega
    have e2 : n / 10 % 10 = 0 := by omega
    have e' : n % 10 = n := by omega
    simp only [h1, if_true, e, e1, e2, e', List.length_singleton]
    rfl
  · by_cases h2 : n < 100
    · have e : n / 1000 = 0 := by omega
      have e1 : n / 100 % 10 = 0 := by omega
      have e2 : n / 10 % 10 = n / 10 := by omega
      simp only [h1, h2, if_true, if_false, e, e1, e2, List.length_cons, List.length_nil]
      rfl
    · by_cases h3 : n < 1000
      · have e : n / 1000 = 0 := by omega
        have e1 : n / 100 % 10 = n / 100 := by omega
        simp only [h1, h2, h3, if_true, if_false, e, e1, List.length_cons, List.length_nil]
        rfl
      · simp only [h1, h2, h3, if_false, List.length_cons, List.length_nil]
        rfl

theorem twoDigits_digitByte (a b : Nat) (ha : a < 10) (hb : b < 10) :
    twoDigits (digitByte a) (digitByte b) = a * 10 + b := by
  unfold twoDigits
  rw [digitByte_toNat a ha, digitByte_toNat b hb]
  omega

/-! # Days before a year -/

theorem daysBeforeYear_succ (Y : Nat) :
    daysBeforeYear (Y + 1) = daysBeforeYear Y + (if isLeap (Y : Int) then 366 else 365) := by
  simp only [daysBeforeYear, isLeap, decide_eq_true_eq, Nat.cast_add, Nat.cast_one]
  split_ifs with h <;> omega

theorem daysBeforeYear_lt (Y1 Y2 : Nat) (h : Y1 < Y2) :
    daysBeforeYear Y1 + (if isLeap (Y1 : Int) then 366 else 365) ≤ daysBeforeYear Y2 := by
  induction Y2 with
  | zero => omega
  | succ Y2 ih =>
    rw [daysBeforeYear_succ Y2]
    rcases Nat.lt_or_ge Y1 Y2 with h1 | h1
    · have := ih h1
      split_ifs <;> omega
    · have : Y1 = Y2 := by omega
      subst this
      exact le_refl _

/-! # Month and day within a year -/

theorem monthDayOK_of_lt (leap : Bool) (yd : Nat) (h : yd < (if leap then 366 else 365)) :
    monthDayOK leap yd = true := by
  cases leap
  · exact monthDayOK_common yd (by simpa using h)
  · exact monthDayOK_leap yd (by simpa using h)

theorem monthDayKey_lt (leap : Bool) (yd1 yd2 : Nat) (h12 : yd1 < yd2)
    (h : yd2 < (if leap then 366 else 365)) :
    monthDayKey leap yd1 < monthDayKey leap yd2 := by
  induction yd2 with
  | zero => omega
  | succ yd2 ih =>
    have hstep : monthDayKey leap yd2 < monthDayKey leap (yd2 + 1) := by
      cases leap
      · exact monthDayKey_step_common yd2 (by simp at h; omega)
      · exact monthDayKey_step_leap yd2 (by simp at h; omega)
    rcases Nat.lt_or_ge yd1 yd2 with h1 | h1
    · exact lt_trans (ih h1 (by split_ifs at h ⊢ <;> omega)) hstep
    · have : yd1 = yd2 := by omega
      subst this
      exact hstep

/-! # The formatted timestamp, field by field -/

theorem absClock_spec (s : Int) (hlo : -62167219200 ≤ s) (hhi : s ≤ 253402300799) :
    ∃ hh mm ss : Nat, absClock ((s + unixToAbsolute) % 2 ^ 64).toNat = (hh, mm, ss)
      ∧ hh ≤ 23 ∧ mm ≤ 59 ∧ ss ≤ 59
      ∧ ((hh * 3600 + mm * 60 + ss : Nat) : Int) = s % 86400 := by
  have habs : ((s + unixToAbsolute) % 2 ^ 64).toNat = (s + 9223372028715321600).toNat := by
    simp only [unixToAbsolute]
    norm_num
    omega
  rw [habs]
  simp only [absClock]
  refine ⟨_, _, _, rfl, ?_, ?_, ?_, ?_⟩ <;> omega

theorem civil_of_time (t : Time) (h0 : t.offset = 0)
    (hlo : -62167219200 ≤ t.sec) (hhi : t.sec ≤ 253402300799) :
    ∃ Y yd M D hh mm ss : Nat, Civil t Y yd M D hh mm ss := by
  obtain ⟨Y, yd, hyd, hY, hlt, hdays⟩ := absYearDay_spec t.sec hlo hhi
  obtain ⟨hh, mm, ss, hclk, h1, h2, h3, h4⟩ := absClock_spec t.sec hlo hhi
  have hok := monthDayOK_of_lt (isLeap (Y : Int)) yd hlt
  simp only [monthDayOK, decide_eq_true_eq] at hok
  obtain ⟨k1, k2, k3, k4, _⟩ := hok
  have hD : (monthDay (isLeap (Y : Int)) yd).2 ≤ 31 := by
    refine le_trans k4 ?_
    split_ifs <;> omega
  refine ⟨Y, yd, (monthDay (isLeap (Y : Int)) yd).1, (monthDay (isLeap (Y : Int)) yd).2,
    hh, mm, ss, ⟨?_, hY, hlt, hdays, rfl, h1, h2, h3, h4⟩⟩
  unfold Time.FormatRFC3339 Time.abs
  simp only [h0, add_zero, hyd, hclk, if_true]
  rw [appendInt_four Y (by omega), appendInt_two _ (by omega), appendInt_two _ (by omega),
    appendInt_two hh (by omega), appendInt_two mm (by omega), appendInt_two ss (by omega)]
  rfl

/-! # Reading the timestamp back -/

theorem parse_stamp (Y M D hh mm ss : Nat) (hY : Y ≤ 9999) (hM1 : 1 ≤ M) (hM2 : M ≤ 12)
    (hD1 : 1 ≤ D) (hD2 : D ≤ daysIn Y M) (hh' : hh ≤ 23) (hm : mm ≤ 59) (hs : ss ≤ 59) :
    parseRFC3339UTC (stamp Y M D hh mm ss)
      = some (daysFromCivil Y M D * 86400 + hh * 3600 + mm * 60 + ss) := by
  have hD3 : D ≤ 31 := by
    refine le_trans hD2 ?_
    unfold daysIn
    split_ifs <;> omega
  have eY : twoDigits (digitByte (Y / 1000)) (digitByte (Y / 100 % 10)) * 100
      + twoDigits (digitByte (Y / 10 % 10)) (digitByte (Y % 10)) = Y := by
    rw [twoDigits_digitByte _ _ (by omega) (by omega),
      twoDigits_digitByte _ _ (by omega) (by omega)]
    omega
  have eM : twoDigits (digitByte (M / 10)) (digitByte (M % 10)) = M := by
    rw [twoDigits_digitByte _ _ (by omega) (by omega)]; omega
  have eD : twoDigits (digitByte (D / 10)) (digitByte (D % 10)) = D := by
    rw [twoDigits_digitByte _ _ (by omega) (by omega)]; omega
  have eh : twoDigits (digitByte (hh / 10)) (digitByte (hh % 10)) = hh := by
    rw [twoDigits_digitByte _ _ (by omega) (by omega)]; omega
  have em : twoDigits (digitByte (mm / 10)) (digitByte (mm % 10)) = mm := by
    rw [twoDigits_digitByte _ _ (by omega) (by omega)]; omega
  have es : twoDigits (digitByte (ss / 10)) (digitByte (ss % 10)) = ss := by
    rw [twoDigits_digitByte _ _ (by omega) (by omega)]; omega
  have hdig : [digitByte (Y / 1000), digitByte (Y / 100 % 10), digitByte (Y / 10 % 10),
      digitByte (Y % 10), digitByte (M / 10), digitByte (M % 10), digitByte (D / 10),
      digitByte (D % 10), digitByte (hh / 10), digitByte (hh % 10), digitByte (mm / 10),
      digitByte (mm % 10), digitByte (ss / 10), digitByte (ss % 10)].all isDigit = true := by
    simp only [List.all_cons, List.all_nil, Bool.and_true, Bool.and_eq_true]
    refine ⟨?_, ?_, ?_, ?_, ?_, ?_, ?_, ?_, ?_, ?_, ?_, ?_, ?_, ?_⟩ <;>
      exact isDigit_digitByte _ (by omega)
  unfold parseRFC3339UTC stamp
  simp only [hdig, and_self, if_true, eY, eM, eD, eh, em, es, hM1, hM2, hD1, hD2, hh', hm, hs]

theorem daysFromCivil_spec (Y yd : Nat) (hlt : yd < (if isLeap (Y : Int) then 366 else 365)) :
    daysFromCivil Y (monthDay (isLeap (Y : Int)) yd).1 (monthDay (isLeap (Y : Int)) yd).2
      = daysBeforeYear Y + (yd : Int) - 719528
    ∧ 1 ≤ (monthDay (isLeap (Y : Int)) yd).1 ∧ (monthDay (isLeap (Y : Int)) yd).1 ≤ 12
    ∧ 1 ≤ (monthDay (isLeap (Y : Int)) yd).2
    ∧ (monthDay (isLeap (Y : Int)) yd).2 ≤ daysIn Y (monthDay (isLeap (Y : Int)) yd).1 := by
  have hok := monthDayOK_of_lt (isLeap (Y : Int)) yd hlt
  simp only [monthDayOK, decide_eq_true_eq] at hok
  obtain ⟨k1, k2, k3, k4, k5⟩ := hok
  refine ⟨?_, k1, k2, k3, ?_⟩
  · unfold daysFromCivil daysBeforeYear
    generalize monthDay (isLeap (Y : Int)) yd = p at k1 k2 k3 k4 k5 ⊢
    simp only
    generalize daysBefore.getD (p.1 - 1) 0 = q at k5 ⊢
    split_ifs at k5 ⊢ <;> omega
  · unfold daysIn
    exact k4

/-- The timestamp of an instant within the years 0 to 9999 reads back as the
instant. -/
theorem parse_format (t : Time) (h0 : t.offset = 0)
    (hlo : -62167219200 ≤ t.sec) (hhi : t.sec ≤ 253402300799) :
    parseRFC3339UTC t.FormatRFC3339 = some t.sec := by
  obtain ⟨Y, yd, M, D, hh, mm, ss, c⟩ := civil_of_time t h0 hlo hhi
  obtain ⟨e1, e2, e3, e4, e5⟩ := daysFromCivil_spec Y yd c.yday_lt
  rw [c.md] at e1 e2 e3 e4 e5
  simp only at e1 e2 e3 e4 e5
  rw [c.fmt, parse_stamp Y M D hh mm ss c.year_le e2 e3 e4 e5 c.hour_le c.min_le c.sec_le, e1]
  have := c.days
  have := c.clock
  congr 1
  push_cast at *
  omega

/-! # The order of timestamps as strings -/

theorem digitByte_lt (a b : Nat) (ha : a < 10) (hb : b < 10) :
    digitByte a < digitByte b ↔ a < b := by
  rw [byte_lt, digitByte_toNat a ha, digitByte_toNat b hb]; omega

theorem digitByte_inj (a b : Nat) (ha : a < 10) (hb : b < 10) :
    digitByte a = digitByte b ↔ a = b := by
  rw [byte_eq, digitByte_toNat a ha, digitByte_toNat b hb]; omega

theorem strLe_cons (a b : UInt8) (x y : GoString) :
    strLe (a :: x) (b :: y) = (decide (a < b) || (a == b && strLe x y)) := rfl

theorem strLe_same (c : UInt8) (x y : GoString) : strLe (c :: x) (c :: y) = strLe x y := by
  simp [strLe_cons]

theorem strLe_digit (a b : Nat) (ha : a < 10) (hb : b < 10) (x y : GoString) :
    strLe (digitByte a :: x) (digitByte b :: y)
      = (decide (a < b) || (decide (a = b) && strLe x y)) := by
  rw [strLe_cons]
  have h1 := digitByte_lt a b ha hb
  have h2 := digitByte_inj a b ha hb
  by_cases hlt : a < b
  · simp [h1.2 hlt, hlt]
  · by_cases heq : a = b
    · subst heq; simp
    · have : ¬ digitByte a = digitByte b := fun h => heq (h2.1 h)
      have hlt' : ¬ digitByte a < digitByte b := fun h => hlt (h1.1 h)
      simp [hlt, heq, this, hlt']

theorem strLe_two (a b : Nat) (ha : a < 100) (hb : b < 100) (x y : GoString) :
    strLe (digitByte (a / 10) :: digitByte (a % 10) :: x)
        (digitByte (b / 10) :: digitByte (b % 10) :: y)
      = (decide (a < b) || (decide (a = b) && strLe x y)) := by
  rw [strLe_digit _ _ (by omega) (by omega), strLe_digit _ _ (by omega) (by omega)]
  generalize strLe x y = r
  rw [Bool.eq_iff_iff]
  cases r <;>
    simp only [Bool.and_false, Bool.or_false, Bool.and_true, Bool.or_eq_true,
      Bool.and_eq_true, decide_eq_true_eq] <;> omega

theorem strLe_four (a b : Nat) (ha : a < 10000) (hb : b < 10000) (x y : GoString) :
    strLe (digitByte (a / 1000) :: digitByte (a / 100 % 10) :: digitByte (a / 10 % 10)
          :: digitByte (a % 10) :: x)
        (digitByte (b / 1000) :: digitByte (b / 100 % 10) :: digitByte (b / 10 % 10)
          :: digitByte (b % 10) :: y)
      = (decide (a < b) || (decide (a = b) && strLe x y)) := by
  rw [strLe_digit _ _ (by omega) (by omega), strLe_digit _ _ (by omega) (by omega),
    strLe_digit _ _ (by omega) (by omega), strLe_digit _ _ (by omega) (by omega)]
  generalize strLe x y = r
  rw [Bool.eq_iff_iff]
  cases r <;>
    simp only [Bool.and_false, Bool.or_false, Bool.and_true, Bool.or_eq_true,
      Bool.and_eq_true, decide_eq_true_eq] <;> omega

/-- Two timestamps compare as strings the way their fields compare in order. -/
theorem strLe_stamp (Y1 M1 D1 h1 m1 s1 Y2 M2 D2 h2 m2 s2 : Nat)
    (hY1 : Y1 < 10000) (hY2 : Y2 < 10000) (hM1 : M1 < 100) (hM2 : M2 < 100)
    (hD1 : D1 < 100) (hD2 : D2 < 100) (hh1 : h1 < 100) (hh2 : h2 < 100)
    (hm1 : m1 < 100) (hm2 : m2 < 100) (hs1 : s1 < 100) (hs2 : s2 < 100)
    (hlex : Y1 < Y2 ∨ (Y1 = Y2 ∧ (M1 < M2 ∨ (M1 = M2 ∧ (D1 < D2 ∨ (D1 = D2 ∧
      (h1 < h2 ∨ (h1 = h2 ∧ (m1 < m2 ∨ (m1 = m2 ∧ s1 ≤ s2)))))))))) :
    strLe (stamp Y1 M1 D1 h1 m1 s1) (stamp Y2 M2 D2 h2 m2 s2) = true := by
  unfold stamp
  rw [strLe_four _ _ hY1 hY2, strLe_same, strLe_two _ _ hM1 hM2, strLe_same,
    strLe_two _ _ hD1 hD2, strLe_same, strLe_two _ _ hh1 hh2, strLe_same,
    strLe_two _ _ hm1 hm2, strLe_same, strLe_two _ _ hs1 hs2, strLe_same]
  simp only [strLe, Bool.and_true, Bool.or_eq_true, Bool.and_eq_true, decide_eq_true_eq]
  omega

theorem Civil.month_day_bounds {t : Time} {Y yd M D hh mm ss : Nat}
    (c : Civil t Y yd M D hh mm ss) : 1 ≤ M ∧ M ≤ 12 ∧ 1 ≤ D ∧ D ≤ 31 := by
  have hok := monthDayOK_of_lt (isLeap (Y : Int)) yd c.yday_lt
  simp only [monthDayOK, decide_eq_true_eq, c.md] at hok
  obtain ⟨k1, k2, k3, k4, _⟩ := hok
  refine ⟨k1, k2, k3, le_trans k4 ?_⟩
  split_ifs <;> omega

/-- A later instant has the greater or the same timestamp, within the years 0
to 9999. -/
theorem format_mono (t1 t2 : Time) (h1 : t1.offset = 0) (h2 : t2.offset = 0)
    (hlo : -62167219200 ≤ t1.sec) (hle : t1.sec ≤ t2.sec) (hhi : t2.sec ≤ 253402300799) :
    strLe t1.FormatRFC3339 t2.FormatRFC3339 = true := by
  obtain ⟨Y1, yd1, M1, D1, hh1, mm1, ss1, c1⟩ := civil_of_time t1 h1 hlo (by omega)
  obtain ⟨Y2, yd2, M2, D2, hh2, mm2, ss2, c2⟩ := civil_of_time t2 h2 (by omega) hhi
  have b1 := c1.month_day_bounds
  have b2 := c2.month_day_bounds
  rw [c1.fmt, c2.fmt]
  have e1 := c1.days
  have e2 := c2.days
  have k1 := c1.clock
  have k2 := c2.clock
  have l1 := c1.yday_lt
  have l2 := c2.yday_lt
  have y1 := c1.year_le
  have y2 := c2.year_le
  have a1 := c1.hour_le
  have a2 := c2.hour_le
  have a3 := c1.min_le
  have a4 := c2.min_le
  have a5 := c1.sec_le
  have a6 := c2.sec_le
  apply strLe_stamp <;> try omega
  -- the years are in order
  have hY : Y1 ≤ Y2 := by
    by_contra hc
    have := daysBeforeYear_lt Y2 Y1 (by omega)
    split_ifs at l2 this <;> omega
  rcases Nat.lt_or_ge Y1 Y2 with hY' | hY'
  · left; exact hY'
  · have hYe : Y1 = Y2 := by omega
    subst hYe
    right
    refine ⟨rfl, ?_⟩
    rcases Nat.lt_trichotomy yd1 yd2 with hyd | hyd | hyd
    · have hk := monthDayKey_lt (isLeap (Y1 : Int)) yd1 yd2 hyd l2
      simp only [monthDayKey, c1.md, c2.md] at hk
      omega
    · subst hyd
      have hmd : (M1, D1) = (M2, D2) := by rw [← c1.md, ← c2.md]
      simp only [Prod.mk.injEq] at hmd
      obtain ⟨rfl, rfl⟩ := hmd
      right
      refine ⟨rfl, Or.inr ⟨rfl, ?_⟩⟩
      have hd : t1.sec / 86400 = t2.sec / 86400 := by omega
      push_cast at k1 k2
      omega
    · exfalso
      omega

/-! # Reading decimal digits back -/

theorem readDigits_digit (d : Nat) (h : d < 10) (rest : GoString) (acc n : Nat) :
    readDigits (digitByte d :: rest) acc n = readDigits rest (10 * acc + d) (n + 1) := by
  rw [readDigits, if_pos (isDigit_digitByte d h), digitByte_toNat d h]
  congr 2
  omega

theorem readDigits_stop (buf : GoString) (acc n : Nat)
    (h : ∀ c, buf.head? = some c → isDigit c = false) :
    readDigits buf acc n = (acc, n, buf) := by
  rcases buf with _ | ⟨c, rest⟩
  · rfl
  · have hc := h c rfl
    rw [readDigits, hc]
    rfl

theorem fmtIntLoop_read (fuel : Nat) : ∀ (buf : GoString) (v : Nat), v < 10 ^ fuel →
    ∃ k, (0 < v → 0 < k) ∧ ∀ acc n,
      readDigits (fmtIntLoop fuel buf v) acc n = readDigits buf (acc * 10 ^ k + v) (n + k) := by
  induction fuel with
  | zero =>
    intro buf v hv
    have h0 : v = 0 := by simpa using hv
    subst h0
    exact ⟨0, fun h => absurd h (by decide), fun acc n => by simp [fmtIntLoop]⟩
  | succ fuel ih =>
    intro buf v hv
    by_cases h0 : v = 0
    · subst h0
      exact ⟨0, fun h => absurd h (by decide), fun acc n => by simp [fmtIntLoop]⟩
    · have hpos : 0 < v := Nat.pos_of_ne_zero h0
      have hlt : v / 10 < 10 ^ fuel := by
        rw [Nat.div_lt_iff_lt_mul (by decide)]
        rw [pow_succ] at hv
        exact hv
      obtain ⟨k, _, hk⟩ := ih (digitByte (v % 10) :: buf) (v / 10) hlt
      refine ⟨k + 1, fun _ => Nat.succ_pos k, fun acc n => ?_⟩
      rw [fmtIntLoop_pos _ _ _ hpos, hk, readDigits_digit _ (Nat.mod_lt _ (by decide))]
      have e : 10 * (acc * 10 ^ k + v / 10) + v % 10 = acc * 10 ^ (k + 1) + v := by
        rw [pow_succ]
        have := Nat.div_add_mod v 10
        nlinarith
      rw [e]
      rfl

theorem fmtInt_read (buf : GoString) (v : Nat) (hv : v < 10 ^ 20) :
    ∃ k, 0 < k ∧ ∀ acc n,
      readDigits (fmtInt buf v) acc n = readDigits buf (acc * 10 ^ k + v) (n + k) := by
  unfold fmtInt
  by_cases h0 : v = 0
  · subst h0
    refine ⟨1, by decide, fun acc n => ?_⟩
    simp only [if_true]
    have := readDigits_digit 0 (by decide) buf acc n
    rw [digitByte_zero] at this
    rw [this]
    simp [Nat.mul_comm]
  · simp only [h0, if_false]
    obtain ⟨k, hk, h⟩ := fmtIntLoop_read 20 buf v hv
    exact ⟨k, hk (Nat.pos_of_ne_zero h0), h⟩

theorem fmtIntLoop_head (fuel : Nat) : ∀ (buf : GoString) (v : Nat) (c : UInt8),
    isDigit c = true →
    ∃ c' rest, fmtIntLoop fuel (c :: buf) v = c' :: rest ∧ isDigit c' = true := by
  induction fuel with
  | zero => intro buf v c hc; exact ⟨c, buf, rfl, hc⟩
  | succ fuel ih =>
    intro buf v c hc
    by_cases h0 : 0 < v
    · rw [fmtIntLoop_pos _ _ _ h0]
      exact ih _ _ _ (isDigit_digitByte _ (Nat.mod_lt _ (by decide)))
    · have : v = 0 := by omega
      subst this
      rw [fmtIntLoop_zero]
      exact ⟨c, buf, rfl, hc⟩

theorem fmtInt_head (buf : GoString) (v : Nat) :
    ∃ c rest, fmtInt buf v = c :: rest ∧ isDigit c = true := by
  unfold fmtInt
  by_cases h0 : v = 0
  · simp only [h0, if_true]
    exact ⟨48, buf, rfl, by decide⟩
  · simp only [h0, if_false]
    have hpos : 0 < v := Nat.pos_of_ne_zero h0
    show ∃ c rest, fmtIntLoop (19 + 1) buf v = c :: rest ∧ isDigit c = true
    rw [fmtIntLoop_pos _ _ _ hpos]
    exact fmtIntLoop_head _ _ _ _ (isDigit_digitByte _ (Nat.mod_lt _ (by decide)))

/-! # Characters of a formatted number -/

theorem fmtIntLoop_all (P : UInt8 → Prop) (hP : ∀ d, d < 10 → P (digitByte d)) (fuel : Nat) :
    ∀ (buf : GoString) (v : Nat), (∀ x ∈ buf, P x) → ∀ x ∈ fmtIntLoop fuel buf v, P x := by
  induction fuel with
  | zero => intro buf v hb; simpa [fmtIntLoop] using hb
  | succ fuel ih =>
    intro buf v hb
    by_cases h0 : 0 < v
    · rw [fmtIntLoop_pos _ _ _ h0]
      apply ih
      intro x hx
      rcases List.mem_cons.mp hx with rfl | hx
      · exact hP _ (Nat.mod_lt _ (by decide))
      · exact hb x hx
    · have : v = 0 := by omega
      subst this
      rw [fmtIntLoop_zero]
      exact hb

theorem fmtInt_all (P : UInt8 → Prop) (hP : ∀ d, d < 10 → P (digitByte d))
    (buf : GoString) (v : Nat) (hb : ∀ x ∈ buf, P x) : ∀ x ∈ fmtInt buf v, P x := by
  unfold fmtInt
  by_cases h0 : v = 0
  · simp only [h0, if_true]
    intro x hx
    rcases List.mem_cons.mp hx with rfl | hx
    · exact hP 0 (by decide)
    · exact hb x hx
  · simp only [h0, if_false]
    exact fmtIntLoop_all P hP 20 buf v hb

/-! # The fraction of a formatted duration -/

theorem mod_pow_succ (v i : Nat) : v % 10 ^ (i + 1) = 10 * (v / 10 % 10 ^ i) + v % 10 := by
  rw [pow_succ, Nat.mul_comm (10 ^ i) 10, Nat.mod_mul]
  omega

theorem div_pow_succ (v i : Nat) : v / 10 / 10 ^ i = v / 10 ^ (i + 1) := by
  rw [Nat.div_div_eq_div_mul, pow_succ, Nat.mul_comm]

theorem fmtFracLoop_print (i : Nat) : ∀ (buf : GoString) (v : Nat),
    ∃ B, fmtFracLoop i true buf v = (true, B, v / 10 ^ i)
      ∧ ∀ acc n, readDigits B acc n = readDigits buf (acc * 10 ^ i + v % 10 ^ i) (n + i) := by
  induction i with
  | zero =>
    intro buf v
    exact ⟨buf, by simp [fmtFracLoop], fun acc n => by simp [Nat.mod_one]⟩
  | succ i ih =>
    intro buf v
    obtain ⟨B, hB, hr⟩ := ih (digitByte (v % 10) :: buf) (v / 10)
    refine ⟨B, ?_, fun acc n => ?_⟩
    · rw [fmtFracLoop]
      simp only [Bool.true_or, if_true]
      rw [hB, div_pow_succ]
    · rw [hr, readDigits_digit _ (Nat.mod_lt _ (by decide)), mod_pow_succ v i]
      have e : 10 * (acc * 10 ^ i + v / 10 % 10 ^ i) + v % 10
          = acc * 10 ^ (i + 1) + (10 * (v / 10 % 10 ^ i) + v % 10) := by
        rw [pow_succ]; ring
      rw [e]
      rfl

theorem fmtFracLoop_quiet (i : Nat) : ∀ (buf : GoString) (v : Nat),
    ∃ f k B, fmtFracLoop i false buf v = (decide (0 < k), B, v / 10 ^ i)
      ∧ k ≤ i ∧ f * 10 ^ (i - k) = v % 10 ^ i ∧ (k = 0 → f = 0 ∧ B = buf)
      ∧ ∀ acc n, readDigits B acc n = readDigits buf (acc * 10 ^ k + f) (n + k) := by
  induction i with
  | zero =>
    intro buf v
    exact ⟨0, 0, buf, by simp [fmtFracLoop], le_refl _, by simp [Nat.mod_one],
      fun _ => ⟨rfl, rfl⟩, fun acc n => by simp⟩
  | succ i ih =>
    intro buf v
    by_cases hd : v % 10 = 0
    · obtain ⟨f, k, B, hB, hk, hf, h0, hr⟩ := ih buf (v / 10)
      refine ⟨f, k, B, ?_, by omega, ?_, h0, hr⟩
      · rw [fmtFracLoop]
        simp only [hd, Bool.false_or, bne_self_eq_false, Bool.false_eq_true, if_false]
        rw [hB, div_pow_succ]
      · rw [mod_pow_succ, hd, ← hf]
        have e : i + 1 - k = (i - k) + 1 := by omega
        rw [e, pow_succ]
        ring
    · obtain ⟨B, hB, hr⟩ := fmtFracLoop_print i (digitByte (v % 10) :: buf) (v / 10)
      refine ⟨v % 10 ^ (i + 1), i + 1, B, ?_, le_refl _, by simp, fun h => by omega,
        fun acc n => ?_⟩
      · rw [fmtFracLoop]
        have hne : (v % 10 != 0) = true := by simpa using hd
        simp only [hne, Bool.or_true, if_true]
        rw [hB, div_pow_succ]
        simp
      · rw [hr, readDigits_digit _ (Nat.mod_lt _ (by decide)), mod_pow_succ v i]
        have e : 10 * (acc * 10 ^ i + v / 10 % 10 ^ i) + v % 10
            = acc * 10 ^ (i + 1) + (10 * (v / 10 % 10 ^ i) + v % 10) := by
          rw [pow_succ]; ring
        rw [e]
        rfl

theorem fmtFrac_spec (buf : GoString) (v prec : Nat) :
    ∃ f k B, fmtFrac buf v prec = (B, v / 10 ^ prec)
      ∧ k ≤ prec ∧ f * 10 ^ (prec - k) = v % 10 ^ prec
      ∧ ((k = 0 ∧ f = 0 ∧ B = buf)
        ∨ (0 < k ∧ ∃ B', B = 46 :: B'
            ∧ ∀ acc n, readDigits B' acc n = readDigits buf (acc * 10 ^ k + f) (n + k))) := by
  obtain ⟨f, k, B, hB, hk, hf, h0, hr⟩ := fmtFracLoop_quiet prec buf v
  by_cases hk0 : k = 0
  · obtain ⟨hf0, hBb⟩ := h0 hk0
    refine ⟨f, k, buf, ?_, hk, hf, Or.inl ⟨hk0, hf0, rfl⟩⟩
    unfold fmtFrac
    rw [hB, hk0, hBb]
    rfl
  · have hpos : 0 < k := Nat.pos_of_ne_zero hk0
    refine ⟨f, k, 46 :: B, ?_, hk, hf, Or.inr ⟨hpos, B, rfl, hr⟩⟩
    unfold fmtFrac
    rw [hB]
    simp [hpos]

theorem fmtFracLoop_all (P : UInt8 → Prop) (hP : ∀ d, d < 10 → P (digitByte d)) (i : Nat) :
    ∀ (print : Bool) (buf : GoString) (v : Nat), (∀ x ∈ buf, P x) →
      ∀ x ∈ (fmtFracLoop i print buf v).2.1, P x := by
  induction i with
  | zero => intro print buf v hb; simpa [fmtFracLoop] using hb
  | succ i ih =>
    intro print buf v hb
    rw [fmtFracLoop]
    apply ih
    intro x hx
    split at hx
    · rcases List.mem_cons.mp hx with rfl | hx
      · exact hP _ (Nat.mod_lt _ (by decide))
      · exact hb x hx
    · exact hb x hx

theorem fmtFrac_all (P : UInt8 → Prop) (hP : ∀ d, d < 10 → P (digitByte d)) (hdot : P 46)
    (buf : GoString) (v prec : Nat) (hb : ∀ x ∈ buf, P x) :
    ∀ x ∈ (fmtFrac buf v prec).1, P x := by
  have h := fmtFracLoop_all P hP prec false buf v hb
  unfold fmtFrac
  rcases hh : fmtFracLoop prec false buf v with ⟨print, B, v'⟩
  rw [hh] at h
  simp only at h ⊢
  intro x hx
  split at hx
  · rcases List.mem_cons.mp hx with rfl | hx
    · exact hdot
    · exact h x hx
  · exact h x hx

/-! # One term of a duration -/

theorem term_int (unitbuf rest : GoString) (scale w : Nat) (hw : w < 10 ^ 20)
    (hu : durationUnit unitbuf = some (scale, rest))
    (hd : ∀ c, unitbuf.head? = some c → isDigit c = false)
    (hdot : unitbuf.head? ≠ some 0x2E) :
    parseDurationTerm (fmtInt unitbuf w) = some (w * scale, rest) := by
  obtain ⟨k, hk, hr⟩ := fmtInt_read unitbuf w hw
  unfold parseDurationTerm
  rw [hr 0 0, readDigits_stop unitbuf _ _ hd]
  have hk0 : ¬ (k = 0) := by omega
  simp only [hk0, if_false, hdot, hu, Nat.zero_mul, Nat.zero_add, pow_zero, Nat.div_one,
    Nat.add_zero]

theorem term_frac (unitbuf rest : GoString) (prec v w : Nat) (hw : w < 10 ^ 20)
    (hu : durationUnit unitbuf = some (10 ^ prec, rest))
    (hd : ∀ c, unitbuf.head? = some c → isDigit c = false)
    (hdot : unitbuf.head? ≠ some 0x2E) :
    parseDurationTerm (fmtInt (fmtFrac unitbuf v prec).1 w)
      = some (w * 10 ^ prec + v % 10 ^ prec, rest) := by
  obtain ⟨f, k, B, hB, hk, hf, hcase⟩ := fmtFrac_spec unitbuf v prec
  rw [hB]
  rcases hcase with ⟨hk0, hf0, hBb⟩ | ⟨hpos, B', hB', hr'⟩
  · subst hBb
    rw [term_int B rest _ w hw hu hd hdot, ← hf, hf0]
    simp
  · subst hB'
    obtain ⟨k1, hk1, hr⟩ := fmtInt_read (46 :: B') w hw
    unfold parseDurationTerm
    rw [hr 0 0, readDigits_stop (46 :: B') _ _ (by intro c hc; cases hc; decide)]
    have hk0 : ¬ (k1 = 0) := by omega
    simp only [Nat.zero_mul, Nat.zero_add, hk0, if_false, List.head?_cons, if_true,
      List.drop_succ_cons, List.drop_zero]
    rw [hr' 0 0, readDigits_stop unitbuf _ _ hd]
    simp only [hu, Nat.zero_mul, Nat.zero_add]
    have e : f * 10 ^ prec / 10 ^ k = v % 10 ^ prec := by
      rw [← hf]
      have : 10 ^ prec = 10 ^ (prec - k) * 10 ^ k := by
        rw [← pow_add]; congr 1; omega
      rw [this, ← Nat.mul_assoc, Nat.mul_div_cancel _ (pow_pos (by decide) k)]
    rw [e]

theorem terms_mono (fuel : Nat) : ∀ (s : GoString) (v : Nat),
    parseDurationTerms fuel s = some v → ∀ fuel', fuel ≤ fuel' →
      parseDurationTerms fuel' s = some v := by
  induction fuel with
  | zero => intro s v h; simp [parseDurationTerms] at h
  | succ fuel ih =>
    intro s v h fuel' hle
    obtain ⟨m, rfl⟩ : ∃ m, fuel' = m + 1 := ⟨fuel' - 1, by omega⟩
    rw [parseDurationTerms] at h ⊢
    rcases ht : parseDurationTerm s with _ | ⟨x, rest⟩
    · rw [ht] at h; simp at h
    · rw [ht] at h
      simp only at h ⊢
      by_cases hr : rest = []
      · simpa [hr] using h
      · simp only [hr, if_false] at h ⊢
        rcases hp : parseDurationTerms fuel rest with _ | v'
        · rw [hp] at h; simp at h
        · rw [hp] at h
          rw [ih rest v' hp m (by omega)]
          exact h

theorem fmtInt_length (buf : GoString) (v : Nat) : buf.length + 1 ≤ (fmtInt buf v).length := by
  have key : ∀ fuel (b : GoString) (x : Nat), b.length ≤ (fmtIntLoop fuel b x).length := by
    intro fuel
    induction fuel with
    | zero => intro b x; simp [fmtIntLoop]
    | succ fuel ih =>
      intro b x
      by_cases h0 : 0 < x
      · rw [fmtIntLoop_pos _ _ _ h0]
        have := ih (digitByte (x % 10) :: b) (x / 10)
        simp only [List.length_cons] at this
        omega
      · have : x = 0 := by omega
        subst this
        rw [fmtIntLoop_zero]
  unfold fmtInt
  by_cases h0 : v = 0
  · simp [h0]
  · simp only [h0, if_false]
    show buf.length + 1 ≤ (fmtIntLoop (19 + 1) buf v).length
    rw [fmtIntLoop_pos _ _ _ (Nat.pos_of_ne_zero h0)]
    have := key 19 (digitByte (v % 10) :: buf) (v / 10)
    simp only [List.length_cons] at this
    exact this

/-! # A formatted duration reads back as itself -/

theorem String_magnitude (d : Int) (hlo : (-9223372036854775808 : Int) ≤ d) :
    Duration.String d =
      if d < 0 then 45 :: Duration.magnitude (d.natAbs % 2 ^ 64)
      else Duration.magnitude (d.natAbs % 2 ^ 64) := by
  unfold Duration.String Duration.magnitude
  by_cases hneg : d < 0
  · simp only [hneg, if_true]
    split
    · split
      · rename_i hz
        exfalso
        have : d.natAbs % 2 ^ 64 = 0 := hz
        have h64 : (2 : Nat) ^ 64 = 18446744073709551616 := by norm_num
        rw [h64] at this
        omega
      · rfl
    · rfl
  · simp only [hneg, if_false]

theorem fmtFrac_snd (buf : GoString) (v prec : Nat) : (fmtFrac buf v prec).2 = v / 10 ^ prec := by
  obtain ⟨f, k, B, hB, _⟩ := fmtFrac_spec buf v prec
  rw [hB]

theorem terms_single (s : GoString) (v : Nat) (h : parseDurationTerm s = some (v, [])) :
    parseDurationTerms 1 s = some v := by
  rw [parseDurationTerms, h]
  simp

theorem terms_more (fuel : Nat) (s rest : GoString) (v v' : Nat)
    (h : parseDurationTerm s = some (v, rest)) (hr : rest ≠ [])
    (h' : parseDurationTerms fuel rest = some v') :
    parseDurationTerms (fuel + 1) s = some (v + v') := by
  rw [parseDurationTerms, h]
  simp only [hr, if_false, h']

theorem magnitude_small (u : Nat) (h0 : u ≠ 0) (hlt : u < 1000000000) :
    parseDurationTerms 1 (Duration.magnitude u) = some u
    ∧ 1 ≤ (Duration.magnitude u).length := by
  unfold Duration.magnitude
  simp only [hlt, if_true, h0, if_false]
  have hw : ∀ p, u / 10 ^ p < 10 ^ 20 := fun p =>
    lt_of_le_of_lt (Nat.div_le_self _ _) (lt_trans hlt (by norm_num))
  refine ⟨?_, le_trans (Nat.le_add_left _ _) (fmtInt_length _ _)⟩
  apply terms_single
  rw [fmtFrac_snd]
  by_cases h1 : u < 1000
  · simp only [h1, if_true]
    rw [term_frac (lit "ns") [] 0 u _ (hw 0) (by decide) (by intro c hc; cases hc; decide)
      (by decide)]
    simp [Nat.mod_one]
  · by_cases h2 : u < 1000000
    · simp only [h1, h2, if_true, if_false]
      rw [term_frac [0xC2, 0xB5, 115] [] 3 u _ (hw 3) (by decide)
        (by intro c hc; cases hc; decide) (by decide)]
      rw [Nat.div_add_mod']
    · simp only [h1, h2, if_false]
      rw [term_frac (lit "ms") [] 6 u _ (hw 6) (by decide) (by intro c hc; cases hc; decide)
        (by decide)]
      rw [Nat.div_add_mod']

theorem unit_minute (buf : GoString) (v : Nat) :
    durationUnit (109 :: fmtInt buf v) = some (60000000000, fmtInt buf v) := by
  obtain ⟨c, rest, hc, hd⟩ := fmtInt_head buf v
  rw [hc]
  have hne : c ≠ 0x73 := by
    intro h; subst h; revert hd; decide
  unfold durationUnit
  simp [hne]

theorem magnitude_large (u : Nat) (hge : ¬ u < 1000000000) (hlt : u < 2 ^ 64) :
    ∃ fuel, fuel ≤ (Duration.magnitude u).length
      ∧ parseDurationTerms fuel (Duration.magnitude u) = some u := by
  have h64 : (2 : Nat) ^ 64 = 18446744073709551616 := by norm_num
  rw [h64] at hlt
  have h9 : (10 : Nat) ^ 9 = 1000000000 := by norm_num
  have h20 : (10 : Nat) ^ 20 = 100000000000000000000 := by norm_num
  unfold Duration.magnitude
  simp only [hge, if_false]
  rw [fmtFrac_snd, h9]
  have hS : parseDurationTerm
      (fmtInt (fmtFrac (lit "s") u 9).1 (u / 1000000000 % 60))
      = some (u / 1000000000 % 60 * 1000000000 + u % 1000000000, []) := by
    have := term_frac (lit "s") [] 9 u (u / 1000000000 % 60) (by rw [h20]; omega) (by decide)
      (by intro c hc; cases hc; decide) (by decide)
    rw [h9] at this
    exact this
  have hS1 := terms_single _ _ hS
  have hSne : fmtInt (fmtFrac (lit "s") u 9).1 (u / 1000000000 % 60) ≠ [] := by
    intro h
    have := fmtInt_length (fmtFrac (lit "s") u 9).1 (u / 1000000000 % 60)
    rw [h] at this
    simp at this
  by_cases hm : u / 1000000000 / 60 > 0
  · simp only [hm, if_true]
    have hM : parseDurationTerm
        (fmtInt (109 :: fmtInt (fmtFrac (lit "s") u 9).1 (u / 1000000000 % 60))
          (u / 1000000000 / 60 % 60))
        = some (u / 1000000000 / 60 % 60 * 60000000000,
            fmtInt (fmtFrac (lit "s") u 9).1 (u / 1000000000 % 60)) :=
      term_int _ _ _ _ (by rw [h20]; omega) (unit_minute _ _)
        (by intro c hc; cases hc; decide) (by simp)
    have hM2 := terms_more 1 _ _ _ _ hM hSne hS1
    have hMne : fmtInt (109 :: fmtInt (fmtFrac (lit "s") u 9).1 (u / 1000000000 % 60))
        (u / 1000000000 / 60 % 60) ≠ [] := by
      intro h
      have := fmtInt_length (109 :: fmtInt (fmtFrac (lit "s") u 9).1 (u / 1000000000 % 60))
        (u / 1000000000 / 60 % 60)
      rw [h] at this
      simp at this
    by_cases hh : u / 1000000000 / 60 / 60 > 0
    · simp only [hh, if_true]
      have hH : parseDurationTerm
          (fmtInt (104 :: fmtInt (109 :: fmtInt (fmtFrac (lit "s") u 9).1 (u / 1000000000 % 60))
            (u / 1000000000 / 60 % 60)) (u / 1000000000 / 60 / 60))
          = some (u / 1000000000 / 60 / 60 * 3600000000000,
              fmtInt (109 :: fmtInt (fmtFrac (lit "s") u 9).1 (u / 1000000000 % 60))
                (u / 1000000000 / 60 % 60)) :=
        term_int _ _ _ _ (by rw [h20]; omega) rfl (by intro c hc; cases hc; decide) (by simp)
      have hH3 := terms_more 2 _ _ _ _ hH hMne hM2
      refine ⟨3, ?_, ?_⟩
      · have l1 := fmtInt_length (104 :: fmtInt (109 :: fmtInt (fmtFrac (lit "s") u 9).1
          (u / 1000000000 % 60)) (u / 1000000000 / 60 % 60)) (u / 1000000000 / 60 / 60)
        have l2 := fmtInt_length (109 :: fmtInt (fmtFrac (lit "s") u 9).1
          (u / 1000000000 % 60)) (u / 1000000000 / 60 % 60)
        simp only [List.length_cons] at l1 l2
        omega
      · rw [hH3]
        congr 1
        omega
    · simp only [hh, if_false]
      refine ⟨2, ?_, ?_⟩
      · have l2 := fmtInt_length (109 :: fmtInt (fmtFrac (lit "s") u 9).1
          (u / 1000000000 % 60)) (u / 1000000000 / 60 % 60)
        simp only [List.length_cons] at l2
        omega
      · rw [hM2]
        congr 1
        omega
  · simp only [hm, if_false]
    refine ⟨1, le_trans (Nat.le_add_left _ _) (fmtInt_length _ _), ?_⟩
    rw [hS1]
    congr 1
    omega

theorem magnitude_read (u : Nat) (hlt : u < 2 ^ 64) :
    ∃ fuel, fuel ≤ (Duration.magnitude u).length
      ∧ parseDurationTerms fuel (Duration.magnitude u) = some u := by
  by_cases h9 : u < 1000000000
  · by_cases h0 : u = 0
    · subst h0
      exact ⟨1, by decide, by decide⟩
    · exact ⟨1, (magnitude_small u h0 h9).2, (magnitude_small u h0 h9).1⟩
  · exact magnitude_large u h9 hlt

theorem magnitude_head (u : Nat) :
    ∃ c rest, Duration.magnitude u = c :: rest ∧ isDigit c = true := by
  unfold Duration.magnitude
  split
  · split
    · exact ⟨48, [0x73], rfl, by decide⟩
    · exact fmtInt_head _ _
  · simp only
    split
    · split
      · exact fmtInt_head _ _
      · exact fmtInt_head _ _
    · exact fmtInt_head _ _

/-- Reading back the text of a duration gives the duration, over the whole
int64 range. -/
theorem parseDuration_String (d : Int) (hlo : (-9223372036854775808 : Int) ≤ d)
    (hhi : d ≤ (9223372036854775807 : Int)) :
    parseDuration (Duration.String d) = some d := by
  have h64 : (2 : Nat) ^ 64 = 18446744073709551616 := by norm_num
  have hu : d.natAbs % 2 ^ 64 = d.natAbs := by
    apply Nat.mod_eq_of_lt
    rw [h64]
    omega
  obtain ⟨fuel, hf, hp⟩ := magnitude_read d.natAbs (by rw [h64]; omega)
  obtain ⟨c, rest, hc, hd⟩ := magnitude_head d.natAbs
  rw [String_magnitude d hlo, hu]
  by_cases hneg : d < 0
  · simp only [hneg, if_true]
    unfold parseDuration
    simp only [List.head?_cons, if_true, List.drop_succ_cons, List.drop_zero, List.length_cons]
    rw [terms_mono fuel _ _ hp _ (by omega)]
    simp only [Option.some.injEq]
    omega
  · simp only [hneg, if_false]
    unfold parseDuration
    have hne : (Duration.magnitude d.natAbs).head? ≠ some 0x2D := by
      rw [hc]
      intro h
      simp only [List.head?_cons, Option.some.injEq] at h
      subst h
      revert hd
      decide
    simp only [hne, if_false]
    rw [terms_mono fuel _ _ hp _ hf]
    simp only [Option.some.injEq]
    omega

/-- The text of a duration holds no space and no line feed. -/
theorem String_chars (d : Int) (hlo : (-9223372036854775808 : Int) ≤ d) :
    ∀ x ∈ Duration.String d, x ≠ 0x0A ∧ x ≠ 0x20 := by
  have hP : ∀ n, n < 10 → (digitByte n ≠ 0x0A ∧ digitByte n ≠ 0x20) := by decide
  have key : ∀ u, ∀ x ∈ Duration.magnitude u, x ≠ 0x0A ∧ x ≠ 0x20 := by
    intro u
    unfold Duration.magnitude
    split
    · split
      · decide
      · apply fmtInt_all (fun x => x ≠ 0x0A ∧ x ≠ 0x20) hP
        apply fmtFrac_all (fun x => x ≠ 0x0A ∧ x ≠ 0x20) hP (by decide)
        split
        · decide
        · split <;> decide
    · have hs : ∀ x ∈ fmtInt (fmtFrac (lit "s") u 9).1 ((fmtFrac (lit "s") u 9).2 % 60),
          x ≠ 0x0A ∧ x ≠ 0x20 := by
        apply fmtInt_all (fun x => x ≠ 0x0A ∧ x ≠ 0x20) hP
        apply fmtFrac_all (fun x => x ≠ 0x0A ∧ x ≠ 0x20) hP (by decide)
        decide
      have hm : ∀ x ∈ fmtInt (109 :: fmtInt (fmtFrac (lit "s") u 9).1
          ((fmtFrac (lit "s") u 9).2 % 60)) ((fmtFrac (lit "s") u 9).2 / 60 % 60),
          x ≠ 0x0A ∧ x ≠ 0x20 := by
        apply fmtInt_all (fun x => x ≠ 0x0A ∧ x ≠ 0x20) hP
        intro x hx
        rcases List.mem_cons.mp hx with rfl | hx
        · decide
        · exact hs x hx
      simp only
      split
      · split
        · apply fmtInt_all (fun x => x ≠ 0x0A ∧ x ≠ 0x20) hP
          intro x hx
          rcases List.mem_cons.mp hx with rfl | hx
          · decide
          · exact hm x hx
        · exact hm
      · exact hs
  rw [String_magnitude d hlo]
  split
  · intro x hx
    rcases List.mem_cons.mp hx with rfl | hx
    · decide
    · exact key _ x hx
  · exact key _

/-! # The elapsed time -/

theorem wrap64_eq (x : Int) :
    wrap64 x = (x + 9223372036854775808) % 18446744073709551616 - 9223372036854775808 := by
  unfold wrap64
  norm_num

theorem wrap64_range (x : Int) :
    (-9223372036854775808 : Int) ≤ wrap64 x ∧ wrap64 x ≤ (9223372036854775807 : Int) := by
  rw [wrap64_eq]
  omega

theorem wrap64_of_range (x : Int) (hlo : (-9223372036854775808 : Int) ≤ x)
    (hhi : x ≤ (9223372036854775807 : Int)) : wrap64 x = x := by
  rw [wrap64_eq]
  omega

theorem clamp64_range (x : Int) :
    (-9223372036854775808 : Int) ≤ clamp64 x ∧ clamp64 x ≤ (9223372036854775807 : Int) := by
  unfold clamp64
  split
  · omega
  · split <;> omega

theorem clamp64_lo (x : Int) (h : x < -9223372036854775808) :
    clamp64 x = -9223372036854775808 := by
  unfold clamp64
  rw [if_pos h]

theorem clamp64_hi (x : Int) (h : 9223372036854775807 < x) :
    clamp64 x = 9223372036854775807 := by
  unfold clamp64
  rw [if_neg (by omega), if_pos h]

theorem clamp64_mid (x : Int) (h1 : -9223372036854775808 ≤ x) (h2 : x ≤ 9223372036854775807) :
    clamp64 x = x := by
  unfold clamp64
  rw [if_neg (by omega), if_neg (by omega)]

theorem subMono_clamp (t u : Int) (ht1 : (-9223372036854775808 : Int) ≤ t)
    (ht2 : t ≤ (9223372036854775807 : Int)) (hu1 : (-9223372036854775808 : Int) ≤ u)
    (hu2 : u ≤ (9223372036854775807 : Int)) : subMono t u = clamp64 (t - u) := by
  unfold subMono clamp64
  simp only [wrap64_eq, minDuration, maxDuration, Duration]
  norm_num
  split_ifs <;> first | rfl | omega

/-! # The difference of two wall clock readings -/

theorem tdiv_tmod_neg (d n : Int) (hn : 0 < n) (hd : d < 0) :
    d.tdiv n = -((-d) / n) ∧ d.tmod n = -((-d) % n) := by
  have h1 : d.tdiv n = -((-d) / n) := by
    have := Int.neg_tdiv (-d) n
    rw [neg_neg] at this
    rw [this, Int.tdiv_eq_ediv (by omega) (by omega)]
  refine ⟨h1, ?_⟩
  have h2 := Int.tmod_add_tdiv d n
  rw [h1] at h2
  have h3 := Int.emod_add_ediv (-d) n
  linarith

theorem Add_mono_none (u : Time) (d : Int) (hu : u.mono = none) : (u.Add d).mono = none := by
  unfold Time.Add
  simp only [hu]

theorem Equal_of_none (a b : Time) (ha : a.mono = none) :
    a.Equal b = decide (a.internalSec = b.internalSec ∧ a.nsec = b.nsec) := by
  unfold Time.Equal
  rw [ha]

theorem Before_of_none (t u : Time) (hu : u.mono = none) :
    t.Before u = decide (t.internalSec < u.internalSec
      ∨ (t.internalSec = u.internalSec ∧ t.nsec < u.nsec)) := by
  unfold Time.Before
  rw [hu]
  cases t.mono <;> rfl

theorem Sub_of_none (t u : Time) (hu : u.mono = none) :
    t.Sub u =
      if (u.Add (wrap64 (wrap64 (wrap64 (t.internalSec - u.internalSec) * Second)
          + ((t.nsec : Int) - (u.nsec : Int))))).Equal t then
        wrap64 (wrap64 (wrap64 (t.internalSec - u.internalSec) * Second)
          + ((t.nsec : Int) - (u.nsec : Int)))
      else if t.Before u then minDuration
      else maxDuration := by
  unfold Time.Sub
  rw [hu]
  cases t.mono <;> rfl

theorem wrap64_collapse (p n : Int) :
    wrap64 (wrap64 (wrap64 p * 1000000000) + n) = wrap64 (p * 1000000000 + n) := by
  simp only [wrap64_eq]
  omega

theorem sub_wall_rel (un d q r ns dsec ns' : Int)
    (hun1 : 0 ≤ un) (hun2 : un < 1000000000)
    (hqr : d = 1000000000 * q + r) (hr1 : -1000000000 < r) (hr2 : r < 1000000000)
    (hns : ns = un + r)
    (hdsec : dsec = if ns ≥ 1000000000 then q + 1 else if ns < 0 then q - 1 else q)
    (hns' : ns' = if ns ≥ 1000000000 then ns - 1000000000
      else if ns < 0 then ns + 1000000000 else ns) :
    0 ≤ ns' ∧ ns' < 1000000000 ∧ dsec * 1000000000 + ns' = un + d := by
  rw [hdsec, hns']
  split_ifs <;> omega

theorem sub_wall_in (a b tn un d dsec ns' sum res : Int)
    (ha1 : -4611686018427387904 ≤ a) (ha2 : a ≤ 4611686018427387904)
    (hb1 : -4611686018427387904 ≤ b) (hb2 : b ≤ 4611686018427387904)
    (htn1 : 0 ≤ tn) (htn2 : tn < 1000000000) (hun1 : 0 ≤ un) (hun2 : un < 1000000000)
    (hd : d = ((a - b) * 1000000000 + (tn - un) + 9223372036854775808)
        % 18446744073709551616 - 9223372036854775808)
    (hn1 : 0 ≤ ns') (hn2 : ns' < 1000000000)
    (hrel : dsec * 1000000000 + ns' = un + d)
    (hsum : sum = ((b + 62135596800) + dsec + 9223372036854775808) % 18446744073709551616
      - 9223372036854775808)
    (hres : res = if (sum > b + 62135596800 ↔ dsec > 0) then sum
      else if dsec > 0 then 9223372036854775807 else -9223372036854775807)
    (h1 : -9223372036854775808 ≤ (a - b) * 1000000000 + (tn - un))
    (h2 : (a - b) * 1000000000 + (tn - un) ≤ 9223372036854775807) :
    d = (a - b) * 1000000000 + (tn - un) ∧ res = a + 62135596800 ∧ ns' = tn := by
  have hdx : d = (a - b) * 1000000000 + (tn - un) := by
    clear hres hsum hrel
    omega
  have hds : dsec = a - b ∧ ns' = tn := by
    clear hres hsum hd
    omega
  refine ⟨hdx, ?_, hds.2⟩
  have hs : sum = a + 62135596800 := by
    clear hres hd hrel
    omega
  rw [hres]
  clear hres hd hrel hsum
  split_ifs <;> omega

theorem sub_wall_k (a b tn un d : Int)
    (ha1 : -4611686018427387904 ≤ a) (ha2 : a ≤ 4611686018427387904)
    (hb1 : -4611686018427387904 ≤ b) (hb2 : b ≤ 4611686018427387904)
    (htn1 : 0 ≤ tn) (htn2 : tn < 1000000000) (hun1 : 0 ≤ un) (hun2 : un < 1000000000)
    (hd : d = ((a - b) * 1000000000 + (tn - un) + 9223372036854775808)
        % 18446744073709551616 - 9223372036854775808)
    (h1 : (a - b) * 1000000000 + (tn - un) < -9223372036854775808
        ∨ 9223372036854775807 < (a - b) * 1000000000 + (tn - un)) :
    ∃ k : Int, d = (a - b) * 1000000000 + (tn - un) - 18446744073709551616 * k
      ∧ -500000001 ≤ k ∧ k ≤ 500000001 ∧ k ≠ 0 :=
  ⟨((a - b) * 1000000000 + (tn - un) + 9223372036854775808) / 18446744073709551616,
    by omega, by omega, by omega, by omega⟩

theorem sub_wall_out (a b tn un d dsec ns' sum res : Int)
    (ha1 : -4611686018427387904 ≤ a) (ha2 : a ≤ 4611686018427387904)
    (hb1 : -4611686018427387904 ≤ b) (hb2 : b ≤ 4611686018427387904)
    (htn1 : 0 ≤ tn) (htn2 : tn < 1000000000) (hun1 : 0 ≤ un) (hun2 : un < 1000000000)
    (hd : d = ((a - b) * 1000000000 + (tn - un) + 9223372036854775808)
        % 18446744073709551616 - 9223372036854775808)
    (hrel : dsec * 1000000000 + ns' = un + d)
    (hsum : sum = ((b + 62135596800) + dsec + 9223372036854775808) % 18446744073709551616
      - 9223372036854775808)
    (hres : res = if (sum > b + 62135596800 ↔ dsec > 0) then sum
      else if dsec > 0 then 9223372036854775807 else -9223372036854775807)
    (h1 : (a - b) * 1000000000 + (tn - un) < -9223372036854775808
        ∨ 9223372036854775807 < (a - b) * 1000000000 + (tn - un)) :
    ¬ (res = a + 62135596800 ∧ ns' = tn) := by
  intro ⟨hr, hn⟩
  obtain ⟨k, hk1, hk2, hk3, hk4⟩ :=
    sub_wall_k a b tn un d ha1 ha2 hb1 hb2 htn1 htn2 hun1 hun2 hd h1
  have hd2 : dsec * 1000000000 = (a - b) * 1000000000 - 18446744073709551616 * k := by
    linarith
  have hsat : res = sum := by
    rw [hres] at hr ⊢
    clear hsum hres hd2 hd h1 hrel hk1
    split_ifs at hr ⊢ <;> omega
  rw [hsat] at hr
  obtain ⟨j, hj⟩ : ∃ j : Int, b + 62135596800 + dsec = sum + 18446744073709551616 * j :=
    ⟨(b + 62135596800 + dsec + 9223372036854775808) / 18446744073709551616, by
      clear hres hd h1 hrel hk1 hd2 hsat
      omega⟩
  clear hsum hres hd h1 hrel hk1 hsat
  have hjk : 1000000000 * j = -k := by linarith
  clear hd2 hj hr
  omega

theorem unixToInternal_eq : unixToInternal = 62135596800 := by
  norm_num [unixToInternal]

theorem wallToInternal_eq : wallToInternal = 59453308800 := by
  norm_num [wallToInternal]

theorem tdiv_tmod_facts (d : Int) :
    d = 1000000000 * d.tdiv 1000000000 + d.tmod 1000000000
    ∧ -1000000000 < d.tmod 1000000000 ∧ d.tmod 1000000000 < 1000000000
    ∧ (0 ≤ d → 0 ≤ d.tmod 1000000000) ∧ (d ≤ 0 → d.tmod 1000000000 ≤ 0) := by
  have h := Int.tdiv_add_tmod d 1000000000
  by_cases hd : 0 ≤ d
  · have h1 := Int.tmod_eq_emod hd (by norm_num : (0 : Int) ≤ 1000000000)
    rw [h1] at h ⊢
    refine ⟨by omega, by omega, by omega, by omega, ?_⟩
    intro h0
    have : d = 0 := by omega
    subst this
    norm_num
  · have h2 := (tdiv_tmod_neg d 1000000000 (by norm_num) (by omega)).2
    rw [h2] at h ⊢
    refine ⟨by omega, by omega, by omega, by omega, by omega⟩

theorem addSec_of_none (u : Time) (dsec : Int) (hu : u.mono = none) :
    u.addSec dsec =
      if (wrap64 (u.internalSec + dsec) > u.internalSec ↔ dsec > 0)
      then wrap64 (u.internalSec + dsec)
      else if dsec > 0 then 9223372036854775807 else -9223372036854775807 := by
  unfold Time.addSec
  simp only [hu, Option.isSome_none, Bool.false_eq_true, false_and, if_false, decide_eq_decide]
  norm_num

/-- The difference of two wall clock readings within 2^62 seconds of the epoch,
the earlier one without a monotonic reading, is their distance in nanoseconds,
stopped at the ends of the int64 range. -/
theorem Sub_wall (t u : Time) (hu : u.mono = none)
    (ht1 : -4611686018427387904 ≤ t.sec) (ht2 : t.sec ≤ 4611686018427387904)
    (hu1 : -4611686018427387904 ≤ u.sec) (hu2 : u.sec ≤ 4611686018427387904)
    (htn : t.nsec < 1000000000) (hun : u.nsec < 1000000000) :
    t.Sub u = clamp64 ((t.sec - u.sec) * 1000000000 + ((t.nsec : Int) - (u.nsec : Int))) := by
  have hti : t.internalSec = t.sec + 62135596800 := by
    unfold Time.internalSec
    rw [unixToInternal_eq, wrap64_of_range _ (by omega) (by omega)]
  have hui : u.internalSec = u.sec + 62135596800 := by
    unfold Time.internalSec
    rw [unixToInternal_eq, wrap64_of_range _ (by omega) (by omega)]
  rw [Sub_of_none t u hu]
  have hS : Second = 1000000000 := rfl
  rw [hS, wrap64_collapse, hti, hui]
  have hsub : t.sec + 62135596800 - (u.sec + 62135596800) = t.sec - u.sec := by ring
  rw [hsub]
  generalize hd : wrap64 ((t.sec - u.sec) * 1000000000 + ((t.nsec : Int) - (u.nsec : Int))) = d
  rw [wrap64_eq] at hd
  obtain ⟨hqr, hr1, hr2, hs1, hs2⟩ := tdiv_tmod_facts d
  -- the fields of `u.Add d`
  generalize hq : d.tdiv 1000000000 = q at hqr
  generalize hr : d.tmod 1000000000 = r at hqr hr1 hr2 hs1 hs2
  have hrelf := sub_wall_rel (u.nsec : Int) d q r ((u.nsec : Int) + r)
    (if (u.nsec : Int) + r ≥ 1000000000 then q + 1 else if (u.nsec : Int) + r < 0 then q - 1 else q)
    (if (u.nsec : Int) + r ≥ 1000000000 then (u.nsec : Int) + r - 1000000000
      else if (u.nsec : Int) + r < 0 then (u.nsec : Int) + r + 1000000000 else (u.nsec : Int) + r)
    (by omega) (by omega) hqr hr1 hr2 rfl rfl rfl
  generalize hdsec : (if (u.nsec : Int) + r ≥ 1000000000 then q + 1
    else if (u.nsec : Int) + r < 0 then q - 1 else q) = dsec at hrelf
  generalize hns' : (if (u.nsec : Int) + r ≥ 1000000000 then (u.nsec : Int) + r - 1000000000
      else if (u.nsec : Int) + r < 0 then (u.nsec : Int) + r + 1000000000
      else (u.nsec : Int) + r) = ns' at hrelf
  have hAddN : ((u.Add d).nsec : Int) = ns' := by
    unfold Time.Add
    simp only [hq, hr, hns']
    exact Int.toNat_of_nonneg hrelf.1
  have hAddS : (u.Add d).sec = u.addSec dsec - unixToInternal := by
    unfold Time.Add
    simp only [hq, hr, hdsec]
  have haddSec := addSec_of_none u dsec hu
  rw [hui] at haddSec
  generalize hsum : wrap64 (u.sec + 62135596800 + dsec) = sum at haddSec
  rw [wrap64_eq] at hsum
  generalize hres : u.addSec dsec = res at haddSec hAddS
  have hresr : -9223372036854775808 ≤ res ∧ res ≤ 9223372036854775807 := by
    rw [haddSec]
    have hsr : -9223372036854775808 ≤ sum ∧ sum ≤ 9223372036854775807 := by omega
    clear haddSec hsum hd hrelf
    split_ifs <;> omega
  have hAddI : (u.Add d).internalSec = res := by
    unfold Time.internalSec
    rw [hAddS, sub_add_cancel, wrap64_of_range _ hresr.1 hresr.2]
  rw [Equal_of_none _ _ (Add_mono_none u d hu), Before_of_none t u hu, hAddI, hti, hui]
  have hnat : ((u.Add d).nsec = t.nsec) ↔ ns' = (t.nsec : Int) := by
    rw [← hAddN]
    exact Int.ofNat_inj.symm
  simp only [hnat]
  by_cases hin : -9223372036854775808 ≤ (t.sec - u.sec) * 1000000000
      + ((t.nsec : Int) - (u.nsec : Int)) ∧ (t.sec - u.sec) * 1000000000
      + ((t.nsec : Int) - (u.nsec : Int)) ≤ 9223372036854775807
  · obtain ⟨h1, h2, h3⟩ := sub_wall_in t.sec u.sec t.nsec u.nsec d dsec ns' sum res ht1 ht2 hu1 hu2
      (by omega) (by omega) (by omega) (by omega) hd.symm hrelf.1 hrelf.2.1 hrelf.2.2 hsum.symm
      haddSec hin.1 hin.2
    simp only [h2, h3, and_self, decide_True, if_true]
    rw [h1, clamp64_mid _ hin.1 hin.2]
  · have hout : (t.sec - u.sec) * 1000000000 + ((t.nsec : Int) - (u.nsec : Int))
        < -9223372036854775808 ∨ 9223372036854775807 < (t.sec - u.sec) * 1000000000
        + ((t.nsec : Int) - (u.nsec : Int)) := by omega
    have hne := sub_wall_out t.sec u.sec t.nsec u.nsec d dsec ns' sum res ht1 ht2 hu1 hu2
      (by omega) (by omega) (by omega) (by omega) hd.symm hrelf.2.2 hsum.symm haddSec hout
    simp only [hne, decide_False, Bool.false_eq_true, if_false]
    clear hne haddSec hsum hrelf hd hin
    rcases hout with h | h
    · rw [clamp64_lo _ h, if_pos]
      · norm_num [minDuration]
      · simp only [decide_eq_true_eq]
        omega
    · rw [clamp64_hi _ h, if_neg]
      · norm_num [maxDuration]
      · simp only [decide_eq_true_eq]
        omega

/-! # The greeting handler, spelled out -/

theorem plainName_fields (v : Response) : ∀ f ∈ v.fields, PlainName f.1 := by
  intro f hf
  simp only [Response.fields, List.mem_cons, List.mem_singleton, List.not_mem_nil, or_false] at hf
  rcases hf with rfl | rfl | rfl | rfl | rfl | rfl <;> (unfold PlainName; simp only; decide)

theorem Encode_eq (w : ResponseWriter) (v : Response) :
    Encode w [] (lit "  ") v = w.Write v.text := by
  unfold Encode
  have h := indent_struct (lit "message", v.Message)
    [(lit "version", v.Version), (lit "git_sha", v.GitSHA), (lit "build_time", v.BuildTime),
     (lit "time_utc", v.TimeUTC), (lit "hostname", v.Hostname)] (plainName_fields v)
  have e : v.fields = (lit "message", v.Message) ::
    [(lit "version", v.Version), (lit "git_sha", v.GitSHA), (lit "build_time", v.BuildTime),
     (lit "time_utc", v.TimeUTC), (lit "hostname", v.Hostname)] := rfl
  rw [e]
  simp only [h]
  rfl

theorem Now_snd (world : World) : world.Now.2 = { world with tick := world.tick + 1 } := rfl

theorem rootHandler_eq (b : BuildVars) (w : ResponseWriter) (r : Request) (world : World) :
    rootHandler b w r world =
      ((w.SetHeader (lit "Content-Type") (lit "application/json; charset=utf-8")).Write
          (newResponse b world.host world.Now.1).text,
        { world with lookups := world.lookups + 1, tick := world.tick + 1 }) := by
  unfold rootHandler
  have h1 : world.Hostname.2.Now.1 = world.Now.1 := rfl
  have h2 : world.Hostname.2.Now.2
      = { world with lookups := world.lookups + 1, tick := world.tick + 1 } := by
    rw [Now_snd]
    rfl
  simp only [Encode_eq]
  exact Prod.ext (by rw [h1]; rfl) h2

theorem rootHandler_fresh (b : BuildVars) (r : Request) (world : World) :
    (rootHandler b ResponseWriter.fresh r world).1 =
      { header := [(lit "Content-Type", [lit "application/json; charset=utf-8"])],
        wroteHeader := true, status := 200,
        sent := [(lit "Content-Type", [lit "application/json; charset=utf-8"])],
        body := (newResponse b world.host world.Now.1).text } := by
  rw [rootHandler_eq]
  rfl

theorem rootHandler_finish (b : BuildVars) (r : Request) (world : World) :
    (rootHandler b ResponseWriter.fresh r world).1.finish =
      { header := [(lit "Content-Type", [lit "application/json; charset=utf-8"])],
        wroteHeader := true, status := 200,
        sent := [(lit "Content-Type", [lit "application/json; charset=utf-8"])],
        body := (newResponse b world.host world.Now.1).text } := by
  rw [rootHandler_fresh]
  rfl

theorem parse_text (v : Response) :
    JSON.parse v.text = some (.object
      [(lit "message", .string (coerceUTF8 v.Message)),
       (lit "version", .string (coerceUTF8 v.Version)),
       (lit "git_sha", .string (coerceUTF8 v.GitSHA)),
       (lit "build_time", .string (coerceUTF8 v.BuildTime)),
       (lit "time_utc", .string (coerceUTF8 v.TimeUTC)),
       (lit "hostname", .string (coerceUTF8 v.Hostname))]) := by
  unfold Response.text
  rw [parse_layout _ _ (plainName_fields v)]
  rfl

theorem bodyField_text (v : Response) :
    bodyField v.text (lit "message") = some (coerceUTF8 v.Message)
    ∧ bodyField v.text (lit "version") = some (coerceUTF8 v.Version)
    ∧ bodyField v.text (lit "git_sha") = some (coerceUTF8 v.GitSHA)
    ∧ bodyField v.text (lit "build_time") = some (coerceUTF8 v.BuildTime)
    ∧ bodyField v.text (lit "time_utc") = some (coerceUTF8 v.TimeUTC)
    ∧ bodyField v.text (lit "hostname") = some (coerceUTF8 v.Hostname) := by
  simp only [bodyField, parse_text, Option.some_bind, JSON.stringField]
  refine ⟨?_, ?_, ?_, ?_, ?_, ?_⟩ <;> rfl

/-! # The clock readings -/

theorem now_sec_range (world : World) :
    (-9223372036854775808 : Int) ≤ world.now.1.sec
      ∧ world.now.1.sec ≤ (9223372036854775807 : Int) :=
  wrap64_range _

theorem now_mono_range (world : World) :
    (-9223372036854775808 : Int) ≤ world.now.1.mono
      ∧ world.now.1.mono ≤ (9223372036854775807 : Int) :=
  wrap64_range _

theorem now_nsec_lt (world : World) : world.now.1.nsec < 1000000000 :=
  Nat.mod_lt _ (by decide)

theorem Now_sec (world : World) : world.Now.1.sec = world.now.1.sec := by
  unfold World.Now
  simp only
  split <;> rfl

theorem Now_nsec (world : World) : world.Now.1.nsec = world.now.1.nsec := by
  unfold World.Now
  simp only
  split <;> rfl

theorem Now_offset (world : World) : world.Now.1.UTC.offset = 0 := rfl

theorem Now_mono (world : World) :
    world.Now.1.mono =
      if -2682288000 ≤ world.now.1.sec ∧ world.now.1.sec < 5907646592
      then some world.now.1.mono else none := by
  have hr := now_sec_range world
  unfold World.Now
  simp only [unixToInternal_eq, minWall, wallToInternal_eq]
  generalize world.now.1.sec = s at hr ⊢
  have hc : (wrap64 (s + (62135596800 - 59453308800)) % 2 ^ 64 / 2 ^ 33 ≠ 0)
      ↔ ¬ (-2682288000 ≤ s ∧ s < 5907646592) := by
    rw [wrap64_eq]
    norm_num
    omega
  by_cases h : -2682288000 ≤ s ∧ s < 5907646592
  · rw [if_neg (by rw [hc]; exact not_not.mpr h), if_pos h]
  · rw [if_pos (hc.mpr h), if_neg h]

theorem Since_snd (world : World) (start : Time) :
    (world.Since start).2 = { world with tick := world.tick + 1 } := by
  unfold World.Since
  cases start.mono <;> rfl

theorem Since_fst_mono (world : World) (start : Time) (m : Int) (h : start.mono = some m) :
    (world.Since start).1 = subMono world.now.1.mono m := by
  unfold World.Since
  rw [h]

theorem Since_fst_wall (world : World) (start : Time) (h : start.mono = none) :
    (world.Since start).1 = world.Now.1.Sub start := by
  unfold World.Since
  rw [h]

theorem subMono_range (t u : Int) :
    (-9223372036854775808 : Int) ≤ subMono t u ∧ subMono t u ≤ (9223372036854775807 : Int) := by
  unfold subMono
  have h := wrap64_range (t - u)
  simp only [minDuration, maxDuration, Duration]
  norm_num
  split_ifs <;> omega

theorem Sub_range (t u : Time) :
    (-9223372036854775808 : Int) ≤ t.Sub u ∧ t.Sub u ≤ (9223372036854775807 : Int) := by
  unfold Time.Sub
  split
  · exact subMono_range _ _
  · have h := wrap64_range (wrap64 (wrap64 (t.internalSec - u.internalSec) * Second)
      + ((t.nsec : Int) - (u.nsec : Int)))
    simp only [minDuration, maxDuration, Duration]
    norm_num
    split_ifs <;> omega

theorem Since_range (world : World) (start : Time) :
    (-9223372036854775808 : Int) ≤ (world.Since start).1
      ∧ (world.Since start).1 ≤ (9223372036854775807 : Int) := by
  unfold World.Since
  cases start.mono
  · exact Sub_range _ _
  · exact subMono_range _ _

/-! # The middleware and the server -/

theorem loggingMiddleware_fst (next : Handler) (w : ResponseWriter) (r : Request)
    (world : World) : (loggingMiddleware next w r world).1 = (next w r world.Now.2).1 := rfl

theorem loggingMiddleware_snd (next : Handler) (w : ResponseWriter) (r : Request)
    (world : World) :
    (loggingMiddleware next w r world).2 =
      ((next w r world.Now.2).2.Since world.Now.1).2.Print
        (r.Method ++ lit " " ++ r.Path ++ lit " "
          ++ Duration.String ((next w r world.Now.2).2.Since world.Now.1).1 ++ lit "\n") := rfl

theorem mainServer_ServeHTTP (b : BuildVars) (boot : World) (w : ResponseWriter) (r : Request)
    (world : World) (h : ¬ (r.RequestURI = lit "*" ∧ r.Method = lit "OPTIONS")) :
    (mainServer b boot).ServeHTTP w r world
      = loggingMiddleware (newMux b).ServeHTTP w r world := by
  unfold Server.ServeHTTP
  rw [if_neg (fun hh => h hh.2)]
  rfl

theorem mainServer_options (b : BuildVars) (boot : World) (w : ResponseWriter) (r : Request)
    (world : World) (h : r.RequestURI = lit "*" ∧ r.Method = lit "OPTIONS") :
    (mainServer b boot).ServeHTTP w r world = globalOptionsHandler w r world := by
  unfold Server.ServeHTTP
  rw [if_pos ⟨by simp [mainServer], h⟩]

theorem serve_eq (b : BuildVars) (boot : World) (r : Request) (world : World)
    (h : ¬ (r.RequestURI = lit "*" ∧ r.Method = lit "OPTIONS")) :
    (mainServer b boot).serve r world =
      (((newMux b).ServeHTTP ResponseWriter.fresh r world.Now.2).1.response r,
        (loggingMiddleware (newMux b).ServeHTTP ResponseWriter.fresh r world).2) := by
  unfold Server.serve
  rw [mainServer_ServeHTTP b boot _ r world h]
  rfl

/-! # What the mux selects -/

theorem newMux_Handler_of_clean (b : BuildVars) (r : Request)
    (hc : r.Method = lit "CONNECT" ∨ cleanPath r.Path = r.Path) :
    (newMux b).Handler r = (newMux b).handler r.Path := by
  unfold ServeMux.Handler
  simp only [newMux_shouldRedirect, Bool.false_eq_true, if_false]
  by_cases hm : r.Method = lit "CONNECT"
  · simp only [hm, if_true]
  · have hp : cleanPath r.Path = r.Path := hc.resolve_left hm
    simp only [hm, if_false, hp, ne_eq, not_true_eq_false]

theorem newMux_Handler_of_unclean (b : BuildVars) (r : Request)
    (hm : r.Method ≠ lit "CONNECT") (hp : cleanPath r.Path ≠ r.Path) :
    ((newMux b).Handler r).1
      = RedirectHandler (URL.String { Path := cleanPath r.Path, RawQuery := r.RawQuery }) 301 := by
  unfold ServeMux.Handler
  simp only [newMux_shouldRedirect, Bool.false_eq_true, if_false, hm, hp, ne_eq,
    not_false_eq_true, if_true]

theorem ServeHTTP_of_not_star (mux : ServeMux) (w : ResponseWriter) (r : Request)
    (world : World) (hu : r.RequestURI ≠ lit "*") :
    mux.ServeHTTP w r world = (mux.Handler r).1 w r world := by
  unfold ServeMux.ServeHTTP
  simp only [hu, if_false]

theorem mux_healthz (b : BuildVars) (w : ResponseWriter) (r : Request) (world : World)
    (hu : r.RequestURI ≠ lit "*") (hp : r.Path = lit "/healthz") :
    (newMux b).ServeHTTP w r world = healthzHandler w r world := by
  rw [ServeHTTP_of_not_star _ _ _ _ hu,
    newMux_Handler_of_clean b r (Or.inr (by rw [hp]; decide)), newMux_handler, if_pos hp]

theorem mux_greeting (b : BuildVars) (w : ResponseWriter) (r : Request) (world : World)
    (hg : r.greeted) : (newMux b).ServeHTTP w r world = rootHandler b w r world := by
  obtain ⟨hu, hp, hc⟩ := hg
  have hhead : r.Path.head? = some 0x2F := by rw [← hc]; exact cleanPath_head _
  rw [ServeHTTP_of_not_star _ _ _ _ hu, newMux_Handler_of_clean b r (Or.inr hc), newMux_handler,
    if_neg hp, if_pos hhead]

theorem mux_unclean (b : BuildVars) (w : ResponseWriter) (r : Request) (world : World)
    (hu : r.RequestURI ≠ lit "*") (hm : r.Method ≠ lit "CONNECT")
    (hc : cleanPath r.Path ≠ r.Path) :
    (newMux b).ServeHTTP w r world
      = Redirect (URL.String { Path := cleanPath r.Path, RawQuery := r.RawQuery }) 301
          w r world := by
  rw [ServeHTTP_of_not_star _ _ _ _ hu, newMux_Handler_of_unclean b r hm hc]
  rfl

/-! # What the handlers leave on the writer -/

theorem healthz_response (r : Request) (world : World) :
    (healthzHandler ResponseWriter.fresh r world).1.response r
      = sentWith r.Method 200 (lit "text/plain; charset=utf-8") (lit "ok\n") := rfl

theorem root_response (b : BuildVars) (r : Request) (world : World) :
    (rootHandler b ResponseWriter.fresh r world).1.response r
      = sentWith r.Method 200 (lit "application/json; charset=utf-8")
          (newResponse b world.host world.Now.1).text := by
  unfold ResponseWriter.response
  rw [rootHandler_finish]
  rfl

theorem Redirect_snd (url : GoString) (code : Nat) (w : ResponseWriter) (r : Request)
    (world : World) : (Redirect url code w r world).2 = world := by
  unfold Redirect
  simp only
  split <;> rfl

theorem Write_status (w : ResponseWriter) (data : GoString) (h : w.wroteHeader = true) :
    (w.Write data).status = w.status ∧ (w.Write data).wroteHeader = true
      ∧ (w.Write data).sent = w.sent := by
  unfold ResponseWriter.Write
  simp only [h, if_true]
  split <;> simp [h]

theorem WriteHeader_first (w : ResponseWriter) (code : Nat) (h : w.wroteHeader = false) :
    (w.WriteHeader code).status = code ∧ (w.WriteHeader code).wroteHeader = true
      ∧ (w.WriteHeader code).sent = w.header := by
  unfold ResponseWriter.WriteHeader
  simp [h]

theorem finish_of_wrote (w : ResponseWriter) (h : w.wroteHeader = true) : w.finish = w := by
  unfold ResponseWriter.finish
  simp [h]

theorem Redirect_fst (url : GoString) (code : Nat) (w : ResponseWriter) (r : Request)
    (world : World) :
    ∃ (w2 : ResponseWriter) (data : GoString), w2.wroteHeader = w.wroteHeader
      ∧ ((Redirect url code w r world).1 = (w2.WriteHeader code).Write data
        ∨ (Redirect url code w r world).1 = w2.WriteHeader code) := by
  unfold Redirect
  simp only
  split
  · refine ⟨_, _, ?_, Or.inl rfl⟩
    split <;> rfl
  · refine ⟨_, [], ?_, Or.inr rfl⟩
    split <;> rfl

theorem Redirect_status (url : GoString) (code : Nat) (r : Request) (world : World) :
    ((Redirect url code ResponseWriter.fresh r world).1.response r).status = code := by
  obtain ⟨w2, data, hw, h⟩ := Redirect_fst url code ResponseWriter.fresh r world
  have hf : w2.wroteHeader = false := hw
  obtain ⟨h1, h2, _⟩ := WriteHeader_first w2 code hf
  unfold ResponseWriter.response
  simp only
  rcases h with h | h
  · obtain ⟨g1, g2, _⟩ := Write_status _ data h2
    rw [h, finish_of_wrote _ g2, g1, h1]
  · rw [h, finish_of_wrote _ h2, h1]

/-! # The world from one request to the next -/

theorem later_refl (w : World) : w.later w := ⟨rfl, le_refl _⟩

theorem later_trans {a b c : World} (h1 : a.later b) (h2 : b.later c) : a.later c :=
  ⟨h2.1.trans h1.1, le_trans h1.2 h2.2⟩

theorem handler_world (b : BuildVars) (path : GoString) (w : ResponseWriter) (r : Request)
    (world : World) : world.later (((newMux b).handler path).1 w r world).2 := by
  rw [newMux_handler]
  split
  · exact later_refl _
  · split
    · show world.later (rootHandler b w r world).2
      rw [rootHandler_eq]
      exact ⟨rfl, Nat.le_succ _⟩
    · exact later_refl _

theorem mux_world (b : BuildVars) (w : ResponseWriter) (r : Request) (world : World) :
    world.later ((newMux b).ServeHTTP w r world).2 := by
  unfold ServeMux.ServeHTTP
  split
  · exact later_refl _
  · unfold ServeMux.Handler
    simp only [newMux_shouldRedirect, Bool.false_eq_true, if_false]
    split
    · exact handler_world b _ w r world
    · split
      · show world.later (Redirect _ 301 w r world).2
        rw [Redirect_snd]
        exact later_refl _
      · exact handler_world b _ w r world

theorem middleware_world (next : Handler) (w : ResponseWriter) (r : Request) (world : World)
    (h : ∀ (w : ResponseWriter) (r : Request) (world : World), world.later (next w r world).2) :
    world.later (loggingMiddleware next w r world).2 := by
  rw [loggingMiddleware_snd, Since_snd]
  have h1 := h w r world.Now.2
  exact ⟨h1.1, le_trans (Nat.le_succ _) (le_trans h1.2 (Nat.le_succ _))⟩

theorem serve_options (b : BuildVars) (boot : World) (r : Request) (world : World)
    (h : r.RequestURI = lit "*" ∧ r.Method = lit "OPTIONS") :
    (mainServer b boot).serve r world
      = ({ status := 200, header := [(lit "Content-Length", [lit "0"])], body := [] }, world) := by
  have e : (mainServer b boot).serve r world
      = (((mainServer b boot).ServeHTTP ResponseWriter.fresh r world).1.response r,
          ((mainServer b boot).ServeHTTP ResponseWriter.fresh r world).2) := rfl
  rw [e, mainServer_options b boot _ r world h]
  refine Prod.ext ?_ rfl
  unfold ResponseWriter.response
  simp only [globalOptionsHandler]
  have hm : r.Method ≠ lit "HEAD" := by rw [h.2]; decide
  simp only [hm, if_false]
  rfl

theorem serve_later (b : BuildVars) (boot : World) (r : Request) (world : World) :
    world.later ((mainServer b boot).serve r world).2 := by
  by_cases h : r.RequestURI = lit "*" ∧ r.Method = lit "OPTIONS"
  · rw [serve_options b boot r world h]
    exact later_refl _
  · rw [serve_eq b boot r world h]
    show world.later (loggingMiddleware (newMux b).ServeHTTP ResponseWriter.fresh r world).2
    exact middleware_world (newMux b).ServeHTTP ResponseWriter.fresh r world (mux_world b)

theorem serveAll_later (b : BuildVars) (boot : World) (rs : List Request) :
    ∀ world : World, world.later ((mainServer b boot).serveAll rs world).2 := by
  induction rs with
  | nil => intro world; exact later_refl _
  | cons r rs ih =>
    intro world
    rw [Server.serveAll]
    exact later_trans (serve_later b boot r world) (ih _)

theorem serveAll_cons (srv : Server) (r : Request) (rs : List Request) (world : World) :
    srv.serveAll (r :: rs) world =
      ((srv.serve r world).1 :: (srv.serveAll rs (srv.serve r world).2).1,
        (srv.serveAll rs (srv.serve r world).2).2) := rfl

theorem serveAll_append (srv : Server) (xs ys : List Request) :
    ∀ world : World, srv.serveAll (xs ++ ys) world =
      ((srv.serveAll xs world).1 ++ (srv.serveAll ys (srv.serveAll xs world).2).1,
        (srv.serveAll ys (srv.serveAll xs world).2).2) := by
  induction xs with
  | nil => intro world; rfl
  | cons x xs ih =>
    intro world
    rw [List.cons_append, serveAll_cons, ih, serveAll_cons]
    rfl

theorem serve_healthz (b : BuildVars) (boot : World) (r : Request) (world : World)
    (hu : r.RequestURI ≠ lit "*") (hp : r.Path = lit "/healthz") :
    ((mainServer b boot).serve r world).1
      = sentWith r.Method 200 (lit "text/plain; charset=utf-8") (lit "ok\n") := by
  rw [serve_eq b boot r world (fun h => hu h.1), mux_healthz b _ r _ hu hp]
  exact healthz_response r _

theorem serve_greeting (b : BuildVars) (boot : World) (r : Request) (world : World)
    (hg : r.greeted) :
    ((mainServer b boot).serve r world).1
      = sentWith r.Method 200 (lit "application/json; charset=utf-8")
          (newResponse b world.host world.Now.2.Now.1).text := by
  rw [serve_eq b boot r world (fun h => hg.1 h.1), mux_greeting b _ r _ hg]
  exact root_response b r _

theorem serve_greeting_world (b : BuildVars) (boot : World) (r : Request) (world : World)
    (hg : r.greeted) :
    ((mainServer b boot).serve r world).2.tick = world.tick + 3
    ∧ ((mainServer b boot).serve r world).2.clock = world.clock
    ∧ ((mainServer b boot).serve r world).2.lookups = world.lookups + 1 := by
  rw [serve_eq b boot r world (fun h => hg.1 h.1), loggingMiddleware_snd, Since_snd,
    mux_greeting b _ r _ hg, rootHandler_eq]
  exact ⟨rfl, rfl, rfl⟩

theorem serve_healthz_world (b : BuildVars) (boot : World) (r : Request) (world : World)
    (hu : r.RequestURI ≠ lit "*") (hp : r.Path = lit "/healthz") :
    ((mainServer b boot).serve r world).2.tick = world.tick + 2
    ∧ ((mainServer b boot).serve r world).2.clock = world.clock
    ∧ ((mainServer b boot).serve r world).2.lookups = world.lookups := by
  rw [serve_eq b boot r world (fun h => hu h.1), loggingMiddleware_snd, Since_snd,
    mux_healthz b _ r _ hu hp]
  exact ⟨rfl, rfl, rfl⟩

/-- C1, counterexample: the health handler writes the three bytes "ok\n" for
a HEAD request as for any other, but the response the server sends to a HEAD
request for /healthz has status 200, the Content-Type of the handler and no
body. -/
theorem healthz_head_without_body :
    (healthzHandler ResponseWriter.fresh (requestFor (lit "HEAD") (lit "/healthz"))
        sampleWorld).1.finish.body = lit "ok\n"
    ∧ ((mainServer BuildVars.default sampleWorld).serve
        (requestFor (lit "HEAD") (lit "/healthz")) sampleWorld).1
        = { status := 200,
            header := [(lit "Content-Type", [lit "text/plain; charset=utf-8"])],
            body := [] }
    ∧ ((mainServer BuildVars.default sampleWorld).serve
        (requestFor (lit "HEAD") (lit "/healthz")) sampleWorld).1.body ≠ lit "ok\n" := by
  rw [serve_healthz _ _ _ _ (by decide) (by decide)]
  exact ⟨rfl, by decide, by decide⟩

/-- C1, amended: for every request, world and build the /healthz handler sets
status 200 and Content-Type "text/plain; charset=utf-8", writes the three bytes
"ok\n" and leaves the world as it found it (no hostname lookup, no clock
reading, no output); the response sent has that status and that header, and
that body unless the method is HEAD, in which case it has no body; it is the
handler registered for "/healthz" in every build, and a request for /healthz
gets this response from the server, which looks up no host name for it. -/
theorem healthz_constant (b : BuildVars) (r : Request) (world boot : World) :
    healthzHandler ResponseWriter.fresh r world =
      ({ header := [(lit "Content-Type", [lit "text/plain; charset=utf-8"])],
         wroteHeader := true, status := 200,
         sent := [(lit "Content-Type", [lit "text/plain; charset=utf-8"])],
         body := [0x6F, 0x6B, 0x0A] }, world)
    ∧ (healthzHandler ResponseWriter.fresh r world).1.finish.body = lit "ok\n"
    ∧ (healthzHandler ResponseWriter.fresh r world).1.response r
        = { status := 200,
            header := [(lit "Content-Type", [lit "text/plain; charset=utf-8"])],
            body := if r.Method = lit "HEAD" then [] else lit "ok\n" }
    ∧ (newMux b).handler (lit "/healthz") = (healthzHandler, lit "/healthz")
    ∧ (r.RequestURI ≠ lit "*" → r.Path = lit "/healthz" →
        ((mainServer b boot).serve r world).1
          = { status := 200,
              header := [(lit "Content-Type", [lit "text/plain; charset=utf-8"])],
              body := if r.Method = lit "HEAD" then [] else lit "ok\n" }
        ∧ ((mainServer b boot).serve r world).2.lookups = world.lookups) := by
  refine ⟨rfl, rfl, rfl, ?_, ?_⟩
  · rw [newMux_handler, if_pos rfl]
  · intro hu hp
    exact ⟨serve_healthz b boot r world hu hp, (serve_healthz_world b boot r world hu hp).2.2⟩

/-- C2: `getenv(key, def)` is `def` when the variable is unset or empty and the
variable's value, byte for byte, otherwise; for PORT with default "8080" that
is "8080" when unset or empty and the value otherwise, and the listen address
is ":" followed by it. -/
theorem getenv_default (world : World) (key def_ : GoString) (b : BuildVars) :
    getenv world key def_ = (if world.Getenv key = [] then def_ else world.Getenv key)
    ∧ (world.env key = none → getenv world key def_ = def_)
    ∧ (world.env key = some [] → getenv world key def_ = def_)
    ∧ (∀ v, v ≠ [] → world.env key = some v → getenv world key def_ = v)
    ∧ (world.env (lit "PORT") = none → getenv world (lit "PORT") (lit "8080") = lit "8080")
    ∧ (world.env (lit "PORT") = some [] → getenv world (lit "PORT") (lit "8080") = lit "8080")
    ∧ (∀ v, v ≠ [] → world.env (lit "PORT") = some v →
        getenv world (lit "PORT") (lit "8080") = v)
    ∧ (mainServer b world).Addr = lit ":" ++ getenv world (lit "PORT") (lit "8080") := by
  have h1 : ∀ k d, world.env k = none → getenv world k d = d := by
    intro k d h; simp [getenv, World.Getenv, h]
  have h2 : ∀ k d, world.env k = some [] → getenv world k d = d := by
    intro k d h; simp [getenv, World.Getenv, h]
  have h3 : ∀ k d v, v ≠ [] → world.env k = some v → getenv world k d = v := by
    intro k d v hv h; simp [getenv, World.Getenv, h, hv]
  exact ⟨rfl, h1 _ _, h2 _ _, h3 _ _, h1 _ _, h2 _ _, h3 _ _, rfl⟩

/-- C3, counterexample: the response the server sends to a HEAD request for
"/" has status 200, the Content-Type of the greeting handler and an empty
body, which is no JSON object, although the handler wrote one. -/
theorem greeting_head_without_body :
    ((mainServer BuildVars.default sampleWorld).serve (requestFor (lit "HEAD") (lit "/"))
        sampleWorld).1
        = { status := 200,
            header := [(lit "Content-Type", [lit "application/json; charset=utf-8"])],
            body := [] }
    ∧ JSON.parse ((mainServer BuildVars.default sampleWorld).serve
        (requestFor (lit "HEAD") (lit "/")) sampleWorld).1.body = none
    ∧ bodyField (rootHandler BuildVars.default ResponseWriter.fresh
        (requestFor (lit "HEAD") (lit "/")) sampleWorld).1.finish.body (lit "message")
        = some (lit "Hello from GitOps!") := by
  rw [serve_greeting _ _ _ _ (by decide), rootHandler_finish]
  refine ⟨by decide, rfl, ?_⟩
  simp only [(bodyField_text _).1]
  decide

/-- C3, amended: for every request, host name and clock reading the greeting
handler sets status 200 and Content-Type "application/json; charset=utf-8" and
writes one JSON object indented by two spaces and ended by a line feed, whose
members are message, version, git_sha, build_time, time_utc and hostname in
this order, each a string; message is "Hello from GitOps!". The response sent
has that status and that header, and that body unless the method is HEAD, in
which case it has no body; this is the response the server sends to every
request the routing table hands to the greeting handler. -/
theorem greeting_response (b : BuildVars) (r : Request) (world boot : World) :
    (rootHandler b ResponseWriter.fresh r world).1.finish.status = 200
    ∧ (rootHandler b ResponseWriter.fresh r world).1.finish.sent.Get (lit "Content-Type")
        = lit "application/json; charset=utf-8"
    ∧ (rootHandler b ResponseWriter.fresh r world).1.finish.body
        = lit "\x7b\n  \"message\": \"Hello from GitOps!\",\n  \"version\": "
          ++ (appendString b.Version
          ++ (lit ",\n  \"git_sha\": " ++ (appendString b.GitSHA
          ++ (lit ",\n  \"build_time\": " ++ (appendString b.BuildTime
          ++ (lit ",\n  \"time_utc\": " ++ (appendString world.Now.1.UTC.FormatRFC3339
          ++ (lit ",\n  \"hostname\": " ++ (appendString world.host
          ++ lit "\n\x7d\n")))))))))
    ∧ JSON.parse (rootHandler b ResponseWriter.fresh r world).1.finish.body
        = some (.object
            [(lit "message", .string (lit "Hello from GitOps!")),
             (lit "version", .string (coerceUTF8 b.Version)),
             (lit "git_sha", .string (coerceUTF8 b.GitSHA)),
             (lit "build_time", .string (coerceUTF8 b.BuildTime)),
             (lit "time_utc", .string (coerceUTF8 world.Now.1.UTC.FormatRFC3339)),
             (lit "hostname", .string (coerceUTF8 world.host))])
    ∧ (rootHandler b ResponseWriter.fresh r world).1.response r
        = { status := 200,
            header := [(lit "Content-Type", [lit "application/json; charset=utf-8"])],
            body := if r.Method = lit "HEAD" then []
              else (rootHandler b ResponseWriter.fresh r world).1.finish.body }
    ∧ (r.greeted →
        ((mainServer b boot).serve r world).1
          = { status := 200,
              header := [(lit "Content-Type", [lit "application/json; charset=utf-8"])],
              body := if r.Method = lit "HEAD" then []
                else (rootHandler b ResponseWriter.fresh r world.Now.2).1.finish.body }) := by
  refine ⟨?_, ?_, ?_, ?_, ?_, ?_⟩
  · rw [rootHandler_finish]
  · rw [rootHandler_finish]
    rfl
  · rw [rootHandler_finish]
    simp only [Response.text, layout, layoutRest, layoutMember, newResponse,
      List.append_assoc]
    rfl
  · rw [rootHandler_finish]
    simp only [parse_text, newResponse]
    rfl
  · rw [root_response, rootHandler_finish]
    rfl
  · intro hg
    rw [serve_greeting b boot r world hg, rootHandler_finish]
    rfl

/-! # Helper facts for the remaining claims -/

theorem coerceLoop_ascii (n : Nat) (s : GoString) (hn : s.length ≤ n)
    (h : ∀ x ∈ s, x < 0x80) : coerceLoop n s = s := by
  induction n generalizing s with
  | zero =>
    have : s = [] := List.eq_nil_of_length_eq_zero (by omega)
    subst this; rfl
  | succ n ih =>
    rcases s with _ | ⟨b, rest⟩
    · rfl
    · have hb := h b (List.mem_cons_self _ _)
      have hb' : b.toNat < 128 := hb
      unfold coerceLoop
      rw [decode_take4, decode_ascii b rest hb]
      have hne : ¬ (b.toNat = RuneError) := by simp only [RuneError]; omega
      simp only [hne, false_and, if_false, List.take_succ_cons, List.take_zero, List.drop_succ_cons,
        List.drop_zero, List.cons_append, List.nil_append]
      rw [ih rest (by simp only [List.length_cons] at hn; omega)
        (fun x hx => h x (List.mem_cons_of_mem _ hx))]

theorem digitByte_ascii (d : Nat) (h : d < 10) : digitByte d < 0x80 := by
  rw [byte_lt, digitByte_toNat d h]
  norm_num
  omega

theorem coerceUTF8_stamp (Y M D hh mm ss : Nat) (hY : Y < 10000) (hM : M < 100) (hD : D < 100)
    (hh' : hh < 100) (hm : mm < 100) (hs : ss < 100) :
    coerceUTF8 (stamp Y M D hh mm ss) = stamp Y M D hh mm ss := by
  apply coerceLoop_ascii _ _ (le_refl _)
  intro x hx
  simp only [stamp, List.mem_cons, List.mem_singleton, List.not_mem_nil, or_false] at hx
  rcases hx with rfl | rfl | rfl | rfl | rfl | rfl | rfl | rfl | rfl | rfl | rfl | rfl | rfl | rfl
    | rfl | rfl | rfl | rfl | rfl | rfl <;>
    first
      | exact digitByte_ascii _ (by omega)
      | decide

theorem hasStampShape_stamp (Y M D hh mm ss : Nat) (hY : Y < 10000) (hM : M < 100)
    (hD : D < 100) (hh' : hh < 100) (hm : mm < 100) (hs : ss < 100) :
    hasStampShape (stamp Y M D hh mm ss) = true := by
  have hdig : [digitByte (Y / 1000), digitByte (Y / 100 % 10), digitByte (Y / 10 % 10),
      digitByte (Y % 10), digitByte (M / 10), digitByte (M % 10), digitByte (D / 10),
      digitByte (D % 10), digitByte (hh / 10), digitByte (hh % 10), digitByte (mm / 10),
      digitByte (mm % 10), digitByte (ss / 10), digitByte (ss % 10)].all isDigit = true := by
    simp only [List.all_cons, List.all_nil, Bool.and_true, Bool.and_eq_true]
    refine ⟨?_, ?_, ?_, ?_, ?_, ?_, ?_, ?_, ?_, ?_, ?_, ?_, ?_, ?_⟩ <;>
      exact isDigit_digitByte _ (by omega)
  unfold hasStampShape stamp
  simp only [hdig, and_self, decide_True]

/-- C4, counterexample: with `Version` the single byte 0xFF, which is no valid
UTF-8, the version member of the decoded body is the three bytes of U+FFFD and
not `Version`. -/
theorem version_not_preserved :
    bodyField (rootHandler badBuild ResponseWriter.fresh sampleRequest sampleWorld).1.finish.body
        (lit "version") = some [0xEF, 0xBF, 0xBD]
    ∧ bodyField (rootHandler badBuild ResponseWriter.fresh sampleRequest sampleWorld).1.finish.body
        (lit "version") ≠ some badBuild.Version := by
  rw [rootHandler_finish]
  simp only [(bodyField_text _).2.1]
  exact ⟨by decide, by decide⟩

/-- C4, amended: decoding the body of the greeting handler as JSON gives
version, git_sha and build_time members that are `Version`, `GitSHA` and
`BuildTime` with every byte that begins no valid UTF-8 sequence replaced by
U+FFFD, so they are `Version`, `GitSHA` and `BuildTime` themselves whenever
these are valid UTF-8; and in two requests served with the same build, whatever
their clocks and host names, the three members are the same. -/
theorem build_metadata_decoded (b : BuildVars) (r r' : Request) (world world' : World) :
    bodyField (rootHandler b ResponseWriter.fresh r world).1.finish.body (lit "version")
        = some (coerceUTF8 b.Version)
    ∧ bodyField (rootHandler b ResponseWriter.fresh r world).1.finish.body (lit "git_sha")
        = some (coerceUTF8 b.GitSHA)
    ∧ bodyField (rootHandler b ResponseWriter.fresh r world).1.finish.body (lit "build_time")
        = some (coerceUTF8 b.BuildTime)
    ∧ (ValidString b.Version = true → coerceUTF8 b.Version = b.Version)
    ∧ (ValidString b.GitSHA = true → coerceUTF8 b.GitSHA = b.GitSHA)
    ∧ (ValidString b.BuildTime = true → coerceUTF8 b.BuildTime = b.BuildTime)
    ∧ bodyField (rootHandler b ResponseWriter.fresh r' world').1.finish.body (lit "version")
        = bodyField (rootHandler b ResponseWriter.fresh r world).1.finish.body (lit "version")
    ∧ bodyField (rootHandler b ResponseWriter.fresh r' world').1.finish.body (lit "git_sha")
        = bodyField (rootHandler b ResponseWriter.fresh r world).1.finish.body (lit "git_sha")
    ∧ bodyField (rootHandler b ResponseWriter.fresh r' world').1.finish.body (lit "build_time")
        = bodyField (rootHandler b ResponseWriter.fresh r world).1.finish.body
            (lit "build_time") := by
  simp only [rootHandler_finish]
  have h1 := bodyField_text (newResponse b world.host world.Now.1)
  have h2 := bodyField_text (newResponse b world'.host world'.Now.1)
  refine ⟨h1.2.1, h1.2.2.1, h1.2.2.2.1, coerceUTF8_valid _, coerceUTF8_valid _,
    coerceUTF8_valid _, ?_, ?_, ?_⟩
  · rw [h1.2.1, h2.2.1]; rfl
  · rw [h1.2.2.1, h2.2.2.1]; rfl
  · rw [h1.2.2.2.1, h2.2.2.2.1]; rfl

/-- C4, witness: the build of the source, whose three values are valid UTF-8,
at the sample request and world. -/
theorem build_metadata_decoded_witness :
    ValidString BuildVars.default.Version = true
    ∧ bodyField (rootHandler BuildVars.default ResponseWriter.fresh sampleRequest
        sampleWorld).1.finish.body (lit "version") = some (lit "0.0.0-dev") := by
  have h := build_metadata_decoded BuildVars.default sampleRequest sampleRequest sampleWorld
    sampleWorld
  refine ⟨by decide, ?_⟩
  rw [h.1, h.2.2.2.1 (by decide)]
  rfl

/-- C5: when the hostname lookup fails, the greeting handler writes exactly
what it writes when the lookup succeeds with the empty name: status 200, the
same Content-Type, a hostname member that is the empty string, and the other
five members as with any host name. -/
theorem hostname_failure_tolerated (b : BuildVars) (r : Request) (world : World)
    (e name : GoString) (h : world.hostname = .error e) :
    (rootHandler b ResponseWriter.fresh r world).1
        = (rootHandler b ResponseWriter.fresh r { world with hostname := .ok [] }).1
    ∧ (rootHandler b ResponseWriter.fresh r world).1.finish.status = 200
    ∧ (rootHandler b ResponseWriter.fresh r world).1.finish.sent.Get (lit "Content-Type")
        = lit "application/json; charset=utf-8"
    ∧ bodyField (rootHandler b ResponseWriter.fresh r world).1.finish.body (lit "hostname")
        = some []
    ∧ (∀ key, key = lit "message" ∨ key = lit "version" ∨ key = lit "git_sha"
          ∨ key = lit "build_time" ∨ key = lit "time_utc" →
        bodyField (rootHandler b ResponseWriter.fresh r world).1.finish.body key
          = bodyField (rootHandler b ResponseWriter.fresh r
              { world with hostname := .ok name }).1.finish.body key) := by
  have hh : world.host = [] := by simp [World.host, World.Hostname, h]
  have hn : ({ world with hostname := Except.ok name } : World).host = name := rfl
  have h1 := bodyField_text (newResponse b [] world.Now.1)
  have h2 := bodyField_text (newResponse b name world.Now.1)
  refine ⟨?_, ?_, ?_, ?_, ?_⟩
  · rw [rootHandler_fresh, rootHandler_fresh, hh]
    rfl
  · rw [rootHandler_finish]
  · rw [rootHandler_finish]
    rfl
  · rw [rootHandler_finish, hh]
    exact h1.2.2.2.2.2
  · intro key hk
    rw [rootHandler_finish, rootHandler_finish, hh, hn]
    rcases hk with rfl | rfl | rfl | rfl | rfl
    · exact h1.1.trans h2.1.symm
    · exact h1.2.1.trans h2.2.1.symm
    · exact h1.2.2.1.trans h2.2.2.1.symm
    · exact h1.2.2.2.1.trans h2.2.2.2.1.symm
    · exact h1.2.2.2.2.1.trans h2.2.2.2.2.1.symm

/-- C5, witness: the sample world with a failing hostname lookup. -/
theorem hostname_failure_tolerated_witness :
    bodyField (rootHandler BuildVars.default ResponseWriter.fresh sampleRequest
        { sampleWorld with hostname := .error (lit "no such file") }).1.finish.body
      (lit "hostname") = some [] :=
  (hostname_failure_tolerated BuildVars.default sampleRequest
    { sampleWorld with hostname := .error (lit "no such file") } (lit "no such file")
    (lit "pod-1") rfl).2.2.2.1

/-- C6, counterexample: a GET request for the path "/a\nb" (sent as /a%0Ab) is
served, and the middleware prints "GET /a\nb 3ms\n" for it, which is two lines
and not one; and an "OPTIONS *" request is answered by the server without the
middleware: nothing is printed for it. -/
theorem log_line_split :
    ((mainServer BuildVars.default sampleWorld).serve (requestFor (lit "GET") (lit "/a\nb"))
        sampleWorld).1.status = 200
    ∧ ((mainServer BuildVars.default sampleWorld).serve (requestFor (lit "GET") (lit "/a\nb"))
        sampleWorld).2.stdout = lit "GET /a\nb 3ms\n"
    ∧ (((mainServer BuildVars.default sampleWorld).serve (requestFor (lit "GET") (lit "/a\nb"))
        sampleWorld).2.stdout).count 0x0A = 2
    ∧ (mainServer BuildVars.default sampleWorld).serve (requestFor (lit "OPTIONS") (lit "*"))
        sampleWorld
        = ({ status := 200, header := [(lit "Content-Length", [lit "0"])], body := [] },
            sampleWorld) := by
  have hg : (requestFor (lit "GET") (lit "/a\nb")).greeted := by decide
  refine ⟨?_, ?_, ?_, serve_options _ _ _ _ (by decide)⟩
  · rw [serve_greeting _ _ _ _ hg]
    rfl
  · rw [serve_eq _ _ _ _ (fun h => hg.1 h.1), loggingMiddleware_snd, mux_greeting _ _ _ _ hg,
      rootHandler_eq]
    decide
  · rw [serve_eq _ _ _ _ (fun h => hg.1 h.1), loggingMiddleware_snd, mux_greeting _ _ _ _ hg,
      rootHandler_eq]
    decide

/-- C6, amended: `loggingMiddleware(next)` leaves on the writer exactly what
`next` leaves there, `next` being run once, on the same writer and request,
after one reading of the clock. When `next` has returned the middleware reads
the clock once more and prints, in one piece, the method, a space, the path, a
space, the elapsed time and a line feed; this is one line if neither the method
nor the path holds a line feed, and one line more for each they hold. The
elapsed time is written in Go's notation for durations, holds no space and no
line feed and reads back as the number of nanoseconds it stands for: the
difference of the two monotonic clock readings when the wall clock was between
1885 and 2157 at the first reading, and otherwise the difference of the two
wall clock readings (for wall clocks within 2^62 seconds of the epoch), either
of them stopped at the ends of the int64 range. The server's handler is this
middleware around the whole routing table, and the server hands it every
request but "OPTIONS *". -/
theorem loggingMiddleware_wraps (next : Handler) (w : ResponseWriter) (r : Request)
    (world boot : World) (b : BuildVars) :
    (loggingMiddleware next w r world).1 = (next w r world.Now.2).1
    ∧ (∃ elapsed : Int,
        (loggingMiddleware next w r world).2
          = { (next w r world.Now.2).2 with
              tick := (next w r world.Now.2).2.tick + 1,
              stdout := (next w r world.Now.2).2.stdout
                ++ (r.Method ++ lit " " ++ r.Path ++ lit " " ++ Duration.String elapsed
                  ++ lit "\n") }
        ∧ parseDuration (Duration.String elapsed) = some elapsed
        ∧ (∀ x ∈ Duration.String elapsed, x ≠ 0x0A ∧ x ≠ 0x20)
        ∧ (r.Method ++ lit " " ++ r.Path ++ lit " " ++ Duration.String elapsed
            ++ lit "\n").count 0x0A = r.Method.count 0x0A + r.Path.count 0x0A + 1
        ∧ (-2682288000 ≤ world.now.1.sec ∧ world.now.1.sec < 5907646592 →
            elapsed = clamp64 ((next w r world.Now.2).2.now.1.mono - world.now.1.mono))
        ∧ (¬ (-2682288000 ≤ world.now.1.sec ∧ world.now.1.sec < 5907646592) →
            -4611686018427387904 ≤ world.now.1.sec → world.now.1.sec ≤ 4611686018427387904 →
            -4611686018427387904 ≤ (next w r world.Now.2).2.now.1.sec →
            (next w r world.Now.2).2.now.1.sec ≤ 4611686018427387904 →
            elapsed = clamp64 (((next w r world.Now.2).2.now.1.sec - world.now.1.sec) * 1000000000
              + (((next w r world.Now.2).2.now.1.nsec : Int) - (world.now.1.nsec : Int)))))
    ∧ (mainServer b boot).Handler = loggingMiddleware (newMux b).ServeHTTP
    ∧ (¬ (r.RequestURI = lit "*" ∧ r.Method = lit "OPTIONS") →
        (mainServer b boot).ServeHTTP w r world
          = loggingMiddleware (newMux b).ServeHTTP w r world) := by
  refine ⟨rfl, ⟨((next w r world.Now.2).2.Since world.Now.1).1, ?_, ?_, ?_, ?_, ?_, ?_⟩, rfl,
    mainServer_ServeHTTP b boot w r world⟩
  · rw [loggingMiddleware_snd, Since_snd]
    rfl
  · exact parseDuration_String _ (Since_range _ _).1 (Since_range _ _).2
  · exact String_chars _ (Since_range _ _).1
  · have hz : (Duration.String ((next w r world.Now.2).2.Since world.Now.1).1).count 0x0A = 0 := by
      rw [List.count_eq_zero]
      intro hmem
      exact (String_chars _ (Since_range _ _).1 _ hmem).1 rfl
    simp only [List.count_append, hz]
    have h1 : (lit " ").count (0x0A : UInt8) = 0 := by decide
    have h2 : (lit "\n").count (0x0A : UInt8) = 1 := by decide
    rw [h1, h2]
    omega
  · intro hera
    have hm : world.Now.1.mono = some world.now.1.mono := by rw [Now_mono, if_pos hera]
    rw [Since_fst_mono _ _ _ hm]
    exact subMono_clamp _ _ (now_mono_range _).1 (now_mono_range _).2 (now_mono_range _).1
      (now_mono_range _).2
  · intro hera h1 h2 h3 h4
    have hm : world.Now.1.mono = none := by rw [Now_mono, if_neg hera]
    rw [Since_fst_wall _ _ hm, Sub_wall _ _ hm (by rw [Now_sec]; exact h3)
      (by rw [Now_sec]; exact h4) (by rw [Now_sec]; exact h1) (by rw [Now_sec]; exact h2)
      (by rw [Now_nsec]; exact now_nsec_lt _) (by rw [Now_nsec]; exact now_nsec_lt _)]
    simp only [Now_sec, Now_nsec]

/-! # The clock reading of a greeting -/

theorem Now_timeAt (w : World) : w.Now.1 = w.timeAt w.tick := rfl

theorem timeAt_later (w w' : World) (h : w.later w') (i : Nat) : w'.timeAt i = w.timeAt i := by
  unfold World.timeAt World.Now World.now
  simp only [h.1]

theorem timeAt_of_clock (w w' : World) (h : w'.clock = w.clock) (i : Nat) :
    w'.timeAt i = w.timeAt i := by
  unfold World.timeAt World.Now World.now
  simp only [h]

theorem timeAt_sec (w : World) (i : Nat) : (w.timeAt i).sec = wrap64 (w.clock i).sec := by
  unfold World.timeAt
  rw [Now_sec]
  rfl

theorem greeting_time_utc_raw (b : BuildVars) (boot : World) (r : Request) (world : World)
    (hg : r.greeted) (hh : r.Method ≠ lit "HEAD") :
    bodyField ((mainServer b boot).serve r world).1.body (lit "time_utc")
      = some (coerceUTF8 (world.timeAt (world.tick + 1)).UTC.FormatRFC3339) := by
  rw [serve_greeting b boot r world hg]
  unfold sentWith
  simp only [hh, if_false]
  exact (bodyField_text _).2.2.2.2.1

theorem greeting_time_utc (b : BuildVars) (boot : World) (r : Request) (world : World)
    (hg : r.greeted) (hh : r.Method ≠ lit "HEAD")
    (hlo : -62167219200 ≤ (world.timeAt (world.tick + 1)).sec)
    (hhi : (world.timeAt (world.tick + 1)).sec ≤ 253402300799) :
    bodyField ((mainServer b boot).serve r world).1.body (lit "time_utc")
      = some (world.timeAt (world.tick + 1)).UTC.FormatRFC3339 := by
  rw [greeting_time_utc_raw b boot r world hg hh]
  obtain ⟨Y, yd, M, D, hh, mm, ss, c⟩ :=
    civil_of_time (world.timeAt (world.tick + 1)).UTC rfl hlo hhi
  have bm := c.month_day_bounds
  have hy := c.year_le
  have a1 := c.hour_le
  have a2 := c.min_le
  have a3 := c.sec_le
  rw [c.fmt, coerceUTF8_stamp Y M D hh mm ss (by omega) (by omega) (by omega) (by omega)
    (by omega) (by omega)]

theorem stamp_shape (t : Time) (h0 : t.offset = 0)
    (hlo : -62167219200 ≤ t.sec) (hhi : t.sec ≤ 253402300799) :
    hasStampShape t.FormatRFC3339 = true ∧ t.FormatRFC3339.getLast? = some 0x5A := by
  obtain ⟨Y, yd, M, D, hh, mm, ss, c⟩ := civil_of_time t h0 hlo hhi
  have bm := c.month_day_bounds
  have hy := c.year_le
  have a1 := c.hour_le
  have a2 := c.min_le
  have a3 := c.sec_le
  rw [c.fmt]
  exact ⟨hasStampShape_stamp Y M D hh mm ss (by omega) (by omega) (by omega) (by omega)
    (by omega) (by omega), rfl⟩

set_option maxRecDepth 100000 in
/-- C7, counterexample: two GET requests for "/" served one after the other.
When the wall clock passes from the year 9999 to the year 10000 between them,
the second time_utc is "10000-01-01T00:00:00Z", which has not the shape
YYYY-MM-DDTHH:MM:SSZ, does not read back as a timestamp and is smaller, as a
string, than the first. When the wall clock is set back by a second between
them, in 2024, both values have the shape and the second is smaller than the
first. -/
theorem time_utc_not_monotone :
    (((mainServer BuildVars.default sampleWorld).serveAll [sampleRequest, sampleRequest]
        worldAtYear10000).1.map (fun s => bodyField s.body (lit "time_utc"))
      = [some (lit "9999-12-31T23:59:59Z"), some (lit "10000-01-01T00:00:00Z")]
      ∧ hasStampShape (lit "10000-01-01T00:00:00Z") = false
      ∧ parseRFC3339UTC (lit "10000-01-01T00:00:00Z") = none
      ∧ strLe (lit "9999-12-31T23:59:59Z") (lit "10000-01-01T00:00:00Z") = false)
    ∧ (((mainServer BuildVars.default sampleWorld).serveAll [sampleRequest, sampleRequest]
        worldSetBack).1.map (fun s => bodyField s.body (lit "time_utc"))
      = [some (lit "2024-01-15T10:30:00Z"), some (lit "2024-01-15T10:29:59Z")]
      ∧ hasStampShape (lit "2024-01-15T10:29:59Z") = true
      ∧ strLe (lit "2024-01-15T10:30:00Z") (lit "2024-01-15T10:29:59Z") = false) := by
  have hg : sampleRequest.greeted := by decide
  have hh : sampleRequest.Method ≠ lit "HEAD" := by decide
  have key : ∀ w : World, w.tick = 0 →
      ((mainServer BuildVars.default sampleWorld).serveAll [sampleRequest, sampleRequest]
        w).1.map (fun s => bodyField s.body (lit "time_utc"))
      = [some (coerceUTF8 (w.timeAt 1).UTC.FormatRFC3339),
         some (coerceUTF8 (w.timeAt 4).UTC.FormatRFC3339)] := by
    intro w hw
    have hw1 := serve_greeting_world BuildVars.default sampleWorld sampleRequest w hg
    rw [serveAll_cons, serveAll_cons]
    simp only [Server.serveAll, List.map_cons, List.map_nil]
    rw [greeting_time_utc_raw _ _ _ _ hg hh, greeting_time_utc_raw _ _ _ _ hg hh,
      timeAt_of_clock _ _ hw1.2.1, hw1.1, hw]
  refine ⟨⟨?_, by decide, by decide, by decide⟩, ⟨?_, by decide, by decide⟩⟩
  · rw [key _ rfl]
    decide
  · rw [key _ rfl]
    decide

/-- C7, amended: the time_utc member of a greeting is the clock reading the
handler takes for the request, moved to UTC and formatted as RFC 3339 to the
second. As long as the wall clock reads within the years 0 to 9999 and is not
set back, the time_utc of every greeting has the shape YYYY-MM-DDTHH:MM:SSZ,
ends in "Z" and reads back as the second the clock showed, and of two requests
answered with a greeting, served one after the other by the same process with
any requests in between, the later one has the greater or the same time_utc. -/
theorem time_utc_rfc3339 (b : BuildVars) (boot world : World) (r1 r2 : Request)
    (mid : List Request)
    (hr1 : r1.greeted ∧ r1.Method ≠ lit "HEAD") (hr2 : r2.greeted ∧ r2.Method ≠ lit "HEAD")
    (hrange : ∀ i, world.tick ≤ i →
      -62167219200 ≤ (world.timeAt i).sec ∧ (world.timeAt i).sec ≤ 253402300799)
    (hmono : ∀ i j, world.tick ≤ i → i ≤ j → (world.timeAt i).sec ≤ (world.timeAt j).sec) :
    ∃ (first last : SentResponse) (between : List SentResponse) (k : Nat),
      ((mainServer b boot).serveAll (r1 :: (mid ++ [r2])) world).1 = first :: (between ++ [last])
      ∧ between.length = mid.length
      ∧ world.tick + 1 < k
      ∧ bodyField first.body (lit "time_utc")
          = some (world.timeAt (world.tick + 1)).UTC.FormatRFC3339
      ∧ bodyField last.body (lit "time_utc") = some (world.timeAt k).UTC.FormatRFC3339
      ∧ hasStampShape (world.timeAt (world.tick + 1)).UTC.FormatRFC3339 = true
      ∧ hasStampShape (world.timeAt k).UTC.FormatRFC3339 = true
      ∧ (world.timeAt (world.tick + 1)).UTC.FormatRFC3339.getLast? = some 0x5A
      ∧ (world.timeAt k).UTC.FormatRFC3339.getLast? = some 0x5A
      ∧ parseRFC3339UTC (world.timeAt (world.tick + 1)).UTC.FormatRFC3339
          = some (world.timeAt (world.tick + 1)).sec
      ∧ parseRFC3339UTC (world.timeAt k).UTC.FormatRFC3339 = some (world.timeAt k).sec
      ∧ strLe (world.timeAt (world.tick + 1)).UTC.FormatRFC3339
          (world.timeAt k).UTC.FormatRFC3339 = true := by
  have hl1 := serve_later b boot r1 world
  have ht1 := (serve_greeting_world b boot r1 world hr1.1).1
  have hl2 := serveAll_later b boot mid ((mainServer b boot).serve r1 world).2
  have hl := later_trans hl1 hl2
  have hk : world.tick + 1
      < ((mainServer b boot).serveAll mid ((mainServer b boot).serve r1 world).2).2.tick + 1 := by
    have := hl2.2
    omega
  have hlen : ∀ (rs : List Request) (w : World),
      ((mainServer b boot).serveAll rs w).1.length = rs.length := by
    intro rs
    induction rs with
    | nil => intro w; rfl
    | cons x xs ih => intro w; rw [serveAll_cons]; simp only [List.length_cons, ih]
  have r1ok := hrange (world.tick + 1) (Nat.le_succ _)
  have r2ok := hrange
    (((mainServer b boot).serveAll mid ((mainServer b boot).serve r1 world).2).2.tick + 1)
    (by omega)
  refine ⟨((mainServer b boot).serve r1 world).1,
    ((mainServer b boot).serve r2
      ((mainServer b boot).serveAll mid ((mainServer b boot).serve r1 world).2).2).1,
    ((mainServer b boot).serveAll mid ((mainServer b boot).serve r1 world).2).1,
    ((mainServer b boot).serveAll mid ((mainServer b boot).serve r1 world).2).2.tick + 1,
    ?_, hlen _ _, hk, ?_, ?_, ?_, ?_, ?_, ?_, ?_, ?_, ?_⟩
  · rw [serveAll_cons, serveAll_append]
    rfl
  · exact greeting_time_utc b boot r1 world hr1.1 hr1.2 r1ok.1 r1ok.2
  · have h := greeting_time_utc b boot r2 _ hr2.1 hr2.2
      (by rw [timeAt_later _ _ hl]; exact r2ok.1) (by rw [timeAt_later _ _ hl]; exact r2ok.2)
    rw [timeAt_later _ _ hl] at h
    exact h
  · exact (stamp_shape (world.timeAt (world.tick + 1)).UTC rfl r1ok.1 r1ok.2).1
  · exact (stamp_shape (world.timeAt _).UTC rfl r2ok.1 r2ok.2).1
  · exact (stamp_shape (world.timeAt (world.tick + 1)).UTC rfl r1ok.1 r1ok.2).2
  · exact (stamp_shape (world.timeAt _).UTC rfl r2ok.1 r2ok.2).2
  · exact parse_format (world.timeAt (world.tick + 1)).UTC rfl r1ok.1 r1ok.2
  · exact parse_format (world.timeAt _).UTC rfl r2ok.1 r2ok.2
  · exact format_mono (world.timeAt (world.tick + 1)).UTC (world.timeAt _).UTC rfl rfl r1ok.1
      (hmono _ _ (Nat.le_succ _) (le_of_lt hk)) r2ok.2

theorem sampleWorld_sec (i : Nat) :
    (sampleWorld.timeAt i).sec = if i < 3 then 1705314600 else 1705314605 := by
  rw [timeAt_sec]
  show wrap64 (if i < 3 then 1705314600 else 1705314605) = _
  split <;> rfl

set_option maxRecDepth 100000 in
/-- C7, witness: in the sample world, whose wall clock stays in 2024 and moves
forward only, a GET request for "/", then a request for /healthz, then a POST
request for /foo. -/
theorem time_utc_rfc3339_witness :
    ((sampleRequest.greeted ∧ sampleRequest.Method ≠ lit "HEAD")
      ∧ ((requestFor (lit "POST") (lit "/foo")).greeted
        ∧ (requestFor (lit "POST") (lit "/foo")).Method ≠ lit "HEAD")
      ∧ (∀ i, sampleWorld.tick ≤ i →
          -62167219200 ≤ (sampleWorld.timeAt i).sec ∧ (sampleWorld.timeAt i).sec ≤ 253402300799)
      ∧ (∀ i j, sampleWorld.tick ≤ i → i ≤ j →
          (sampleWorld.timeAt i).sec ≤ (sampleWorld.timeAt j).sec))
    ∧ (sampleWorld.timeAt (sampleWorld.tick + 1)).UTC.FormatRFC3339 = lit "2024-01-15T10:30:00Z"
    ∧ ∃ (first last : SentResponse) (between : List SentResponse) (k : Nat),
        ((mainServer BuildVars.default sampleWorld).serveAll
          (sampleRequest :: ([requestFor (lit "GET") (lit "/healthz")]
            ++ [requestFor (lit "POST") (lit "/foo")])) sampleWorld).1
          = first :: (between ++ [last])
        ∧ bodyField first.body (lit "time_utc")
            = some (sampleWorld.timeAt (sampleWorld.tick + 1)).UTC.FormatRFC3339
        ∧ bodyField last.body (lit "time_utc") = some (sampleWorld.timeAt k).UTC.FormatRFC3339
        ∧ strLe (sampleWorld.timeAt (sampleWorld.tick + 1)).UTC.FormatRFC3339
            (sampleWorld.timeAt k).UTC.FormatRFC3339 = true := by
  have h1 : sampleRequest.greeted ∧ sampleRequest.Method ≠ lit "HEAD" := by decide
  have h2 : (requestFor (lit "POST") (lit "/foo")).greeted
      ∧ (requestFor (lit "POST") (lit "/foo")).Method ≠ lit "HEAD" := by decide
  have h3 : ∀ i, sampleWorld.tick ≤ i →
      -62167219200 ≤ (sampleWorld.timeAt i).sec ∧ (sampleWorld.timeAt i).sec ≤ 253402300799 := by
    intro i _
    rw [sampleWorld_sec]
    split <;> decide
  have h4 : ∀ i j, sampleWorld.tick ≤ i → i ≤ j →
      (sampleWorld.timeAt i).sec ≤ (sampleWorld.timeAt j).sec := by
    intro i j _ hij
    rw [sampleWorld_sec, sampleWorld_sec]
    split <;> split <;> omega
  obtain ⟨first, last, between, k, e, _, _, f1, f2, _, _, _, _, _, _, le⟩ :=
    time_utc_rfc3339 BuildVars.default sampleWorld sampleWorld sampleRequest
      (requestFor (lit "POST") (lit "/foo")) [requestFor (lit "GET") (lit "/healthz")]
      h1 h2 h3 h4
  exact ⟨⟨h1, h2, h3, h4⟩, by decide, first, last, between, k, e, f1, f2, le⟩

set_option maxRecDepth 100000 in
/-- C8, counterexample: four requests with a path other than /healthz that are
not answered with the 200 JSON greeting. A GET request for "//" gets a redirect
to "/", status 301, with an HTML body; a HEAD request for /foo gets status 200
and no body; a GET request for "*" gets status 400; a CONNECT request, whose
path is empty, does not get status 200. -/
theorem double_slash_redirected :
    ((requestFor (lit "GET") (lit "//")).Path ≠ lit "/healthz"
      ∧ ((mainServer BuildVars.default sampleWorld).serve (requestFor (lit "GET") (lit "//"))
          sampleWorld).1
        = { status := 301,
            header := [(lit "Content-Type", [lit "text/html; charset=utf-8"]),
                       (lit "Location", [lit "/"])],
            body := lit "<a href=\"/\">Moved Permanently</a>.\n\n" })
    ∧ ((mainServer BuildVars.default sampleWorld).serve (requestFor (lit "HEAD") (lit "/foo"))
          sampleWorld).1
        = { status := 200,
            header := [(lit "Content-Type", [lit "application/json; charset=utf-8"])],
            body := [] }
    ∧ ((mainServer BuildVars.default sampleWorld).serve (requestFor (lit "GET") (lit "*"))
          sampleWorld).1.status = 400
    ∧ ((mainServer BuildVars.default sampleWorld).serve connectRequest sampleWorld).1.status
        ≠ 200 := by
  refine ⟨⟨by decide, ?_⟩, ?_, ?_, ?_⟩
  · rw [serve_eq _ _ _ _ (by decide), mux_unclean _ _ _ _ (by decide) (by decide) (by decide)]
    decide
  · rw [serve_greeting _ _ _ _ (by decide)]
    decide
  · rw [serve_eq _ _ _ _ (by decide)]
    decide
  · rw [serve_eq _ _ _ _ (by decide)]
    decide

/-- C8, amended: the routing table has the two entries "/healthz" and "/". Of
the requests that are not CONNECT and not for "*", one whose path is exactly
/healthz is served by the health handler; one with any other path that is in
canonical form (`cleanPath` leaves it as it is, as with /foo, /healthz/ and
/healthzx) is served by the greeting handler and gets status 200, the JSON
Content-Type and the greeting as body, the body being left out when the method
is HEAD; one whose path is not in canonical form gets the redirect of
`http.Redirect` to the canonical path, status 301; none gets a 404. -/
theorem routing_table (b : BuildVars) (boot world : World) (r : Request)
    (hm : r.Method ≠ lit "CONNECT") (hu : r.RequestURI ≠ lit "*") :
    (newMux b).m.map (fun e => e.pattern) = [lit "/healthz", lit "/"]
    ∧ (r.Path = lit "/healthz" →
        (∀ (w : ResponseWriter) (world : World),
          (newMux b).ServeHTTP w r world = healthzHandler w r world)
        ∧ ((mainServer b boot).serve r world).1
          = { status := 200,
              header := [(lit "Content-Type", [lit "text/plain; charset=utf-8"])],
              body := if r.Method = lit "HEAD" then [] else lit "ok\n" })
    ∧ (r.Path ≠ lit "/healthz" → cleanPath r.Path = r.Path →
        (∀ (w : ResponseWriter) (world : World),
          (newMux b).ServeHTTP w r world = rootHandler b w r world)
        ∧ ((mainServer b boot).serve r world).1
          = { status := 200,
              header := [(lit "Content-Type", [lit "application/json; charset=utf-8"])],
              body := if r.Method = lit "HEAD" then []
                else (rootHandler b ResponseWriter.fresh r world.Now.2).1.finish.body }
        ∧ bodyField (rootHandler b ResponseWriter.fresh r world.Now.2).1.finish.body
            (lit "message") = some (lit "Hello from GitOps!"))
    ∧ (cleanPath r.Path ≠ r.Path →
        (∀ (w : ResponseWriter) (world : World),
          (newMux b).ServeHTTP w r world
            = Redirect (URL.String { Path := cleanPath r.Path, RawQuery := r.RawQuery }) 301
                w r world)
        ∧ ((mainServer b boot).serve r world).1.status = 301
        ∧ ((mainServer b boot).serve r world).2.lookups = world.lookups)
    ∧ ((mainServer b boot).serve r world).1.status ≠ 404
    ∧ cleanPath (lit "/foo") = lit "/foo"
    ∧ cleanPath (lit "/healthz/") = lit "/healthz/"
    ∧ cleanPath (lit "/healthzx") = lit "/healthzx" := by
  have hno : ¬ (r.RequestURI = lit "*" ∧ r.Method = lit "OPTIONS") := fun h => hu h.1
  have hred : cleanPath r.Path ≠ r.Path →
      ((mainServer b boot).serve r world).1.status = 301 := by
    intro hc
    rw [serve_eq b boot r world hno, mux_unclean b _ r _ hu hm hc]
    exact Redirect_status _ _ _ _
  refine ⟨?_, ?_, ?_, ?_, ?_, by decide, by decide, by decide⟩
  · rw [newMux_eq]; rfl
  · intro hp
    exact ⟨fun w world => mux_healthz b w r world hu hp, serve_healthz b boot r world hu hp⟩
  · intro hp hc
    refine ⟨fun w world => mux_greeting b w r world ⟨hu, hp, hc⟩, ?_, ?_⟩
    · rw [serve_greeting b boot r world ⟨hu, hp, hc⟩, rootHandler_finish]
      rfl
    · rw [rootHandler_finish, (bodyField_text _).1]
      rfl
  · intro hc
    refine ⟨fun w world => mux_unclean b w r world hu hm hc, hred hc, ?_⟩
    rw [serve_eq b boot r world hno, loggingMiddleware_snd, Since_snd,
      mux_unclean b _ r _ hu hm hc, Redirect_snd]
    rfl
  · by_cases hc : cleanPath r.Path = r.Path
    · by_cases hp : r.Path = lit "/healthz"
      · rw [serve_healthz b boot r world hu hp]
        show (200 : Nat) ≠ 404
        decide
      · rw [serve_greeting b boot r world ⟨hu, hp, hc⟩]
        show (200 : Nat) ≠ 404
        decide
    · rw [hred hc]
      decide

/-- C8, witness: a GET request for /foo, which is served by the greeting
handler, and a GET request for /a//b, which is redirected. -/
theorem routing_table_witness :
    ((requestFor (lit "GET") (lit "/foo")).Method ≠ lit "CONNECT"
      ∧ (requestFor (lit "GET") (lit "/foo")).RequestURI ≠ lit "*")
    ∧ ((mainServer BuildVars.default sampleWorld).serve (requestFor (lit "GET") (lit "/foo"))
        sampleWorld).1.status ≠ 404
    ∧ bodyField (rootHandler BuildVars.default ResponseWriter.fresh
        (requestFor (lit "GET") (lit "/foo")) sampleWorld.Now.2).1.finish.body (lit "message")
        = some (lit "Hello from GitOps!") :=
  ⟨⟨by decide, by decide⟩,
    (routing_table BuildVars.default sampleWorld sampleWorld (requestFor (lit "GET") (lit "/foo"))
      (by decide) (by decide)).2.2.2.2.1,
    ((routing_table BuildVars.default sampleWorld sampleWorld
      (requestFor (lit "GET") (lit "/foo")) (by decide) (by decide)).2.2.1
      (by decide) (by decide)).2.2⟩

/-- C9: the server main builds has a read-header timeout of exactly five
seconds and no other timeout set (read, write and idle are zero), whatever
PORT and the build variables are; its handler is the logging middleware around
the mux, and its address is ":" followed by the port `getenv` resolves. -/
theorem server_config (b : BuildVars) (world : World) :
    (mainServer b world).ReadHeaderTimeout = 5 * Second
    ∧ (mainServer b world).ReadHeaderTimeout = 5000000000
    ∧ (mainServer b world).ReadTimeout = 0
    ∧ (mainServer b world).WriteTimeout = 0
    ∧ (mainServer b world).IdleTimeout = 0
    ∧ (mainServer b world).Handler = loggingMiddleware (newMux b).ServeHTTP
    ∧ (mainServer b world).Addr = lit ":" ++ getenv world (lit "PORT") (lit "8080") :=
  ⟨rfl, rfl, rfl, rfl, rfl, rfl, rfl⟩

/-- C10, counterexample: in the same world a GET request and a HEAD request
for /healthz do not get the same response, nor do a GET request and a HEAD
request for "/": the HEAD request gets the status and the header and no body,
the GET request gets the body as well. -/
theorem head_differs_from_get :
    ((mainServer BuildVars.default sampleWorld).serve (requestFor (lit "HEAD") (lit "/healthz"))
        sampleWorld).1
      ≠ ((mainServer BuildVars.default sampleWorld).serve
          (requestFor (lit "GET") (lit "/healthz")) sampleWorld).1
    ∧ ((mainServer BuildVars.default sampleWorld).serve (requestFor (lit "GET") (lit "/healthz"))
        sampleWorld).1.body = lit "ok\n"
    ∧ ((mainServer BuildVars.default sampleWorld).serve (requestFor (lit "HEAD") (lit "/"))
        sampleWorld).1.body = []
    ∧ ((mainServer BuildVars.default sampleWorld).serve (requestFor (lit "GET") (lit "/"))
        sampleWorld).1.body ≠ []
    ∧ ((mainServer BuildVars.default sampleWorld).serve (requestFor (lit "HEAD") (lit "/"))
        sampleWorld).1.status
      = ((mainServer BuildVars.default sampleWorld).serve (requestFor (lit "GET") (lit "/"))
        sampleWorld).1.status := by
  rw [serve_healthz _ _ _ _ (by decide) (by decide),
    serve_healthz _ _ _ _ (by decide) (by decide),
    serve_greeting _ _ _ _ (by decide), serve_greeting _ _ _ _ (by decide)]
  refine ⟨by decide, by decide, by decide, ?_, rfl⟩
  show (newResponse BuildVars.default sampleWorld.host sampleWorld.Now.2.Now.1).text ≠ []
  intro h
  have := congrArg List.length h
  simp [Response.text, layout] at this

/-- C10, amended: neither handler looks at the request: two requests that
differ in method, query, headers or body make the health handler, and the
greeting handler in the same world, do the same to the writer. The responses
sent are the same when both requests are HEAD or neither is; a HEAD request
gets the same status and header as any other and no body. A request for
/healthz or for "/" is dispatched to the health handler or to the greeting
handler whatever its method, and is answered with status 200, never 405. -/
theorem handlers_ignore_request (b : BuildVars) (w : ResponseWriter) (r1 r2 : Request)
    (world boot : World) :
    healthzHandler w r1 world = healthzHandler w r2 world
    ∧ rootHandler b w r1 world = rootHandler b w r2 world
    ∧ ((r1.Method = lit "HEAD" ↔ r2.Method = lit "HEAD") →
        (healthzHandler ResponseWriter.fresh r1 world).1.response r1
          = (healthzHandler ResponseWriter.fresh r2 world).1.response r2
        ∧ (rootHandler b ResponseWriter.fresh r1 world).1.response r1
          = (rootHandler b ResponseWriter.fresh r2 world).1.response r2)
    ∧ ((healthzHandler ResponseWriter.fresh r1 world).1.response r1).status
        = ((healthzHandler ResponseWriter.fresh r2 world).1.response r2).status
    ∧ ((healthzHandler ResponseWriter.fresh r1 world).1.response r1).header
        = ((healthzHandler ResponseWriter.fresh r2 world).1.response r2).header
    ∧ ((rootHandler b ResponseWriter.fresh r1 world).1.response r1).status
        = ((rootHandler b ResponseWriter.fresh r2 world).1.response r2).status
    ∧ ((rootHandler b ResponseWriter.fresh r1 world).1.response r1).header
        = ((rootHandler b ResponseWriter.fresh r2 world).1.response r2).header
    ∧ (r1.Method = lit "HEAD" →
        ((healthzHandler ResponseWriter.fresh r1 world).1.response r1).body = []
        ∧ ((rootHandler b ResponseWriter.fresh r1 world).1.response r1).body = [])
    ∧ (r1.RequestURI ≠ lit "*" → r1.Path = lit "/healthz" →
        (newMux b).ServeHTTP w r1 world = healthzHandler w r1 world
        ∧ ((mainServer b boot).serve r1 world).1.status = 200)
    ∧ (r1.RequestURI ≠ lit "*" → r1.Path = lit "/" →
        (newMux b).ServeHTTP w r1 world = rootHandler b w r1 world
        ∧ ((mainServer b boot).serve r1 world).1.status = 200)
    ∧ (r1.RequestURI ≠ lit "*" → r2.RequestURI ≠ lit "*" → r1.Path = r2.Path →
        r1.Path = lit "/healthz" ∨ r1.Path = lit "/" →
        (r1.Method = lit "HEAD" ↔ r2.Method = lit "HEAD") →
        ((mainServer b boot).serve r1 world).1 = ((mainServer b boot).serve r2 world).1) := by
  have hsw : ∀ (m1 m2 : GoString) (s : Nat) (ct body : GoString),
      (m1 = lit "HEAD" ↔ m2 = lit "HEAD") → sentWith m1 s ct body = sentWith m2 s ct body := by
    intro m1 m2 s ct body h
    unfold sentWith
    by_cases h1 : m1 = lit "HEAD"
    · rw [if_pos h1, if_pos (h.mp h1)]
    · rw [if_neg h1, if_neg (fun h2 => h1 (h.mpr h2))]
  have hroot : ∀ r : Request, r.RequestURI ≠ lit "*" → r.Path = lit "/" → r.greeted := by
    intro r hu hp
    exact ⟨hu, by rw [hp]; decide, by rw [hp]; decide⟩
  refine ⟨rfl, rfl, ?_, rfl, rfl, ?_, ?_, ?_, ?_, ?_, ?_⟩
  · intro h
    rw [healthz_response, healthz_response, root_response, root_response]
    exact ⟨hsw _ _ _ _ _ h, hsw _ _ _ _ _ h⟩
  · rw [root_response, root_response]
    rfl
  · rw [root_response, root_response]
    rfl
  · intro h
    rw [healthz_response, root_response]
    unfold sentWith
    simp only [h, if_true, and_self]
  · intro hu hp
    refine ⟨mux_healthz b w r1 world hu hp, ?_⟩
    rw [serve_healthz b boot r1 world hu hp]
    rfl
  · intro hu hp
    refine ⟨mux_greeting b w r1 world (hroot r1 hu hp), ?_⟩
    rw [serve_greeting b boot r1 world (hroot r1 hu hp)]
    rfl
  · intro hu1 hu2 hp hcase h
    rcases hcase with h1 | h1
    · rw [serve_healthz b boot r1 world hu1 h1, serve_healthz b boot r2 world hu2 (hp ▸ h1)]
      exact hsw _ _ _ _ _ h
    · rw [serve_greeting b boot r1 world (hroot r1 hu1 h1),
        serve_greeting b boot r2 world (hroot r2 hu2 (hp ▸ h1))]
      exact hsw _ _ _ _ _ h

/-- C10, witness: a DELETE request for /healthz with a query, a header and a
body, against a GET request for /healthz. -/
theorem handlers_ignore_request_witness :
    (deleteRequest.RequestURI ≠ lit "*" ∧ deleteRequest.Path = lit "/healthz")
    ∧ ((mainServer BuildVars.default sampleWorld).serve deleteRequest sampleWorld).1
        = ((mainServer BuildVars.default sampleWorld).serve
            (requestFor (lit "GET") (lit "/healthz")) sampleWorld).1
    ∧ ((mainServer BuildVars.default sampleWorld).serve deleteRequest sampleWorld).1.status
        = 200 :=
  ⟨⟨by decide, by decide⟩,
    (handlers_ignore_request BuildVars.default ResponseWriter.fresh deleteRequest
      (requestFor (lit "GET") (lit "/healthz")) sampleWorld sampleWorld).2.2.2.2.2.2.2.2.2.2
      (by decide) (by decide) (by decide) (by decide) (by decide),
    ((handlers_ignore_request BuildVars.default ResponseWriter.fresh deleteRequest
      (requestFor (lit "GET") (lit "/healthz")) sampleWorld sampleWorld).2.2.2.2.2.2.2.2.1
      (by decide) (by decide)).2⟩

end HelloWeb
